import Mathlib

/-!
# Ray / axis-aligned box intersection data generator

A shallow embedding of the geometry kernel of `src/intersection_data_generator.cc`
(`Vec`, `Box`, `Ray`, `getBoxChild`, `getBoxDiag`, `vectorLength`, `normalizeVector`,
`getRayPoint`, `getIntersectChild`, `getRayBoxIntersection`) and of its sampler
(`generateValue`, `generateVector`, `generateBox`, `generateRay`, the range boxes of
`main`), together with the properties stated about them.

The C++ code computes on `float`.  Every function below is written once, over an
arbitrary scalar type `α` that provides the arithmetic and comparison operators the
C++ text uses.  Three readings of the scalars are then used:

* a linearly ordered field (`ℚ`, `ℝ`): exact arithmetic, no rounding;
* `XFloat`: exact rational arithmetic extended with the IEEE-754 special values
  (signed zero, the two infinities, NaN), for the paths on which the code divides
  by a zero direction component;
* `F32`: rational arithmetic in which every operation rounds its result to a
  significand of 24 bits, as binary32 does, for the sampler.
-/

namespace GeometryGenerator

/-! ## Data model -/

/-- The C++ `struct Vec`. -/
structure Vec (α : Type) where
  x_ : α
  y_ : α
  z_ : α
  deriving DecidableEq, Repr

/-- The C++ `struct Box`. -/
structure Box (α : Type) where
  min_ : Vec α
  max_ : Vec α
  deriving DecidableEq, Repr

/-- The C++ `struct Ray`. -/
structure Ray (α : Type) where
  pos_ : Vec α
  dir_ : Vec α
  deriving DecidableEq, Repr

/-! ## Scalars with IEEE-754 special values -/

/-- A `float` without rounding: a rational number, negative zero, an infinity or NaN.
`fin 0` is `+0`. -/
inductive XFloat where
  | nan : XFloat
  | ninf : XFloat
  | pinf : XFloat
  | nzero : XFloat
  | fin (q : ℚ) : XFloat
  deriving DecidableEq, Repr

namespace XFloat

/-- Sign bit of a non-NaN value (`true` for negative values and `-0`). -/
def signBit : XFloat → Bool
  | nan => false
  | ninf => true
  | pinf => false
  | nzero => true
  | fin q => decide (q < 0)

/-- Numeric value of a finite value (`0` for both zeros; `0` by convention elsewhere). -/
def val : XFloat → ℚ
  | fin q => q
  | _ => 0

/-- Finite values: both zeros and the rationals. -/
def isFinite : XFloat → Bool
  | nzero => true
  | fin _ => true
  | _ => false

/-- Both zeros. -/
def isZero : XFloat → Bool
  | nzero => true
  | fin q => decide (q = 0)
  | _ => false

/-- A zero with the given sign bit. -/
def zeroOf (s : Bool) : XFloat := if s then nzero else fin 0

/-- An infinity with the given sign bit. -/
def infOf (s : Bool) : XFloat := if s then ninf else pinf

/-- A finite result `q` of a product or quotient whose sign bit is `s`. -/
def signed (s : Bool) (q : ℚ) : XFloat := if q = 0 then zeroOf s else fin q

/-- IEEE negation: flips the sign bit. -/
def neg : XFloat → XFloat
  | nan => nan
  | ninf => pinf
  | pinf => ninf
  | nzero => fin 0
  | fin q => if q = 0 then nzero else fin (-q)

/-- IEEE addition (round to nearest, results exact). -/
def add : XFloat → XFloat → XFloat
  | nan, _ => nan
  | _, nan => nan
  | pinf, ninf => nan
  | ninf, pinf => nan
  | pinf, _ => pinf
  | _, pinf => pinf
  | ninf, _ => ninf
  | _, ninf => ninf
  | nzero, nzero => nzero
  | nzero, fin q => fin q
  | fin q, nzero => fin q
  | fin p, fin q => fin (p + q)

/-- IEEE multiplication: the sign is the exclusive or of the signs. -/
def mul (a b : XFloat) : XFloat :=
  match a, b with
  | nan, _ => nan
  | _, nan => nan
  | _, _ =>
    let s := xor a.signBit b.signBit
    if a.isFinite && b.isFinite then signed s (a.val * b.val)
    else if a.isZero || b.isZero then nan
    else infOf s

/-- IEEE division. -/
def div (a b : XFloat) : XFloat :=
  match a, b with
  | nan, _ => nan
  | _, nan => nan
  | _, _ =>
    let s := xor a.signBit b.signBit
    if a.isFinite then
      if b.isFinite then
        if b.isZero then (if a.isZero then nan else infOf s)
        else signed s (a.val / b.val)
      else zeroOf s
    else
      if b.isFinite then infOf s else nan

/-- IEEE `<`: false as soon as an operand is NaN; the two zeros are equal. -/
def lt : XFloat → XFloat → Bool
  | nan, _ => false
  | _, nan => false
  | _, ninf => false
  | ninf, _ => true
  | pinf, _ => false
  | _, pinf => true
  | a, b => decide (a.val < b.val)

/-- IEEE `<=`: false as soon as an operand is NaN; the two zeros are equal. -/
def le : XFloat → XFloat → Bool
  | nan, _ => false
  | _, nan => false
  | ninf, _ => true
  | _, ninf => false
  | _, pinf => true
  | pinf, _ => false
  | a, b => decide (a.val ≤ b.val)

instance : Neg XFloat := ⟨neg⟩
instance : Add XFloat := ⟨add⟩
instance : Sub XFloat := ⟨fun a b => add a (neg b)⟩
instance : Mul XFloat := ⟨mul⟩
instance : Div XFloat := ⟨div⟩
instance : LT XFloat := ⟨fun a b => lt a b = true⟩
instance : LE XFloat := ⟨fun a b => le a b = true⟩
instance : DecidableRel (fun a b : XFloat => a < b) :=
  fun a b => inferInstanceAs (Decidable (lt a b = true))
instance : DecidableRel (fun a b : XFloat => a ≤ b) :=
  fun a b => inferInstanceAs (Decidable (le a b = true))
instance (n : Nat) : OfNat XFloat n := ⟨fin n⟩

end XFloat

/-! ## Scalars with binary32 rounding -/

/-- Rounding of a rational number to the nearest integer, ties to the even one. -/
def roundHalfEven (q : ℚ) : ℤ :=
  if q - ⌊q⌋ < 1 / 2 then ⌊q⌋
  else if 1 / 2 < q - ⌊q⌋ then ⌊q⌋ + 1
  else if ⌊q⌋ % 2 = 0 then ⌊q⌋ else ⌊q⌋ + 1

/-- Rounding of a rational number to the nearest number with a significand of 24 bits,
ties to even: the rounding of IEEE-754 binary32 in its default mode.  For `q ≠ 0` the
exponent `e = Int.log 2 |q|` is the one with `2 ^ e ≤ |q| < 2 ^ (e + 1)`, and `q` is
rounded to a multiple of `2 ^ (e - 23)`.  The exponent range is not limited: there is no
overflow and there are no subnormal numbers. -/
def roundToFloat (q : ℚ) : ℚ :=
  if q = 0 then 0
  else (roundHalfEven (q / 2 ^ (Int.log 2 |q| - 23)) : ℚ) * 2 ^ (Int.log 2 |q| - 23)

/-- A `float` with rounding: a rational number; every arithmetic operation and every
conversion from an integer rounds its exact result with `roundToFloat`.  Negation and the
comparisons are exact.  There are no infinities and no NaN: the quotient by zero is `0`,
as in `ℚ`, so this reading is used only where no divisor is zero. -/
structure F32 where
  val : ℚ
  deriving DecidableEq, Repr

namespace F32

instance : Neg F32 := ⟨fun a => ⟨-a.val⟩⟩
instance : Add F32 := ⟨fun a b => ⟨roundToFloat (a.val + b.val)⟩⟩
instance : Sub F32 := ⟨fun a b => ⟨roundToFloat (a.val - b.val)⟩⟩
instance : Mul F32 := ⟨fun a b => ⟨roundToFloat (a.val * b.val)⟩⟩
instance : Div F32 := ⟨fun a b => ⟨roundToFloat (a.val / b.val)⟩⟩
instance : LT F32 := ⟨fun a b => a.val < b.val⟩
instance : LE F32 := ⟨fun a b => a.val ≤ b.val⟩
instance : DecidableRel (fun a b : F32 => a < b) :=
  fun a b => inferInstanceAs (Decidable (a.val < b.val))
instance : DecidableRel (fun a b : F32 => a ≤ b) :=
  fun a b => inferInstanceAs (Decidable (a.val ≤ b.val))
instance : NatCast F32 := ⟨fun n => ⟨roundToFloat (n : ℚ)⟩⟩
instance (n : Nat) : OfNat F32 n := ⟨⟨roundToFloat (n : ℚ)⟩⟩

end F32

/-! ## The geometry kernel -/

section Kernel

variable {α : Type} [Add α] [Sub α] [Mul α] [Div α] [Neg α] [LT α] [LE α]
  [DecidableRel (fun a b : α => a < b)] [DecidableRel (fun a b : α => a ≤ b)]
  [OfNat α 0] [OfNat α 1] [OfNat α 2]

/-- The function `vectorLength`; `std::sqrt` is the parameter `sqrt`. -/
def vectorLength (sqrt : α → α) (vec : Vec α) : α :=
  sqrt (vec.x_ * vec.x_ + vec.y_ * vec.y_ + vec.z_ * vec.z_)

/-- The function `normalizeVector`; `std::sqrt` is the parameter `sqrt`. -/
def normalizeVector (sqrt : α → α) (vec : Vec α) : Vec α :=
  let length := vectorLength sqrt vec
  ⟨vec.x_ / length, vec.y_ / length, vec.z_ / length⟩

/-- The function `getBoxChild`; the `std::uint8_t` index is a natural number. -/
def getBoxChild (box : Box α) (child_index : Nat) : Box α :=
  let half : Vec α := ⟨(box.max_.x_ - box.min_.x_) / 2,
                       (box.max_.y_ - box.min_.y_) / 2,
                       (box.max_.z_ - box.min_.z_) / 2⟩
  match child_index with
  | 0 => ⟨⟨box.min_.x_, box.min_.y_, box.min_.z_⟩,
          ⟨box.max_.x_ - half.x_, box.max_.y_ - half.y_, box.max_.z_ - half.z_⟩⟩
  | 1 => ⟨⟨box.min_.x_ + half.x_, box.min_.y_, box.min_.z_⟩,
          ⟨box.max_.x_, box.max_.y_ - half.y_, box.max_.z_ - half.z_⟩⟩
  | 2 => ⟨⟨box.min_.x_, box.min_.y_ + half.y_, box.min_.z_⟩,
          ⟨box.max_.x_ - half.x_, box.max_.y_, box.max_.z_ - half.z_⟩⟩
  | 3 => ⟨⟨box.min_.x_ + half.x_, box.min_.y_ + half.y_, box.min_.z_⟩,
          ⟨box.max_.x_, box.max_.y_, box.max_.z_ - half.z_⟩⟩
  | 4 => ⟨⟨box.min_.x_, box.min_.y_, box.min_.z_ + half.z_⟩,
          ⟨box.max_.x_ - half.x_, box.max_.y_ - half.y_, box.max_.z_⟩⟩
  | 5 => ⟨⟨box.min_.x_ + half.x_, box.min_.y_, box.min_.z_ + half.z_⟩,
          ⟨box.max_.x_, box.max_.y_ - half.y_, box.max_.z_⟩⟩
  | 6 => ⟨⟨box.min_.x_, box.min_.y_ + half.y_, box.min_.z_ + half.z_⟩,
          ⟨box.max_.x_ - half.x_, box.max_.y_, box.max_.z_⟩⟩
  | 7 => ⟨⟨box.min_.x_ + half.x_, box.min_.y_ + half.y_, box.min_.z_ + half.z_⟩,
          ⟨box.max_.x_, box.max_.y_, box.max_.z_⟩⟩
  | _ => box

/-- The function `getBoxDiag`; `std::sqrt` is the parameter `sqrt`. -/
def getBoxDiag (sqrt : α → α) (box : Box α) : α :=
  sqrt (((box.max_.x_ - box.min_.x_) * (box.max_.x_ - box.min_.x_)) +
        ((box.max_.y_ - box.min_.y_) * (box.max_.y_ - box.min_.y_)) +
        ((box.max_.z_ - box.min_.z_) * (box.max_.z_ - box.min_.z_)))

/-- The function `getRayPoint`. -/
def getRayPoint (ray : Ray α) (dist : α) : Vec α :=
  ⟨ray.pos_.x_ + ray.dir_.x_ * dist, ray.pos_.y_ + ray.dir_.y_ * dist,
   ray.pos_.z_ + ray.dir_.z_ * dist⟩

/-- The function `getIntersectChild`; the divisor `2u` is converted to `float`. -/
def getIntersectChild (box : Box α) (point : Vec α) : Nat :=
  let box_half : Vec α := ⟨(box.max_.x_ - box.min_.x_) / 2,
                           (box.max_.y_ - box.min_.y_) / 2,
                           (box.max_.z_ - box.min_.z_) / 2⟩
  if point.x_ < box_half.x_ then
    if point.y_ < box_half.y_ then
      if point.z_ < box_half.z_ then 0 else 4
    else
      if point.z_ < box_half.z_ then 2 else 6
  else
    if point.y_ < box_half.y_ then
      if point.z_ < box_half.z_ then 1 else 5
    else
      if point.z_ < box_half.z_ then 3 else 7

/-- What a call of `getRayBoxIntersection` leaves behind: the returned `float`, the two
output parameters after the call, and whether control reached the final `return tmin`
(`final = false` on the two early `return 0.0f`). -/
structure Intersection (α : Type) where
  dist : α
  intersect_child : Nat
  reflect_ray : Ray α
  final : Bool
  deriving DecidableEq, Repr

/-- The function `getRayBoxIntersection`; `intersect_child` and `reflect_ray` are the values of the
two reference parameters on entry.  A C++ `if` that assigns two variables is one `if`
producing a pair (`tx`, `ty`, `tz` for the near/far parameters of a slab, `sy`, `sz`
for the update of `tmin` and `reflect_dir`). -/
def getRayBoxIntersection (ray : Ray α) (box : Box α)
    (intersect_child : Nat) (reflect_ray : Ray α) : Intersection α :=
  let divx : α := 1 / ray.dir_.x_
  let tx : α × α :=
    if divx ≥ 0 then
      ((box.min_.x_ - ray.pos_.x_) * divx, (box.max_.x_ - ray.pos_.x_) * divx)
    else
      ((box.max_.x_ - ray.pos_.x_) * divx, (box.min_.x_ - ray.pos_.x_) * divx)
  let tmin : α := tx.1
  let tmax : α := tx.2
  let reflect_dir : Vec α := ⟨-ray.dir_.x_, ray.dir_.y_, ray.dir_.z_⟩
  let divy : α := 1 / ray.dir_.y_
  let ty : α × α :=
    if divy ≥ 0 then
      ((box.min_.y_ - ray.pos_.y_) * divy, (box.max_.y_ - ray.pos_.y_) * divy)
    else
      ((box.max_.y_ - ray.pos_.y_) * divy, (box.min_.y_ - ray.pos_.y_) * divy)
  let tymin : α := ty.1
  let tymax : α := ty.2
  if tmin > tymax ∨ tymin > tmax then
    ⟨0, intersect_child, reflect_ray, false⟩
  else
    let sy : α × Vec α :=
      if tymin > tmin then (tymin, ⟨ray.dir_.x_, -ray.dir_.y_, ray.dir_.z_⟩)
      else (tmin, reflect_dir)
    let tmin : α := sy.1
    let reflect_dir : Vec α := sy.2
    let tmax : α := if tymax < tmax then tymax else tmax
    let divz : α := 1 / ray.dir_.z_
    let tz : α × α :=
      if divz ≥ 0 then
        ((box.min_.z_ - ray.pos_.z_) * divz, (box.max_.z_ - ray.pos_.z_) * divz)
      else
        ((box.max_.z_ - ray.pos_.z_) * divz, (box.min_.z_ - ray.pos_.z_) * divz)
    let tzmin : α := tz.1
    let tzmax : α := tz.2
    if tmin > tzmax ∨ tzmin > tmax then
      ⟨0, intersect_child, reflect_ray, false⟩
    else
      let sz : α × Vec α :=
        if tzmin > tmin then (tzmin, ⟨ray.dir_.x_, ray.dir_.y_, -ray.dir_.z_⟩)
        else (tmin, reflect_dir)
      let tmin : α := sz.1
      let reflect_dir : Vec α := sz.2
      let point : Vec α := getRayPoint ray tmin
      ⟨tmin, getIntersectChild box point, ⟨point, reflect_dir⟩, true⟩

end Kernel

/-! ## The sampler -/

section Sampler

variable {α : Type} [Add α] [Sub α] [Mul α] [Div α] [Neg α] [NatCast α] [OfNat α 0]
  [OfNat α 5] [OfNat α 10] [DecidableEq α]

/-- The function `generateValue`.  The pseudo-random source is the sequence `rand` of the
values that successive calls of `std::rand()` return, and `k` is the number of calls made
so far; the result is the generated value with the new number of calls.  The macro
`RAND_MAX` is the parameter `RAND_MAX`; both integers are converted to `float`. -/
def generateValue (RAND_MAX : Nat) (rand : Nat → Nat) (k : Nat) (min max : α) : α × Nat :=
  (min + (rand k : α) / ((RAND_MAX : α) / (max - min)), k + 1)

/-- The function `generateVector`: three draws, in the order X, Y, Z. -/
def generateVector (RAND_MAX : Nat) (rand : Nat → Nat) (k : Nat) (min max : Vec α) :
    Vec α × Nat :=
  let x := generateValue RAND_MAX rand k min.x_ max.x_
  let y := generateValue RAND_MAX rand x.2 min.y_ max.y_
  let z := generateValue RAND_MAX rand y.2 min.z_ max.z_
  (⟨x.1, y.1, z.1⟩, z.2)

/-- The function `generateBox`: the `min` corner is drawn between the `min` corners of the
two range boxes, then the `max` corner between their `max` corners. -/
def generateBox (RAND_MAX : Nat) (rand : Nat → Nat) (k : Nat) (min max : Box α) :
    Box α × Nat :=
  let lo := generateVector RAND_MAX rand k min.min_ max.min_
  let hi := generateVector RAND_MAX rand lo.2 min.max_ max.max_
  (⟨lo.1, hi.1⟩, hi.2)

/-- The `do ... while (vectorLength(dir) == 0.0f)` loop of `generateRay`, with at most
`fuel` iterations: `none` when the fuel runs out, otherwise the accepted direction and the
new number of calls of `std::rand()`. -/
def generateRayDir (sqrt : α → α) (RAND_MAX : Nat) (rand : Nat → Nat) (min max : Ray α) :
    Nat → Nat → Option (Vec α × Nat)
  | 0, _ => none
  | fuel + 1, k =>
    let dir := generateVector RAND_MAX rand k min.dir_ max.dir_
    if vectorLength sqrt dir.1 = 0 then generateRayDir sqrt RAND_MAX rand min max fuel dir.2
    else some dir

/-- The function `generateRay`: the rejection loop for the direction, then the origin,
then the normalization of the direction. -/
def generateRay (sqrt : α → α) (RAND_MAX : Nat) (rand : Nat → Nat) (fuel k : Nat)
    (min max : Ray α) : Option (Ray α × Nat) :=
  match generateRayDir sqrt RAND_MAX rand min max fuel k with
  | none => none
  | some dir =>
    let pos := generateVector RAND_MAX rand dir.2 min.pos_ max.pos_
    some (⟨pos.1, normalizeVector sqrt dir.1⟩, pos.2)

/-- The range box `box_min` of iteration `i` of the loop of `main`.  The loop index is
below `iterations_count`, so `i + 1u` does not wrap. -/
def mainBoxMin (i : Nat) : Box α :=
  ⟨⟨-10 * ((i + 1 : Nat) : α), -10 * ((i + 1 : Nat) : α), -10 * ((i + 1 : Nat) : α)⟩,
   ⟨5 * ((i + 1 : Nat) : α), 5 * ((i + 1 : Nat) : α), 5 * ((i + 1 : Nat) : α)⟩⟩

/-- The range box `box_max` of iteration `i` of the loop of `main`. -/
def mainBoxMax (i : Nat) : Box α :=
  ⟨⟨-5 * ((i + 1 : Nat) : α), -5 * ((i + 1 : Nat) : α), -5 * ((i + 1 : Nat) : α)⟩,
   ⟨10 * ((i + 1 : Nat) : α), 10 * ((i + 1 : Nat) : α), 10 * ((i + 1 : Nat) : α)⟩⟩

end Sampler

/-! ## Geometric predicates used in the statements -/

/-- Component-wise `≤` on vectors. -/
def Vec.le {α : Type} [LE α] (u v : Vec α) : Prop :=
  u.x_ ≤ v.x_ ∧ u.y_ ≤ v.y_ ∧ u.z_ ≤ v.z_

/-- Component-wise `<` on vectors. -/
def Vec.lt {α : Type} [LT α] (u v : Vec α) : Prop :=
  u.x_ < v.x_ ∧ u.y_ < v.y_ ∧ u.z_ < v.z_

/-- Every coordinate of the `F32` vector `v`, as a rational number, lies in `[lo, hi]`. -/
def Vec.valBetween (lo hi : ℚ) (v : Vec F32) : Prop :=
  (lo ≤ v.x_.val ∧ v.x_.val ≤ hi) ∧ (lo ≤ v.y_.val ∧ v.y_.val ≤ hi) ∧
    (lo ≤ v.z_.val ∧ v.z_.val ≤ hi)

/-- The invariant of a box: `min.axis ≤ max.axis` on every axis. -/
def Box.Valid {α : Type} [LE α] (b : Box α) : Prop := Vec.le b.min_ b.max_

/-- The point `p` lies in the closed box `b`. -/
def Box.contains {α : Type} [LE α] (b : Box α) (p : Vec α) : Prop :=
  Vec.le b.min_ p ∧ Vec.le p b.max_

/-- The point `p` lies in the interior of the box `b`. -/
def Box.interior {α : Type} [LT α] (b : Box α) (p : Vec α) : Prop :=
  Vec.lt b.min_ p ∧ Vec.lt p b.max_

/-- The box `c` lies inside the box `b` and is itself a valid box. -/
def Box.inside {α : Type} [LE α] (c b : Box α) : Prop :=
  Vec.le b.min_ c.min_ ∧ Vec.le c.min_ c.max_ ∧ Vec.le c.max_ b.max_

/-- The point `p` lies on the boundary planes of `b`: on some axis its coordinate is the
`min` or the `max` of the box. -/
def Box.onFace {α : Type} (b : Box α) (p : Vec α) : Prop :=
  (p.x_ = b.min_.x_ ∨ p.x_ = b.max_.x_) ∨ (p.y_ = b.min_.y_ ∨ p.y_ = b.max_.y_) ∨
    (p.z_ = b.min_.z_ ∨ p.z_ = b.max_.z_)

/-- Component-wise difference of two vectors. -/
def Vec.sub {α : Type} [Sub α] (u v : Vec α) : Vec α :=
  ⟨u.x_ - v.x_, u.y_ - v.y_, u.z_ - v.z_⟩

/-- The closed-form octant formula of the specification: with `half = (max - min) / 2`,
an axis whose bit of `index` is `0` spans `[min, max - half]` and an axis whose bit is
`1` spans `[min + half, max]`; bit 0 is X, bit 1 is Y, bit 2 is Z. -/
def childByBits {α : Type} [Add α] [Sub α] [Div α] [OfNat α 2] (box : Box α) (index : Nat) :
    Box α :=
  let lo (bit : Bool) (mn mx : α) : α := if bit then mn + (mx - mn) / 2 else mn
  let hi (bit : Bool) (mn mx : α) : α := if bit then mx else mx - (mx - mn) / 2
  ⟨⟨lo (index.testBit 0) box.min_.x_ box.max_.x_, lo (index.testBit 1) box.min_.y_ box.max_.y_,
    lo (index.testBit 2) box.min_.z_ box.max_.z_⟩,
   ⟨hi (index.testBit 0) box.min_.x_ box.max_.x_, hi (index.testBit 1) box.min_.y_ box.max_.y_,
    hi (index.testBit 2) box.min_.z_ box.max_.z_⟩⟩

/-! ## The slab sweep, factored out for the proofs -/

section Sweep

variable {α : Type} [Sub α] [Mul α] [Div α] [Neg α] [LT α] [LE α]
  [DecidableRel (fun a b : α => a < b)] [DecidableRel (fun a b : α => a ≤ b)]
  [OfNat α 0] [OfNat α 1]

/-- The near and far parameter of one slab, as `getRayBoxIntersection` computes them on
each axis: `lo`, `hi` are the box bounds, `p` the ray origin and `d` the ray direction on
that axis. -/
def slabPair (lo hi p d : α) : α × α :=
  if 1 / d ≥ 0 then ((lo - p) * (1 / d), (hi - p) * (1 / d))
  else ((hi - p) * (1 / d), (lo - p) * (1 / d))

/-- The control flow of `getRayBoxIntersection` on the three (near, far) pairs: `none` on
an early return, otherwise the final `tmin` and the axis (0 = X, 1 = Y, 2 = Z) that
`reflect_dir` negates. -/
def sweep (tx ty tz : α × α) : Option (α × Nat) :=
  if tx.1 > ty.2 ∨ ty.1 > tx.2 then none
  else
    if (if ty.1 > tx.1 then ty.1 else tx.1) > tz.2 ∨
        tz.1 > (if ty.2 < tx.2 then ty.2 else tx.2) then none
    else
      some (if tz.1 > (if ty.1 > tx.1 then ty.1 else tx.1) then (tz.1, 2)
            else if ty.1 > tx.1 then (ty.1, 1) else (tx.1, 0))

/-- The direction `d` with the component of the given axis negated. -/
def negAxis (d : Vec α) (axis : Nat) : Vec α :=
  match axis with
  | 0 => ⟨-d.x_, d.y_, d.z_⟩
  | 1 => ⟨d.x_, -d.y_, d.z_⟩
  | _ => ⟨d.x_, d.y_, -d.z_⟩

end Sweep

/-- The reference slab computation of the specification, on the near and far parameters
of the three axes: the ray misses (`none`) when the intervals `[near, far]` have no common
point, that is when the largest near value exceeds the smallest far value, and otherwise
the distance is the largest near value. -/
def slabReference {α : Type} [Sub α] [Mul α] [Div α] [LT α] [LE α] [Max α] [Min α]
    [DecidableRel (fun a b : α => a < b)] [DecidableRel (fun a b : α => a ≤ b)]
    [OfNat α 0] [OfNat α 1] (ray : Ray α) (box : Box α) : Option α :=
  let tx := slabPair box.min_.x_ box.max_.x_ ray.pos_.x_ ray.dir_.x_
  let ty := slabPair box.min_.y_ box.max_.y_ ray.pos_.y_ ray.dir_.y_
  let tz := slabPair box.min_.z_ box.max_.z_ ray.pos_.z_ ray.dir_.z_
  if max (max tx.1 ty.1) tz.1 > min (min tx.2 ty.2) tz.2 then none
  else some (max (max tx.1 ty.1) tz.1)

/-- A vector of finite coordinates. -/
def Vec.IsFinite (v : Vec XFloat) : Prop :=
  v.x_.isFinite = true ∧ v.y_.isFinite = true ∧ v.z_.isFinite = true

/-- A box of finite coordinates. -/
def Box.IsFinite (b : Box XFloat) : Prop := b.min_.IsFinite ∧ b.max_.IsFinite

/-- A ray of finite coordinates. -/
def Ray.IsFinite (r : Ray XFloat) : Prop := r.pos_.IsFinite ∧ r.dir_.IsFinite

/-- The value `n` does not exclude the parameter `t` as a lower bound: it is NaN, which
every comparison of the sweep ignores, or it is at most `t`. -/
def XFloat.lbOK (n : XFloat) (t : ℚ) : Prop := n = XFloat.nan ∨ n ≤ XFloat.fin t

/-- The value `f` does not exclude the parameter `t` as an upper bound: it is NaN or it is
at least `t`. -/
def XFloat.ubOK (f : XFloat) (t : ℚ) : Prop := f = XFloat.nan ∨ XFloat.fin t ≤ f

/-- On no axis with a zero direction component does the origin of the ray lie exactly on
one of the two planes of the box: no product `0 * ∞` occurs in the slab computation. -/
def NoPlaneContact (R : Ray XFloat) (B : Box XFloat) : Prop :=
  (R.dir_.x_.isZero = true →
    R.pos_.x_.val ≠ B.min_.x_.val ∧ R.pos_.x_.val ≠ B.max_.x_.val) ∧
  (R.dir_.y_.isZero = true →
    R.pos_.y_.val ≠ B.min_.y_.val ∧ R.pos_.y_.val ≠ B.max_.y_.val) ∧
  (R.dir_.z_.isZero = true →
    R.pos_.z_.val ≠ B.min_.z_.val ∧ R.pos_.z_.val ≠ B.max_.z_.val)

/-! ## Concrete inputs -/

/-- The ray `pos = {1, 2, -1}`, `dir = {0, 0, 1}` with `+0` direction components: it runs
parallel to the Z axis at `y = 2`, beside the unit box, in the plane `x = 1` of the box. -/
def rayInFacePlane : Ray XFloat :=
  ⟨⟨XFloat.fin 1, XFloat.fin 2, XFloat.fin (-1)⟩,
   ⟨XFloat.fin 0, XFloat.fin 0, XFloat.fin 1⟩⟩

/-- The ray `pos = {0, 0.5, -5}`, `dir = {0, 0, 1}` with `+0` direction components: it runs
parallel to the Z axis in the plane `x = 0` of the unit box and meets the box at the point
`{0, 0.5, 0}` of its face `z = 0`, at the distance `5`. -/
def rayGrazingFace : Ray XFloat :=
  ⟨⟨XFloat.fin 0, XFloat.fin (1 / 2), XFloat.fin (-5)⟩,
   ⟨XFloat.fin 0, XFloat.fin 0, XFloat.fin 1⟩⟩

/-- The box `{{0,0,0},{2,2,2}}`. -/
def box2 (α : Type) [OfNat α 0] [OfNat α 2] : Box α := ⟨⟨0, 0, 0⟩, ⟨2, 2, 2⟩⟩

/-- The box `{{0,0,0},{1,1,1}}`. -/
def unitBox (α : Type) [OfNat α 0] [OfNat α 1] : Box α := ⟨⟨0, 0, 0⟩, ⟨1, 1, 1⟩⟩

/-- The ray `pos = {-5, 0.5, 0.5}`, `dir = {1, 0, 0}`, with `+0` direction components. -/
def rayAlongX : Ray XFloat :=
  ⟨⟨XFloat.fin (-5), XFloat.fin (1 / 2), XFloat.fin (1 / 2)⟩,
   ⟨XFloat.fin 1, XFloat.fin 0, XFloat.fin 0⟩⟩

/-- The ray `pos = {0.5, 0.5, 0.5}`, `dir = {1, 0, 0}`, whose origin is the centre of the
unit box. -/
def rayFromCentre : Ray XFloat :=
  ⟨⟨XFloat.fin (1 / 2), XFloat.fin (1 / 2), XFloat.fin (1 / 2)⟩,
   ⟨XFloat.fin 1, XFloat.fin 0, XFloat.fin 0⟩⟩

/-- The ray `pos = {-5, 5, 0.5}`, `dir = {1, 0, 0}`, which passes beside the unit box. -/
def rayBeside : Ray XFloat :=
  ⟨⟨XFloat.fin (-5), XFloat.fin 5, XFloat.fin (1 / 2)⟩,
   ⟨XFloat.fin 1, XFloat.fin 0, XFloat.fin 0⟩⟩

/-- The ray `pos = {-1, 0, 0}`, `dir = {1, 1, 1}` over the rationals. -/
def rayDiagonal : Ray ℚ := ⟨⟨-1, 0, 0⟩, ⟨1, 1, 1⟩⟩

/-- An arbitrary initial value of the `reflect_ray` output parameter. -/
def ray0 (α : Type) [OfNat α 0] : Ray α := ⟨⟨0, 0, 0⟩, ⟨0, 0, 0⟩⟩

/-- The box `{{-10,-10,-10},{10,10,10}}` over the rationals, whose `min` corner is not the
origin. -/
def boxCentred : Box ℚ := ⟨⟨-10, -10, -10⟩, ⟨10, 10, 10⟩⟩

/-- A pseudo-random source that returns `2` at every call, used with `RAND_MAX = 4`. -/
def constRand : Nat → Nat := fun _ => 2

/-- A pseudo-random source that returns `2147483647`, the value of `RAND_MAX` of the GNU C
library, at every call. -/
def maxRand : Nat → Nat := fun _ => 2147483647

/-! ## Arithmetic of `XFloat` -/

namespace XFloat

theorem ofNat_eq (n : Nat) : (OfNat.ofNat n : XFloat) = fin (n : ℚ) := rfl
theorem zero_eq : (0 : XFloat) = fin 0 := rfl
theorem one_eq : (1 : XFloat) = fin 1 := rfl
theorem two_eq : (2 : XFloat) = fin 2 := rfl
theorem neg_eq (a : XFloat) : -a = neg a := rfl
theorem add_eq (a b : XFloat) : a + b = add a b := rfl
theorem sub_eq (a b : XFloat) : a - b = add a (neg b) := rfl
theorem mul_eq (a b : XFloat) : a * b = mul a b := rfl
theorem div_eq (a b : XFloat) : a / b = div a b := rfl
theorem lt_eq (a b : XFloat) : (a < b) = (lt a b = true) := rfl
theorem le_eq (a b : XFloat) : (a ≤ b) = (le a b = true) := rfl

theorem neg_fin (p : ℚ) : -(fin p) = if p = 0 then nzero else fin (-p) := rfl
theorem neg_nzero : -nzero = fin 0 := rfl
theorem fin_add_fin (p q : ℚ) : fin p + fin q = fin (p + q) := rfl
theorem fin_add_nzero (p : ℚ) : fin p + nzero = fin p := rfl
theorem nzero_add_fin (p : ℚ) : nzero + fin p = fin p := rfl

theorem fin_sub_fin (p q : ℚ) : fin p - fin q = fin (p - q) := by
  show add (fin p) (neg (fin q)) = fin (p - q)
  by_cases h : q = 0
  · simp [neg, add, h]
  · simp [neg, add, h, sub_eq_add_neg]

theorem fin_mul_fin (p q : ℚ) :
    fin p * fin q =
      if p * q = 0 then zeroOf (xor (decide (p < 0)) (decide (q < 0))) else fin (p * q) := rfl

theorem fin_div_fin (p q : ℚ) :
    fin p / fin q =
      if q = 0 then (if p = 0 then nan else infOf (decide (p < 0)))
      else if p / q = 0 then zeroOf (xor (decide (p < 0)) (decide (q < 0))) else fin (p / q) := by
  show div (fin p) (fin q) = _
  by_cases h : q = 0
  · subst h
    by_cases hp : p = 0 <;> simp [div, isFinite, isZero, signBit, hp]
  · simp [div, isFinite, isZero, signBit, h, signed, val]

theorem fin_mul_pinf (p : ℚ) :
    fin p * pinf = if p = 0 then nan else infOf (decide (p < 0)) := by
  show mul (fin p) pinf = _
  by_cases hp : p = 0 <;> simp [mul, isFinite, isZero, signBit, hp]

theorem fin_mul_ninf (p : ℚ) :
    fin p * ninf = if p = 0 then nan else infOf (!decide (p < 0)) := by
  show mul (fin p) ninf = _
  by_cases hp : p = 0 <;> simp [mul, isFinite, isZero, signBit, hp]

theorem nzero_mul_pinf : nzero * pinf = nan := rfl
theorem nzero_mul_ninf : nzero * ninf = nan := rfl

theorem fin_lt_fin (p q : ℚ) : fin p < fin q ↔ p < q := by
  show lt (fin p) (fin q) = true ↔ _
  simp [lt, val]

theorem fin_le_fin (p q : ℚ) : fin p ≤ fin q ↔ p ≤ q := by
  show le (fin p) (fin q) = true ↔ _
  simp [le, val]

theorem fin_le_pinf (p : ℚ) : fin p ≤ pinf := rfl
theorem not_fin_le_ninf (p : ℚ) : ¬ fin p ≤ ninf := by
  show ¬ (le (fin p) ninf = true)
  simp [le]
theorem fin_lt_pinf (p : ℚ) : fin p < pinf := rfl
theorem ninf_lt_fin (p : ℚ) : ninf < fin p := rfl
theorem ninf_lt_pinf : ninf < pinf := rfl
theorem not_pinf_lt (a : XFloat) : ¬ pinf < a := by
  show ¬ (lt pinf a = true)
  cases a <;> simp [lt]
theorem not_lt_ninf (a : XFloat) : ¬ a < ninf := by
  show ¬ (lt a ninf = true)
  cases a <;> simp [lt]
theorem not_nan_lt (a : XFloat) : ¬ nan < a := by
  show ¬ (lt nan a = true)
  simp [lt]
theorem not_lt_nan (a : XFloat) : ¬ a < nan := by
  show ¬ (lt a nan = true)
  cases a <;> simp [lt]

/-- Negation changes every value but NaN: it flips the sign bit, also of a zero. -/
theorem neg_ne_self (a : XFloat) (h : a ≠ nan) : -a ≠ a := by
  show neg a ≠ a
  cases a with
  | nan => exact absurd rfl h
  | ninf => simp [neg]
  | pinf => simp [neg]
  | nzero => simp [neg]
  | fin q =>
    by_cases hq : q = 0
    · simp [neg, hq]
    · simp only [neg, hq, if_false, ne_eq, fin.injEq]
      intro h2
      exact hq (by linarith)

/-! ### Finite values -/

theorem val_nzero : nzero.val = 0 := rfl
theorem val_fin (q : ℚ) : (fin q).val = q := rfl

theorem finite_cases {a : XFloat} (h : a.isFinite = true) : a = nzero ∨ ∃ q, a = fin q := by
  cases a <;> simp [isFinite] at h ⊢

theorem sub_finite {a b : XFloat} (ha : a.isFinite = true) (hb : b.isFinite = true) :
    (a - b).isFinite = true ∧ (a - b).val = a.val - b.val := by
  rcases finite_cases ha with rfl | ⟨p, rfl⟩ <;> rcases finite_cases hb with rfl | ⟨q, rfl⟩
  · exact ⟨rfl, by simp [sub_eq, neg, add, val]⟩
  · by_cases hq : q = 0 <;> simp [sub_eq, neg, add, val, isFinite, hq]
  · exact ⟨rfl, by simp [sub_eq, neg, add, val]⟩
  · rw [fin_sub_fin]; exact ⟨rfl, rfl⟩

theorem add_finite {a b : XFloat} (ha : a.isFinite = true) (hb : b.isFinite = true) :
    (a + b).isFinite = true ∧ (a + b).val = a.val + b.val := by
  rcases finite_cases ha with rfl | ⟨p, rfl⟩ <;> rcases finite_cases hb with rfl | ⟨q, rfl⟩ <;>
    simp [add_eq, add, val, isFinite]

theorem mul_finite {a b : XFloat} (ha : a.isFinite = true) (hb : b.isFinite = true) :
    (a * b).isFinite = true ∧ (a * b).val = a.val * b.val := by
  rcases finite_cases ha with rfl | ⟨p, rfl⟩ <;> rcases finite_cases hb with rfl | ⟨q, rfl⟩ <;>
    simp only [mul_eq, mul, isFinite, Bool.and_self, if_true, signed, zeroOf, val] <;>
    split_ifs <;> simp_all [isFinite, val]

theorem one_div_fin (q : ℚ) (hq : q ≠ 0) : (1 : XFloat) / fin q = fin (1 / q) := by
  rw [one_eq, fin_div_fin]
  simp [hq]

theorem one_div_pzero : (1 : XFloat) / fin 0 = pinf := by
  rw [one_eq, fin_div_fin]
  simp [infOf]

theorem one_div_nzero : (1 : XFloat) / nzero = ninf := by
  rw [one_eq]
  show div (fin 1) nzero = ninf
  simp [div, isFinite, isZero, signBit, infOf]

theorem finite_mul_pinf {a : XFloat} (ha : a.isFinite = true) :
    a * pinf = if a.val = 0 then nan else if a.val < 0 then ninf else pinf := by
  rcases finite_cases ha with rfl | ⟨p, rfl⟩
  · rfl
  · rw [fin_mul_pinf]
    by_cases hp : p = 0
    · simp [hp, val]
    · by_cases hn : p < 0 <;> simp [hp, hn, val, infOf]

theorem finite_mul_ninf {a : XFloat} (ha : a.isFinite = true) :
    a * ninf = if a.val = 0 then nan else if a.val < 0 then pinf else ninf := by
  rcases finite_cases ha with rfl | ⟨p, rfl⟩
  · rfl
  · rw [fin_mul_ninf]
    by_cases hp : p = 0
    · simp [hp, val]
    · by_cases hn : p < 0 <;> simp [hp, hn, val, infOf]

theorem le_iff_of_finite {a b : XFloat} (ha : a.isFinite = true) (hb : b.isFinite = true) :
    a ≤ b ↔ a.val ≤ b.val := by
  rcases finite_cases ha with rfl | ⟨p, rfl⟩ <;> rcases finite_cases hb with rfl | ⟨q, rfl⟩ <;>
    simp [le_eq, le, val]

theorem lt_iff_of_finite {a b : XFloat} (ha : a.isFinite = true) (hb : b.isFinite = true) :
    a < b ↔ a.val < b.val := by
  rcases finite_cases ha with rfl | ⟨p, rfl⟩ <;> rcases finite_cases hb with rfl | ⟨q, rfl⟩ <;>
    simp [lt_eq, lt, val]

/-! ### Bounds that may be NaN -/

/-- A lower and an upper bound admitting the same parameter never trigger the miss test
`n > f`. -/
theorem not_gt_of_bounds {n f : XFloat} {t : ℚ} (hn : n.lbOK t) (hf : f.ubOK t) : ¬ n > f := by
  show ¬ (lt f n = true)
  rcases hn with rfl | hn
  · cases f <;> simp [lt]
  rcases hf with rfl | hf
  · simp [lt]
  change le n (fin t) = true at hn
  change le (fin t) f = true at hf
  cases n <;> cases f <;> simp [lt, le, val] at hn hf ⊢
  all_goals linarith

/-- One update step `if n > T then T := n` of the sweep: when the updated value is at
most `c`, so was the old value, and `n` is NaN or at most `c`. -/
theorem step_le {n T c : XFloat} (h : (if n > T then n else T) ≤ c) :
    T ≤ c ∧ (n = nan ∨ n ≤ c) := by
  by_cases hgt : n > T
  · rw [if_pos hgt] at h
    refine ⟨?_, Or.inr h⟩
    change lt T n = true at hgt
    change le n c = true at h
    show le T c = true
    cases n <;> cases T <;> cases c <;> simp [lt, le, val] at hgt h ⊢
    all_goals linarith
  · rw [if_neg hgt] at h
    refine ⟨h, ?_⟩
    change ¬ (lt T n = true) at hgt
    change le T c = true at h
    show n = nan ∨ le n c = true
    cases n <;> cases T <;> cases c <;> simp [lt, le, val] at hgt h ⊢
    all_goals linarith

end XFloat

/-! ## Structure of `getRayBoxIntersection` -/

section Structure

variable {α : Type} [Add α] [Sub α] [Mul α] [Div α] [Neg α] [LT α] [LE α]
  [DecidableRel (fun a b : α => a < b)] [DecidableRel (fun a b : α => a ≤ b)]
  [OfNat α 0] [OfNat α 1] [OfNat α 2]

/-- Whatever the scalar arithmetic, `getRayBoxIntersection` is the sweep over the three
slab pairs: an early return leaves the output parameters alone, the final return writes
the entry point, its octant and the direction with the sweep's axis negated. -/
theorem getRayBoxIntersection_eq_sweep (ray : Ray α) (box : Box α) (ic : Nat) (rr : Ray α) :
    getRayBoxIntersection ray box ic rr =
      match sweep (slabPair box.min_.x_ box.max_.x_ ray.pos_.x_ ray.dir_.x_)
          (slabPair box.min_.y_ box.max_.y_ ray.pos_.y_ ray.dir_.y_)
          (slabPair box.min_.z_ box.max_.z_ ray.pos_.z_ ray.dir_.z_) with
      | none => ⟨0, ic, rr, false⟩
      | some (t, a) =>
        ⟨t, getIntersectChild box (getRayPoint ray t),
          ⟨getRayPoint ray t, negAxis ray.dir_ a⟩, true⟩ := by
  have hx : slabPair box.min_.x_ box.max_.x_ ray.pos_.x_ ray.dir_.x_ =
      if 1 / ray.dir_.x_ ≥ 0 then
        ((box.min_.x_ - ray.pos_.x_) * (1 / ray.dir_.x_),
          (box.max_.x_ - ray.pos_.x_) * (1 / ray.dir_.x_))
      else
        ((box.max_.x_ - ray.pos_.x_) * (1 / ray.dir_.x_),
          (box.min_.x_ - ray.pos_.x_) * (1 / ray.dir_.x_)) := rfl
  have hy : slabPair box.min_.y_ box.max_.y_ ray.pos_.y_ ray.dir_.y_ =
      if 1 / ray.dir_.y_ ≥ 0 then
        ((box.min_.y_ - ray.pos_.y_) * (1 / ray.dir_.y_),
          (box.max_.y_ - ray.pos_.y_) * (1 / ray.dir_.y_))
      else
        ((box.max_.y_ - ray.pos_.y_) * (1 / ray.dir_.y_),
          (box.min_.y_ - ray.pos_.y_) * (1 / ray.dir_.y_)) := rfl
  have hz : slabPair box.min_.z_ box.max_.z_ ray.pos_.z_ ray.dir_.z_ =
      if 1 / ray.dir_.z_ ≥ 0 then
        ((box.min_.z_ - ray.pos_.z_) * (1 / ray.dir_.z_),
          (box.max_.z_ - ray.pos_.z_) * (1 / ray.dir_.z_))
      else
        ((box.max_.z_ - ray.pos_.z_) * (1 / ray.dir_.z_),
          (box.min_.z_ - ray.pos_.z_) * (1 / ray.dir_.z_)) := rfl
  simp only [getRayBoxIntersection, ← hx, ← hy, ← hz]
  generalize slabPair box.min_.x_ box.max_.x_ ray.pos_.x_ ray.dir_.x_ = tx
  generalize slabPair box.min_.y_ box.max_.y_ ray.pos_.y_ ray.dir_.y_ = ty
  generalize slabPair box.min_.z_ box.max_.z_ ray.pos_.z_ ray.dir_.z_ = tz
  unfold sweep
  by_cases h1 : tx.1 > ty.2 ∨ ty.1 > tx.2
  · simp only [h1, if_true]
  · simp only [h1, if_false]
    by_cases h2 : (if ty.1 > tx.1 then ty.1 else tx.1) > tz.2 ∨
        tz.1 > (if ty.2 < tx.2 then ty.2 else tx.2)
    · by_cases h3 : ty.1 > tx.1 <;> simp only [h3, if_true, if_false] at h2 ⊢ <;>
        simp only [h2, if_true]
    · by_cases h3 : ty.1 > tx.1 <;> simp only [h3, if_true, if_false] at h2 ⊢ <;>
        simp only [h2, if_false] <;>
        by_cases h4 : tz.1 > ty.1 <;> by_cases h5 : tz.1 > tx.1 <;>
        simp only [h4, h5, if_true, if_false] <;> rfl

end Structure

section SweepDist

variable {α : Type} [LT α] [DecidableRel (fun a b : α => a < b)]

/-- The distance of a sweep that reaches the final return, as the two update steps of
`tmin` compute it. -/
theorem sweep_some_dist {tx ty tz : α × α} {t : α} {a : Nat}
    (h : sweep tx ty tz = some (t, a)) :
    t = if tz.1 > (if ty.1 > tx.1 then ty.1 else tx.1) then tz.1
        else (if ty.1 > tx.1 then ty.1 else tx.1) := by
  unfold sweep at h
  by_cases c1 : tx.1 > ty.2 ∨ ty.1 > tx.2
  · rw [if_pos c1] at h; exact absurd h (by simp)
  · rw [if_neg c1] at h
    by_cases c2 : (if ty.1 > tx.1 then ty.1 else tx.1) > tz.2 ∨
        tz.1 > (if ty.2 < tx.2 then ty.2 else tx.2)
    · rw [if_pos c2] at h; exact absurd h (by simp)
    · rw [if_neg c2] at h
      simp only [Option.some.injEq] at h
      by_cases c3 : tz.1 > (if ty.1 > tx.1 then ty.1 else tx.1)
      · rw [if_pos c3] at h ⊢
        exact (congrArg Prod.fst h).symm
      · rw [if_neg c3] at h ⊢
        by_cases c4 : ty.1 > tx.1
        · rw [if_pos c4] at h ⊢
          exact (congrArg Prod.fst h).symm
        · rw [if_neg c4] at h ⊢
          exact (congrArg Prod.fst h).symm

end SweepDist

/-! ## Octant subdivision -/

section Ops

variable {α : Type} [Add α] [Sub α] [Div α] [OfNat α 2]

/-- For an index in `0..7` the switch of `getBoxChild` is the bit formula. -/
theorem getBoxChild_bits (box : Box α) (i : Nat) (hi : i < 8) :
    getBoxChild box i = childByBits box i := by
  interval_cases i <;> rfl

/-- C2: for every box and every index `i` in `0..7`, the switch in `getBoxChild` equals the
closed-form bit-indexed formula `childByBits` (bit 0 = X, bit 1 = Y, bit 2 = Z; a clear bit
spans `[min, max - half]`, a set bit `[min + half, max]`), whatever the scalar arithmetic. -/
theorem getBoxChild_eq_closed_form (box : Box α) (i : Nat) (hi : i < 8) :
    getBoxChild box i = childByBits box i := by
  interval_cases i <;> rfl

/-- C3: for every box and every child index outside `[0,7]` (in particular every 8-bit
index `8..255`), `getBoxChild` returns the box itself unchanged; the function is total and
has no error result. -/
theorem getBoxChild_out_of_range (box : Box α) (i : Nat) (hi : 8 ≤ i) :
    getBoxChild box i = box := by
  unfold getBoxChild
  split <;> first | omega | rfl

end Ops

section Diag

variable {α : Type} [Add α] [Sub α] [Mul α]

/-- C9: for every box, `getBoxDiag` is `vectorLength` applied to the component-wise
difference `max - min`: the same expression, the square root of the sum of the three
squared differences. -/
theorem getBoxDiag_eq_vectorLength (sqrt : α → α) (B : Box α) :
    getBoxDiag sqrt B = vectorLength sqrt (Vec.sub B.max_ B.min_) ∧
    getBoxDiag sqrt B =
      sqrt ((B.max_.x_ - B.min_.x_) * (B.max_.x_ - B.min_.x_) +
            (B.max_.y_ - B.min_.y_) * (B.max_.y_ - B.min_.y_) +
            (B.max_.z_ - B.min_.z_) * (B.max_.z_ - B.min_.z_)) :=
  ⟨rfl, rfl⟩

end Diag

section Exact

variable {α : Type} [LinearOrderedField α]

/-- Unfolding of the bit formula on a box given by its six coordinates. -/
theorem childByBits_mk (ax ay az bx by_ bz : α) (i : Nat) :
    childByBits (⟨⟨ax, ay, az⟩, ⟨bx, by_, bz⟩⟩ : Box α) i =
      ⟨⟨if i.testBit 0 then ax + (bx - ax) / 2 else ax,
        if i.testBit 1 then ay + (by_ - ay) / 2 else ay,
        if i.testBit 2 then az + (bz - az) / 2 else az⟩,
       ⟨if i.testBit 0 then bx else bx - (bx - ax) / 2,
        if i.testBit 1 then by_ else by_ - (by_ - ay) / 2,
        if i.testBit 2 then bz else bz - (bz - az) / 2⟩⟩ := rfl

/-- Two different indices below 8 differ in one of their three low bits. -/
theorem exists_bit_ne (i j : Nat) (hi : i < 8) (hj : j < 8) (hne : i ≠ j) :
    i.testBit 0 ≠ j.testBit 0 ∨ i.testBit 1 ≠ j.testBit 1 ∨ i.testBit 2 ≠ j.testBit 2 := by
  interval_cases i <;> interval_cases j <;> first | exact absurd rfl hne | decide

/-- C1: in exact arithmetic, for every box with `min ≤ max` on every axis the eight boxes
`getBoxChild B 0 .. 7` tile `B`: every child lies inside `B`, every point of `B` lies in
some child, no point lies in the interior of two children with different indices, and on
every axis the two halves meet in the same plane `max - half = min + half`. -/
theorem getBoxChild_tiles (B : Box α) (hB : B.Valid) :
    (∀ i, i < 8 → (getBoxChild B i).inside B) ∧
    (∀ i, i < 8 → ∀ p, (getBoxChild B i).contains p → B.contains p) ∧
    (∀ p, B.contains p → ∃ i, i < 8 ∧ (getBoxChild B i).contains p) ∧
    (∀ i j, i < 8 → j < 8 → i ≠ j →
      ∀ p, ¬ ((getBoxChild B i).interior p ∧ (getBoxChild B j).interior p)) ∧
    (B.max_.x_ - (B.max_.x_ - B.min_.x_) / 2 = B.min_.x_ + (B.max_.x_ - B.min_.x_) / 2 ∧
     B.max_.y_ - (B.max_.y_ - B.min_.y_) / 2 = B.min_.y_ + (B.max_.y_ - B.min_.y_) / 2 ∧
     B.max_.z_ - (B.max_.z_ - B.min_.z_) / 2 = B.min_.z_ + (B.max_.z_ - B.min_.z_) / 2) := by
  obtain ⟨⟨ax, ay, az⟩, ⟨bx, by_, bz⟩⟩ := B
  simp only [Box.Valid, Vec.le] at hB
  obtain ⟨hx, hy, hz⟩ := hB
  refine ⟨?_, ?_, ?_, ?_, ?_⟩
  · intro i hi
    rw [getBoxChild_bits _ _ hi, childByBits_mk]
    simp only [Box.inside, Vec.le]
    refine ⟨⟨?_, ?_, ?_⟩, ⟨?_, ?_, ?_⟩, ⟨?_, ?_, ?_⟩⟩ <;> split_ifs <;> linarith
  · intro i hi p
    rw [getBoxChild_bits _ _ hi, childByBits_mk]
    simp only [Box.contains, Vec.le]
    rintro ⟨⟨h1, h2, h3⟩, ⟨h4, h5, h6⟩⟩
    refine ⟨⟨?_, ?_, ?_⟩, ⟨?_, ?_, ?_⟩⟩
    · split_ifs at h1 <;> linarith
    · split_ifs at h2 <;> linarith
    · split_ifs at h3 <;> linarith
    · split_ifs at h4 <;> linarith
    · split_ifs at h5 <;> linarith
    · split_ifs at h6 <;> linarith
  · rintro p ⟨⟨h1, h2, h3⟩, ⟨h4, h5, h6⟩⟩
    simp only at h1 h2 h3 h4 h5 h6
    have key : ∀ b0 b1 b2 : Bool,
        (if b0 then ax + (bx - ax) / 2 ≤ p.x_ else p.x_ ≤ bx - (bx - ax) / 2) →
        (if b1 then ay + (by_ - ay) / 2 ≤ p.y_ else p.y_ ≤ by_ - (by_ - ay) / 2) →
        (if b2 then az + (bz - az) / 2 ≤ p.z_ else p.z_ ≤ bz - (bz - az) / 2) →
        ∃ i, i < 8 ∧ (getBoxChild (⟨⟨ax, ay, az⟩, ⟨bx, by_, bz⟩⟩ : Box α) i).contains p := by
      intro b0 b1 b2 k0 k1 k2
      refine ⟨b0.toNat + 2 * b1.toNat + 4 * b2.toNat, ?_, ?_⟩
      · cases b0 <;> cases b1 <;> cases b2 <;> decide
      · cases b0 <;> cases b1 <;> cases b2 <;>
          simp only [Bool.toNat_true, Bool.toNat_false, if_true, if_false,
            Bool.false_eq_true] at k0 k1 k2 ⊢ <;>
          exact ⟨⟨by first | exact h1 | exact k0, by first | exact h2 | exact k1,
            by first | exact h3 | exact k2⟩,
            ⟨by first | exact h4 | exact k0, by first | exact h5 | exact k1,
             by first | exact h6 | exact k2⟩⟩
    have mx : ax + (bx - ax) / 2 = bx - (bx - ax) / 2 := by ring
    have my : ay + (by_ - ay) / 2 = by_ - (by_ - ay) / 2 := by ring
    have mz : az + (bz - az) / 2 = bz - (bz - az) / 2 := by ring
    refine key (decide (ax + (bx - ax) / 2 ≤ p.x_)) (decide (ay + (by_ - ay) / 2 ≤ p.y_))
      (decide (az + (bz - az) / 2 ≤ p.z_)) ?_ ?_ ?_
    · by_cases c : ax + (bx - ax) / 2 ≤ p.x_
      · simp [c]
      · simp only [c, decide_False, Bool.false_eq_true, if_false]; linarith [le_of_not_le c]
    · by_cases c : ay + (by_ - ay) / 2 ≤ p.y_
      · simp [c]
      · simp only [c, decide_False, Bool.false_eq_true, if_false]; linarith [le_of_not_le c]
    · by_cases c : az + (bz - az) / 2 ≤ p.z_
      · simp [c]
      · simp only [c, decide_False, Bool.false_eq_true, if_false]; linarith [le_of_not_le c]
  · intro i j hi hj hne p
    rw [getBoxChild_bits _ _ hi, getBoxChild_bits _ _ hj, childByBits_mk, childByBits_mk]
    simp only [Box.interior, Vec.lt]
    rintro ⟨⟨⟨h1, h2, h3⟩, ⟨h4, h5, h6⟩⟩, ⟨⟨g1, g2, g3⟩, ⟨g4, g5, g6⟩⟩⟩
    rcases exists_bit_ne i j hi hj hne with h | h | h
    · cases hi0 : i.testBit 0 <;> cases hj0 : j.testBit 0 <;>
        simp only [hi0, hj0, if_true, if_false, Bool.false_eq_true, ne_eq,
          not_true_eq_false] at h h1 h4 g1 g4 <;> linarith
    · cases hi0 : i.testBit 1 <;> cases hj0 : j.testBit 1 <;>
        simp only [hi0, hj0, if_true, if_false, Bool.false_eq_true, ne_eq,
          not_true_eq_false] at h h2 h5 g2 g5 <;> linarith
    · cases hi0 : i.testBit 2 <;> cases hj0 : j.testBit 2 <;>
        simp only [hi0, hj0, if_true, if_false, Bool.false_eq_true, ne_eq,
          not_true_eq_false] at h h3 h6 g3 g6 <;> linarith
  · refine ⟨?_, ?_, ?_⟩ <;> ring

/-! ## The slab test in exact arithmetic -/

/-- In exact arithmetic with `d ≠ 0`, the parameters between the near and the far value of
a slab are those at which the ray coordinate lies between the box bounds. -/
theorem slabPair_mem (lo hi p d t : α) (hd : d ≠ 0) :
    ((slabPair lo hi p d).1 ≤ t ∧ t ≤ (slabPair lo hi p d).2) ↔
      (lo ≤ p + d * t ∧ p + d * t ≤ hi) := by
  rcases lt_or_gt_of_ne hd with hneg | hpos
  · have hdiv : ¬ (1 / d ≥ 0) := by
      have : 1 / d < 0 := one_div_neg.mpr hneg
      exact not_le.mpr this
    simp only [slabPair, hdiv, if_false]
    rw [mul_one_div, mul_one_div, div_le_iff_of_neg hneg, le_div_iff_of_neg hneg]
    constructor
    · rintro ⟨h1, h2⟩; constructor <;> linarith
    · rintro ⟨h1, h2⟩; constructor <;> linarith
  · have hdiv : 1 / d ≥ 0 := le_of_lt (one_div_pos.mpr hpos)
    simp only [slabPair, hdiv, if_true]
    rw [mul_one_div, mul_one_div, div_le_iff₀ hpos, le_div_iff₀ hpos]
    constructor
    · rintro ⟨h1, h2⟩; constructor <;> linarith
    · rintro ⟨h1, h2⟩; constructor <;> linarith

/-- In exact arithmetic with `d ≠ 0`, the ray coordinate at the near parameter of a slab
is one of the two box bounds. -/
theorem slabPair_near_face (lo hi p d : α) (hd : d ≠ 0) :
    p + d * (slabPair lo hi p d).1 = lo ∨ p + d * (slabPair lo hi p d).1 = hi := by
  by_cases hdiv : 1 / d ≥ 0
  · left
    simp only [slabPair, hdiv, if_true]
    field_simp
  · right
    simp only [slabPair, hdiv, if_false]
    field_simp

/-- In exact arithmetic with `d ≠ 0` and `lo ≤ hi`, the near parameter of a slab is at
most the far one. -/
theorem slabPair_le (lo hi p d : α) (hd : d ≠ 0) (h : lo ≤ hi) :
    (slabPair lo hi p d).1 ≤ (slabPair lo hi p d).2 := by
  rcases lt_or_gt_of_ne hd with hneg | hpos
  · have hdiv : ¬ (1 / d ≥ 0) := not_le.mpr (one_div_neg.mpr hneg)
    simp only [slabPair, hdiv, if_false]
    exact mul_le_mul_of_nonpos_right (by linarith) (le_of_lt (one_div_neg.mpr hneg))
  · have hdiv : 1 / d ≥ 0 := le_of_lt (one_div_pos.mpr hpos)
    simp only [slabPair, hdiv, if_true]
    exact mul_le_mul_of_nonneg_right (by linarith) hdiv

/-- In a linear order, a sweep that reaches the final return yields the largest of the
three near values, which is at most every far value, together with the first axis in the
order X, Y, Z whose near value it is. -/
theorem sweep_some {tx ty tz : α × α} {t : α} {a : Nat}
    (h : sweep tx ty tz = some (t, a))
    (hx : tx.1 ≤ tx.2) (hy : ty.1 ≤ ty.2) (hz : tz.1 ≤ tz.2) :
    (tx.1 ≤ t ∧ ty.1 ≤ t ∧ tz.1 ≤ t) ∧ (t ≤ tx.2 ∧ t ≤ ty.2 ∧ t ≤ tz.2) ∧
      ((a = 0 ∧ t = tx.1) ∨ (a = 1 ∧ t = ty.1 ∧ tx.1 < t) ∨
        (a = 2 ∧ t = tz.1 ∧ tx.1 < t ∧ ty.1 < t)) := by
  unfold sweep at h
  split_ifs at h <;>
    simp only [Option.some.injEq, Prod.mk.injEq, gt_iff_lt, not_or, not_lt] at * <;>
    obtain ⟨rfl, rfl⟩ := h <;>
    refine ⟨⟨?_, ?_, ?_⟩, ⟨?_, ?_, ?_⟩, ?_⟩ <;>
    first
      | linarith
      | (simp only [true_and, and_true, OfNat.ofNat_ne_zero, OfNat.ofNat_ne_one,
          false_and, or_false, false_or, one_ne_zero, OfNat.zero_ne_ofNat,
          OfNat.one_ne_ofNat, zero_ne_one]
         try constructor
         all_goals linarith)

/-- The outcome of `getRayBoxIntersection` when it reaches the final return, read off the
sweep. -/
theorem final_iff_sweep {β : Type} [Add β] [Sub β] [Mul β] [Div β] [Neg β] [LT β] [LE β]
    [DecidableRel (fun a b : β => a < b)] [DecidableRel (fun a b : β => a ≤ b)]
    [OfNat β 0] [OfNat β 1] [OfNat β 2]
    (R : Ray β) (B : Box β) (ic : Nat) (rr : Ray β)
    (h : (getRayBoxIntersection R B ic rr).final = true) :
    ∃ a, sweep (slabPair B.min_.x_ B.max_.x_ R.pos_.x_ R.dir_.x_)
        (slabPair B.min_.y_ B.max_.y_ R.pos_.y_ R.dir_.y_)
        (slabPair B.min_.z_ B.max_.z_ R.pos_.z_ R.dir_.z_) =
          some ((getRayBoxIntersection R B ic rr).dist, a) ∧
      (getRayBoxIntersection R B ic rr).reflect_ray =
        ⟨getRayPoint R (getRayBoxIntersection R B ic rr).dist, negAxis R.dir_ a⟩ ∧
      (getRayBoxIntersection R B ic rr).intersect_child =
        getIntersectChild B (getRayPoint R (getRayBoxIntersection R B ic rr).dist) := by
  rw [getRayBoxIntersection_eq_sweep] at h ⊢
  cases hs : sweep (slabPair B.min_.x_ B.max_.x_ R.pos_.x_ R.dir_.x_)
      (slabPair B.min_.y_ B.max_.y_ R.pos_.y_ R.dir_.y_)
      (slabPair B.min_.z_ B.max_.z_ R.pos_.z_ R.dir_.z_) with
  | none => rw [hs] at h; exact absurd h (by simp)
  | some ta =>
    obtain ⟨t, a⟩ := ta
    exact ⟨a, rfl, rfl, rfl⟩

/-- C4: in exact arithmetic, for every box with `min ≤ max` on every axis and every ray
whose direction components are all non-zero, if `getRayBoxIntersection` reaches its final
return with distance `d`, the entry point `R.pos + d * R.dir` (which is also the origin of
the reflected ray) lies on the boundary of the box and within it: on some axis its
coordinate is `B.min` or `B.max` of that axis, and on every axis it lies in
`[B.min.axis, B.max.axis]`. -/
theorem hit_point_on_boundary (R : Ray α) (B : Box α) (ic : Nat) (rr : Ray α)
    (hB : B.Valid) (hdx : R.dir_.x_ ≠ 0) (hdy : R.dir_.y_ ≠ 0) (hdz : R.dir_.z_ ≠ 0)
    (hfin : (getRayBoxIntersection R B ic rr).final = true) :
    B.onFace (getRayPoint R (getRayBoxIntersection R B ic rr).dist) ∧
    B.contains (getRayPoint R (getRayBoxIntersection R B ic rr).dist) ∧
    (getRayBoxIntersection R B ic rr).reflect_ray.pos_ =
      getRayPoint R (getRayBoxIntersection R B ic rr).dist := by
  obtain ⟨a, hs, hr, -⟩ := final_iff_sweep R B ic rr hfin
  obtain ⟨hvx, hvy, hvz⟩ := hB
  have hs' := sweep_some hs (slabPair_le _ _ _ _ hdx hvx) (slabPair_le _ _ _ _ hdy hvy)
    (slabPair_le _ _ _ _ hdz hvz)
  obtain ⟨⟨n1, n2, n3⟩, ⟨f1, f2, f3⟩, hface⟩ := hs'
  have mx := (slabPair_mem B.min_.x_ B.max_.x_ R.pos_.x_ R.dir_.x_ _ hdx).mp ⟨n1, f1⟩
  have my := (slabPair_mem B.min_.y_ B.max_.y_ R.pos_.y_ R.dir_.y_ _ hdy).mp ⟨n2, f2⟩
  have mz := (slabPair_mem B.min_.z_ B.max_.z_ R.pos_.z_ R.dir_.z_ _ hdz).mp ⟨n3, f3⟩
  refine ⟨?_, ⟨⟨mx.1, my.1, mz.1⟩, ⟨mx.2, my.2, mz.2⟩⟩, by rw [hr]⟩
  rcases hface with ⟨-, ht⟩ | ⟨-, ht, -⟩ | ⟨-, ht, -⟩
  · exact Or.inl (by
      simp only [getRayPoint]; rw [ht]
      exact slabPair_near_face B.min_.x_ B.max_.x_ R.pos_.x_ R.dir_.x_ hdx)
  · exact Or.inr (Or.inl (by
      simp only [getRayPoint]; rw [ht]
      exact slabPair_near_face B.min_.y_ B.max_.y_ R.pos_.y_ R.dir_.y_ hdy))
  · exact Or.inr (Or.inr (by
      simp only [getRayPoint]; rw [ht]
      exact slabPair_near_face B.min_.z_ B.max_.z_ R.pos_.z_ R.dir_.z_ hdz))

end Exact

/-! ## The slab test with zero direction components -/

section SlabX

open XFloat

theorem not_ninf_ge_zero : ¬ (XFloat.ninf ≥ (0 : XFloat)) := by
  show ¬ (XFloat.le (XFloat.fin 0) XFloat.ninf = true)
  simp [XFloat.le]

theorem pinf_ge_zero : XFloat.pinf ≥ (0 : XFloat) := rfl

theorem fin_ge_zero_iff (r : ℚ) : XFloat.fin r ≥ (0 : XFloat) ↔ 0 ≤ r := by
  show XFloat.le (XFloat.fin 0) (XFloat.fin r) = true ↔ _
  simp [XFloat.le, XFloat.val]

theorem lbOK_nan (t : ℚ) : XFloat.nan.lbOK t := Or.inl rfl
theorem ubOK_nan (t : ℚ) : XFloat.nan.ubOK t := Or.inl rfl
theorem lbOK_ninf (t : ℚ) : XFloat.ninf.lbOK t := Or.inr rfl
theorem ubOK_pinf (t : ℚ) : XFloat.pinf.ubOK t := Or.inr rfl

theorem lbOK_of_finite {n : XFloat} {t : ℚ} (hn : n.isFinite = true) (h : n.val ≤ t) :
    n.lbOK t :=
  Or.inr ((le_iff_of_finite hn (rfl : (fin t).isFinite = true)).mpr h)

theorem ubOK_of_finite {f : XFloat} {t : ℚ} (hf : f.isFinite = true) (h : t ≤ f.val) :
    f.ubOK t :=
  Or.inr ((le_iff_of_finite (rfl : (fin t).isFinite = true) hf).mpr h)

theorem val_le_of_lbOK {n : XFloat} {t : ℚ} (hn : n.isFinite = true) (h : n.lbOK t) :
    n.val ≤ t := by
  rcases h with rfl | h
  · exact absurd hn (by simp [isFinite])
  · exact (le_iff_of_finite hn (rfl : (fin t).isFinite = true)).mp h

/-- The slab pair of an axis with a non-zero direction component `q`: finite values, the
exact quotients, ordered by the sign of `q`. -/
theorem slabPair_fin {lo hi p : XFloat} (hlo : lo.isFinite = true) (hhi : hi.isFinite = true)
    (hp : p.isFinite = true) (q : ℚ) (hq : q ≠ 0) :
    (slabPair lo hi p (fin q)).1.isFinite = true ∧ (slabPair lo hi p (fin q)).2.isFinite = true ∧
    (slabPair lo hi p (fin q)).1.val = (if 0 < q then lo.val - p.val else hi.val - p.val) / q ∧
    (slabPair lo hi p (fin q)).2.val = (if 0 < q then hi.val - p.val else lo.val - p.val) / q := by
  obtain ⟨fA, vA⟩ := sub_finite hlo hp
  obtain ⟨fB, vB⟩ := sub_finite hhi hp
  obtain ⟨fA', vA'⟩ := mul_finite fA (rfl : (fin (1 / q)).isFinite = true)
  obtain ⟨fB', vB'⟩ := mul_finite fB (rfl : (fin (1 / q)).isFinite = true)
  simp only [slabPair, one_div_fin q hq, fin_ge_zero_iff]
  have hv : (fin (1 / q)).val = 1 / q := rfl
  rw [hv] at vA' vB'
  by_cases hpos : 0 < q
  · have h0 : (0 : ℚ) ≤ 1 / q := le_of_lt (one_div_pos.mpr hpos)
    simp only [h0, hpos, if_true]
    exact ⟨fA', fB', by rw [vA', vA, mul_one_div], by rw [vB', vB, mul_one_div]⟩
  · have hneg : q < 0 := lt_of_le_of_ne (not_lt.mp hpos) hq
    have h0 : ¬ (0 : ℚ) ≤ 1 / q := not_le.mpr (one_div_neg.mpr hneg)
    simp only [h0, hpos, if_false]
    exact ⟨fB', fA', by rw [vB', vB, mul_one_div], by rw [vA', vA, mul_one_div]⟩

/-- The slab pair of an axis whose direction component is `+0`. -/
theorem slabPair_pzero {lo hi p : XFloat} (hlo : lo.isFinite = true) (hhi : hi.isFinite = true)
    (hp : p.isFinite = true) :
    slabPair lo hi p (fin 0) =
      (if lo.val - p.val = 0 then nan else if lo.val - p.val < 0 then ninf else pinf,
       if hi.val - p.val = 0 then nan else if hi.val - p.val < 0 then ninf else pinf) := by
  obtain ⟨fA, vA⟩ := sub_finite hlo hp
  obtain ⟨fB, vB⟩ := sub_finite hhi hp
  simp only [slabPair, one_div_pzero, pinf_ge_zero, if_true, finite_mul_pinf fA,
    finite_mul_pinf fB, vA, vB]

/-- The slab pair of an axis whose direction component is `-0`. -/
theorem slabPair_nzero {lo hi p : XFloat} (hlo : lo.isFinite = true) (hhi : hi.isFinite = true)
    (hp : p.isFinite = true) :
    slabPair lo hi p nzero =
      (if hi.val - p.val = 0 then nan else if hi.val - p.val < 0 then pinf else ninf,
       if lo.val - p.val = 0 then nan else if lo.val - p.val < 0 then pinf else ninf) := by
  obtain ⟨fA, vA⟩ := sub_finite hlo hp
  obtain ⟨fB, vB⟩ := sub_finite hhi hp
  simp only [slabPair, one_div_nzero, not_ninf_ge_zero, if_false, finite_mul_ninf fA,
    finite_mul_ninf fB, vA, vB]

/-- Soundness of the two bounds of a slab: a parameter at which the ray coordinate lies
between the box bounds is excluded neither by the near nor by the far value. -/
theorem slabPair_bounds_sound {lo hi p d : XFloat} (hlo : lo.isFinite = true)
    (hhi : hi.isFinite = true) (hp : p.isFinite = true) (hd : d.isFinite = true) (t : ℚ)
    (hm : lo.val ≤ p.val + d.val * t ∧ p.val + d.val * t ≤ hi.val) :
    (slabPair lo hi p d).1.lbOK t ∧ (slabPair lo hi p d).2.ubOK t := by
  obtain ⟨h1, h2⟩ := hm
  rcases finite_cases hd with rfl | ⟨q, rfl⟩
  · rw [slabPair_nzero hlo hhi hp]
    simp only [val_nzero, val_fin, zero_mul, add_zero] at h1 h2
    constructor
    · simp only
      split_ifs with c1 c2
      · exact lbOK_nan t
      · exact absurd c2 (by linarith)
      · exact lbOK_ninf t
    · simp only
      split_ifs with c1 c2
      · exact ubOK_nan t
      · exact ubOK_pinf t
      · exact absurd (lt_of_le_of_ne (by linarith) c1 : lo.val - p.val < 0) c2
  · by_cases hq : q = 0
    · subst hq
      rw [slabPair_pzero hlo hhi hp]
      simp only [val_nzero, val_fin, zero_mul, add_zero] at h1 h2
      constructor
      · simp only
        split_ifs with c1 c2
        · exact lbOK_nan t
        · exact lbOK_ninf t
        · exact absurd (lt_of_le_of_ne (by linarith) c1 : lo.val - p.val < 0) c2
      · simp only
        split_ifs with c1 c2
        · exact ubOK_nan t
        · exact absurd c2 (by linarith)
        · exact ubOK_pinf t
    · obtain ⟨f1, f2, v1, v2⟩ := slabPair_fin hlo hhi hp q hq
      simp only [val_fin] at h1 h2
      refine ⟨lbOK_of_finite f1 ?_, ubOK_of_finite f2 ?_⟩
      · rw [v1]
        by_cases hpos : 0 < q
        · rw [if_pos hpos, div_le_iff₀ hpos]; linarith
        · have hneg : q < 0 := lt_of_le_of_ne (not_lt.mp hpos) hq
          rw [if_neg hpos, div_le_iff_of_neg hneg]; linarith
      · rw [v2]
        by_cases hpos : 0 < q
        · rw [if_pos hpos, le_div_iff₀ hpos]; linarith
        · have hneg : q < 0 := lt_of_le_of_ne (not_lt.mp hpos) hq
          rw [if_neg hpos, le_div_iff_of_neg hneg]; linarith

/-- When the near value of a slab does not exclude the parameter `0` and the ray coordinate
lies between the box bounds at some parameter `t ≥ 0`, the ray origin lies between them. -/
theorem slabPair_origin_inside {lo hi p d : XFloat} (hlo : lo.isFinite = true)
    (hhi : hi.isFinite = true) (hp : p.isFinite = true) (hd : d.isFinite = true) (t : ℚ)
    (ht : 0 ≤ t) (hm : lo.val ≤ p.val + d.val * t ∧ p.val + d.val * t ≤ hi.val)
    (hn : (slabPair lo hi p d).1.lbOK 0) :
    lo.val ≤ p.val ∧ p.val ≤ hi.val := by
  obtain ⟨h1, h2⟩ := hm
  rcases finite_cases hd with rfl | ⟨q, rfl⟩
  · simp only [val_nzero, val_fin, zero_mul, add_zero] at h1 h2
    exact ⟨h1, h2⟩
  · by_cases hq : q = 0
    · subst hq
      simp only [val_nzero, val_fin, zero_mul, add_zero] at h1 h2
      exact ⟨h1, h2⟩
    · obtain ⟨f1, -, v1, -⟩ := slabPair_fin hlo hhi hp q hq
      have hv := val_le_of_lbOK f1 hn
      rw [v1] at hv
      simp only [val_fin] at h1 h2
      by_cases hpos : 0 < q
      · rw [if_pos hpos, div_le_iff₀ hpos] at hv
        have : 0 ≤ q * t := mul_nonneg (le_of_lt hpos) ht
        constructor <;> linarith
      · have hneg : q < 0 := lt_of_le_of_ne (not_lt.mp hpos) hq
        rw [if_neg hpos, div_le_iff_of_neg hneg] at hv
        have : q * t ≤ 0 := mul_nonpos_of_nonpos_of_nonneg (le_of_lt hneg) ht
        constructor <;> linarith

/-- Three slabs whose bounds all admit a common parameter are never reported as a miss. -/
theorem sweep_ne_none_of_bounds {tx ty tz : XFloat × XFloat} {t : ℚ}
    (hx : tx.1.lbOK t ∧ tx.2.ubOK t) (hy : ty.1.lbOK t ∧ ty.2.ubOK t)
    (hz : tz.1.lbOK t ∧ tz.2.ubOK t) : sweep tx ty tz ≠ none := by
  have c1 : ¬ (tx.1 > ty.2 ∨ ty.1 > tx.2) := by
    rintro (h | h)
    · exact not_gt_of_bounds hx.1 hy.2 h
    · exact not_gt_of_bounds hy.1 hx.2 h
  have hT : (if ty.1 > tx.1 then ty.1 else tx.1).lbOK t := by
    split_ifs
    · exact hy.1
    · exact hx.1
  have hM : (if ty.2 < tx.2 then ty.2 else tx.2).ubOK t := by
    split_ifs
    · exact hy.2
    · exact hx.2
  have c2 : ¬ ((if ty.1 > tx.1 then ty.1 else tx.1) > tz.2 ∨
      tz.1 > (if ty.2 < tx.2 then ty.2 else tx.2)) := by
    rintro (h | h)
    · exact not_gt_of_bounds hT hz.2 h
    · exact not_gt_of_bounds hz.1 hM h
  unfold sweep
  rw [if_neg c1, if_neg c2]
  exact Option.some_ne_none _

end SlabX

/-- Containment of a point of finite coordinates in a box of finite coordinates, by
numeric values. -/
theorem contains_iff_val {B : Box XFloat} {v : Vec XFloat} (hB : B.IsFinite)
    (hv : v.IsFinite) :
    B.contains v ↔
      (B.min_.x_.val ≤ v.x_.val ∧ v.x_.val ≤ B.max_.x_.val) ∧
      (B.min_.y_.val ≤ v.y_.val ∧ v.y_.val ≤ B.max_.y_.val) ∧
      (B.min_.z_.val ≤ v.z_.val ∧ v.z_.val ≤ B.max_.z_.val) := by
  obtain ⟨⟨l1, l2, l3⟩, ⟨u1, u2, u3⟩⟩ := hB
  obtain ⟨v1, v2, v3⟩ := hv
  simp only [Box.contains, Vec.le, XFloat.le_iff_of_finite l1 v1, XFloat.le_iff_of_finite l2 v2,
    XFloat.le_iff_of_finite l3 v3, XFloat.le_iff_of_finite v1 u1,
    XFloat.le_iff_of_finite v2 u2, XFloat.le_iff_of_finite v3 u3]
  tauto

/-- The point of a finite ray at a finite parameter is finite, with the exact value. -/
theorem getRayPoint_val {R : Ray XFloat} {t : XFloat} (hR : R.IsFinite)
    (ht : t.isFinite = true) :
    (getRayPoint R t).IsFinite ∧
    (getRayPoint R t).x_.val = R.pos_.x_.val + R.dir_.x_.val * t.val ∧
    (getRayPoint R t).y_.val = R.pos_.y_.val + R.dir_.y_.val * t.val ∧
    (getRayPoint R t).z_.val = R.pos_.z_.val + R.dir_.z_.val * t.val := by
  obtain ⟨⟨p1, p2, p3⟩, ⟨d1, d2, d3⟩⟩ := hR
  obtain ⟨m1, w1⟩ := XFloat.mul_finite d1 ht
  obtain ⟨m2, w2⟩ := XFloat.mul_finite d2 ht
  obtain ⟨m3, w3⟩ := XFloat.mul_finite d3 ht
  obtain ⟨a1, e1⟩ := XFloat.add_finite p1 m1
  obtain ⟨a2, e2⟩ := XFloat.add_finite p2 m2
  obtain ⟨a3, e3⟩ := XFloat.add_finite p3 m3
  exact ⟨⟨a1, a2, a3⟩, by rw [← w1]; exact e1, by rw [← w2]; exact e2, by rw [← w3]; exact e3⟩

/-! ## The acceptance test of the miss-ray loop -/

/-- C5, as amended: without rounding, for every box and ray with finite coordinates (zero
direction components included), if `getRayBoxIntersection` returns a distance `≤ 0`, the
acceptance test of the miss-ray loop, then the origin of the ray lies in the box or no
point `R.pos + t * R.dir` with `t ≥ 0` lies in the box. -/
theorem nonpositive_dist_misses_or_starts_inside (R : Ray XFloat) (B : Box XFloat) (ic : Nat)
    (rr : Ray XFloat) (hR : R.IsFinite) (hB : B.IsFinite)
    (h : (getRayBoxIntersection R B ic rr).dist ≤ 0) :
    B.contains R.pos_ ∨
      ∀ t : XFloat, t.isFinite = true → t ≥ 0 → ¬ B.contains (getRayPoint R t) := by
  by_contra hcon
  rw [not_or] at hcon
  obtain ⟨hnot, hex⟩ := hcon
  push_neg at hex
  obtain ⟨t, htf, ht0, hin⟩ := hex
  apply hnot
  obtain ⟨hpf, e1, e2, e3⟩ := getRayPoint_val hR htf
  rw [contains_iff_val hB hpf, e1, e2, e3] at hin
  obtain ⟨mx, my, mz⟩ := hin
  have ht : 0 ≤ t.val :=
    (XFloat.le_iff_of_finite (rfl : (XFloat.fin 0).isFinite = true) htf).mp ht0
  rw [contains_iff_val hB hR.1]
  obtain ⟨⟨l1, l2, l3⟩, ⟨u1, u2, u3⟩⟩ := hB
  obtain ⟨⟨p1, p2, p3⟩, ⟨d1, d2, d3⟩⟩ := hR
  rw [getRayBoxIntersection_eq_sweep] at h
  cases hs : sweep (slabPair B.min_.x_ B.max_.x_ R.pos_.x_ R.dir_.x_)
      (slabPair B.min_.y_ B.max_.y_ R.pos_.y_ R.dir_.y_)
      (slabPair B.min_.z_ B.max_.z_ R.pos_.z_ R.dir_.z_) with
  | none =>
    exact absurd hs (sweep_ne_none_of_bounds
      (slabPair_bounds_sound l1 u1 p1 d1 t.val mx)
      (slabPair_bounds_sound l2 u2 p2 d2 t.val my)
      (slabPair_bounds_sound l3 u3 p3 d3 t.val mz))
  | some ta =>
    obtain ⟨T, a⟩ := ta
    rw [hs] at h
    simp only at h
    rw [sweep_some_dist hs] at h
    obtain ⟨h1, hz⟩ := XFloat.step_le h
    obtain ⟨hx, hy⟩ := XFloat.step_le h1
    exact ⟨slabPair_origin_inside l1 u1 p1 d1 t.val ht mx (Or.inr hx),
      slabPair_origin_inside l2 u2 p2 d2 t.val ht my hy,
      slabPair_origin_inside l3 u3 p3 d3 t.val ht mz hz⟩

/-! ## Evaluation on concrete inputs -/

/-- Evaluation of the ray `pos = {-5, 0.5, 0.5}`, `dir = {1, 0, 0}` on the unit box. -/
theorem rayAlongX_aux (ic : Nat) (rr : Ray XFloat) :
    getRayBoxIntersection rayAlongX (unitBox XFloat) ic rr =
      ⟨XFloat.fin 5, 6,
        ⟨⟨XFloat.fin 0, XFloat.fin (1 / 2), XFloat.fin (1 / 2)⟩,
         ⟨XFloat.fin (-1), XFloat.fin 0, XFloat.fin 0⟩⟩, true⟩ := by
  simp only [getRayBoxIntersection, getRayPoint, getIntersectChild, rayAlongX, unitBox,
    XFloat.zero_eq, XFloat.one_eq, XFloat.two_eq]
  norm_num [XFloat.fin_sub_fin, XFloat.fin_add_fin, XFloat.fin_add_nzero,
    XFloat.nzero_add_fin, XFloat.fin_div_fin, XFloat.fin_mul_fin,
    XFloat.fin_mul_pinf, XFloat.fin_mul_ninf, XFloat.fin_lt_fin, XFloat.fin_le_fin,
    XFloat.neg_fin, XFloat.infOf, XFloat.zeroOf, XFloat.fin_le_pinf, XFloat.not_pinf_lt,
    XFloat.not_lt_ninf, XFloat.ninf_lt_fin, XFloat.fin_lt_pinf, XFloat.ninf_lt_pinf]

/-- Evaluation of the ray `pos = {-1, 0, 0}`, `dir = {1, 1, 1}` on the box
`{{0,0,0},{2,2,2}}` over the rationals. -/
theorem rayDiagonal_aux (ic : Nat) (rr : Ray ℚ) :
    getRayBoxIntersection rayDiagonal (box2 ℚ) ic rr =
      ⟨1, 6, ⟨⟨0, 1, 1⟩, ⟨-1, 1, 1⟩⟩, true⟩ := by
  simp only [getRayBoxIntersection, getRayPoint, getIntersectChild, rayDiagonal, box2]
  norm_num

/-- C4, at the ray `pos = {-1, 0, 0}`, `dir = {1, 1, 1}` and the box `{{0,0,0},{2,2,2}}`:
the entry point is `{0, 1, 1}`. -/
theorem hit_point_on_boundary_witness :
    (box2 ℚ).Valid ∧ rayDiagonal.dir_.x_ ≠ 0 ∧ rayDiagonal.dir_.y_ ≠ 0 ∧
    rayDiagonal.dir_.z_ ≠ 0 ∧
    (getRayBoxIntersection rayDiagonal (box2 ℚ) 0 (ray0 ℚ)).final = true ∧
    (box2 ℚ).onFace (getRayPoint rayDiagonal
      (getRayBoxIntersection rayDiagonal (box2 ℚ) 0 (ray0 ℚ)).dist) ∧
    (box2 ℚ).contains (getRayPoint rayDiagonal
      (getRayBoxIntersection rayDiagonal (box2 ℚ) 0 (ray0 ℚ)).dist) := by
  have hB : (box2 ℚ).Valid := by simp [box2, Box.Valid, Vec.le]
  have h1 : rayDiagonal.dir_.x_ ≠ 0 := by simp [rayDiagonal]
  have h2 : rayDiagonal.dir_.y_ ≠ 0 := by simp [rayDiagonal]
  have h3 : rayDiagonal.dir_.z_ ≠ 0 := by simp [rayDiagonal]
  have h4 : (getRayBoxIntersection rayDiagonal (box2 ℚ) 0 (ray0 ℚ)).final = true := by
    rw [rayDiagonal_aux]
  have h := hit_point_on_boundary rayDiagonal (box2 ℚ) 0 (ray0 ℚ) hB h1 h2 h3 h4
  exact ⟨hB, h1, h2, h3, h4, h.1, h.2.1⟩

/-- Evaluation of the ray `pos = {0.5, 0.5, 0.5}`, `dir = {1, 0, 0}` on the unit box. -/
theorem rayFromCentre_aux (ic : Nat) (rr : Ray XFloat) :
    getRayBoxIntersection rayFromCentre (unitBox XFloat) ic rr =
      ⟨XFloat.fin (-1 / 2), 6,
        ⟨⟨XFloat.fin 0, XFloat.fin (1 / 2), XFloat.fin (1 / 2)⟩,
         ⟨XFloat.fin (-1), XFloat.fin 0, XFloat.fin 0⟩⟩, true⟩ := by
  simp only [getRayBoxIntersection, getRayPoint, getIntersectChild, rayFromCentre, unitBox,
    XFloat.zero_eq, XFloat.one_eq, XFloat.two_eq]
  norm_num [XFloat.fin_sub_fin, XFloat.fin_add_fin, XFloat.fin_add_nzero,
    XFloat.nzero_add_fin, XFloat.fin_div_fin, XFloat.fin_mul_fin,
    XFloat.fin_mul_pinf, XFloat.fin_mul_ninf, XFloat.fin_lt_fin, XFloat.fin_le_fin,
    XFloat.neg_fin, XFloat.infOf, XFloat.zeroOf, XFloat.fin_le_pinf, XFloat.not_pinf_lt,
    XFloat.not_lt_ninf, XFloat.ninf_lt_fin, XFloat.fin_lt_pinf, XFloat.ninf_lt_pinf]

/-- Evaluation of the ray `pos = {-5, 5, 0.5}`, `dir = {1, 0, 0}` on the unit box: the
first miss test fires. -/
theorem rayBeside_aux (ic : Nat) (rr : Ray XFloat) :
    getRayBoxIntersection rayBeside (unitBox XFloat) ic rr = ⟨XFloat.fin 0, ic, rr, false⟩ := by
  simp only [getRayBoxIntersection, getRayPoint, getIntersectChild, rayBeside, unitBox,
    XFloat.zero_eq, XFloat.one_eq, XFloat.two_eq]
  norm_num [XFloat.fin_sub_fin, XFloat.fin_add_fin, XFloat.fin_add_nzero,
    XFloat.nzero_add_fin, XFloat.fin_div_fin, XFloat.fin_mul_fin,
    XFloat.fin_mul_pinf, XFloat.fin_mul_ninf, XFloat.fin_lt_fin, XFloat.fin_le_fin,
    XFloat.neg_fin, XFloat.infOf, XFloat.zeroOf, XFloat.fin_le_pinf, XFloat.not_pinf_lt,
    XFloat.not_lt_ninf, XFloat.ninf_lt_fin, XFloat.fin_lt_pinf, XFloat.ninf_lt_pinf]

/-- C5, counterexample: the ray `pos = {0.5, 0.5, 0.5}`, `dir = {1, 0, 0}` and the unit box
`{{0,0,0},{1,1,1}}` satisfy the hypotheses of the claim (`min ≤ max`, non-zero direction),
`getRayBoxIntersection` returns `-0.5 ≤ 0`, and yet the point of the ray at `t = 0 ≥ 0`,
its origin, lies in the box. -/
theorem miss_test_accepts_ray_from_inside :
    (unitBox XFloat).Valid ∧ rayFromCentre.dir_.x_ = XFloat.fin 1 ∧
    (getRayBoxIntersection rayFromCentre (unitBox XFloat) 0 (ray0 XFloat)).dist =
      XFloat.fin (-1 / 2) ∧
    (getRayBoxIntersection rayFromCentre (unitBox XFloat) 0 (ray0 XFloat)).dist ≤ 0 ∧
    (0 : XFloat) ≥ 0 ∧
    getRayPoint rayFromCentre 0 = rayFromCentre.pos_ ∧
    (unitBox XFloat).contains (getRayPoint rayFromCentre 0) := by
  have hp : getRayPoint rayFromCentre 0 = rayFromCentre.pos_ := by
    simp only [getRayPoint, rayFromCentre, XFloat.zero_eq]
    norm_num [XFloat.fin_add_fin, XFloat.fin_mul_fin, XFloat.zeroOf]
  refine ⟨?_, rfl, ?_, ?_, ?_, hp, ?_⟩
  · simp only [Box.Valid, Vec.le, unitBox, XFloat.zero_eq, XFloat.one_eq]
    norm_num [XFloat.fin_le_fin]
  · rw [rayFromCentre_aux]
  · rw [rayFromCentre_aux, XFloat.zero_eq]
    norm_num [XFloat.fin_le_fin]
  · rw [XFloat.zero_eq]
    norm_num [XFloat.fin_le_fin]
  · rw [hp]
    simp only [Box.contains, Vec.le, unitBox, rayFromCentre, XFloat.zero_eq, XFloat.one_eq]
    norm_num [XFloat.fin_le_fin]

/-- C5 as amended, at the ray `pos = {-5, 5, 0.5}`, `dir = {1, 0, 0}` and the unit box: the
returned distance is `0`, the origin is outside the box, and no point of the ray lies in
the box. -/
theorem nonpositive_dist_misses_or_starts_inside_witness :
    rayBeside.IsFinite ∧ (unitBox XFloat).IsFinite ∧
    (getRayBoxIntersection rayBeside (unitBox XFloat) 0 (ray0 XFloat)).dist ≤ 0 ∧
    ((unitBox XFloat).contains rayBeside.pos_ ∨
      ∀ t : XFloat, t.isFinite = true → t ≥ 0 →
        ¬ (unitBox XFloat).contains (getRayPoint rayBeside t)) := by
  have hR : rayBeside.IsFinite := by
    simp [Ray.IsFinite, Vec.IsFinite, rayBeside, XFloat.isFinite]
  have hB : (unitBox XFloat).IsFinite := by
    simp [Box.IsFinite, Vec.IsFinite, unitBox, XFloat.zero_eq, XFloat.one_eq, XFloat.isFinite]
  have hd : (getRayBoxIntersection rayBeside (unitBox XFloat) 0 (ray0 XFloat)).dist ≤ 0 := by
    rw [rayBeside_aux, XFloat.zero_eq]
    norm_num [XFloat.fin_le_fin]
  exact ⟨hR, hB, hd,
    nonpositive_dist_misses_or_starts_inside rayBeside (unitBox XFloat) 0 (ray0 XFloat) hR hB hd⟩

/-! ## Reflection -/

/-- C6: for every box and every ray whose direction components are not NaN, if
`getRayBoxIntersection` reaches its final return then the direction of the reflected ray
differs from `R.dir` in exactly one axis component, that component is the negation of
the component of `R.dir`, and the other two components are those of `R.dir`.  The values
are those of the arithmetic with IEEE special values, where `+0` and `-0` are different
values (they differ in the sign bit). -/
theorem reflected_dir_one_axis_negated (R : Ray XFloat) (B : Box XFloat) (ic : Nat)
    (rr : Ray XFloat) (hx : R.dir_.x_ ≠ XFloat.nan) (hy : R.dir_.y_ ≠ XFloat.nan)
    (hz : R.dir_.z_ ≠ XFloat.nan)
    (hfin : (getRayBoxIntersection R B ic rr).final = true) :
    ((getRayBoxIntersection R B ic rr).reflect_ray.dir_.x_ = -R.dir_.x_ ∧
      (getRayBoxIntersection R B ic rr).reflect_ray.dir_.x_ ≠ R.dir_.x_ ∧
      (getRayBoxIntersection R B ic rr).reflect_ray.dir_.y_ = R.dir_.y_ ∧
      (getRayBoxIntersection R B ic rr).reflect_ray.dir_.z_ = R.dir_.z_) ∨
    ((getRayBoxIntersection R B ic rr).reflect_ray.dir_.x_ = R.dir_.x_ ∧
      (getRayBoxIntersection R B ic rr).reflect_ray.dir_.y_ = -R.dir_.y_ ∧
      (getRayBoxIntersection R B ic rr).reflect_ray.dir_.y_ ≠ R.dir_.y_ ∧
      (getRayBoxIntersection R B ic rr).reflect_ray.dir_.z_ = R.dir_.z_) ∨
    ((getRayBoxIntersection R B ic rr).reflect_ray.dir_.x_ = R.dir_.x_ ∧
      (getRayBoxIntersection R B ic rr).reflect_ray.dir_.y_ = R.dir_.y_ ∧
      (getRayBoxIntersection R B ic rr).reflect_ray.dir_.z_ = -R.dir_.z_ ∧
      (getRayBoxIntersection R B ic rr).reflect_ray.dir_.z_ ≠ R.dir_.z_) := by
  obtain ⟨a, -, hr, -⟩ := final_iff_sweep R B ic rr hfin
  rw [hr]
  match a with
  | 0 => exact Or.inl ⟨rfl, XFloat.neg_ne_self _ hx, rfl, rfl⟩
  | 1 => exact Or.inr (Or.inl ⟨rfl, rfl, XFloat.neg_ne_self _ hy, rfl⟩)
  | _ + 2 => exact Or.inr (Or.inr ⟨rfl, rfl, rfl, XFloat.neg_ne_self _ hz⟩)

/-! ## Concrete scenarios -/

/-- C7: on the ray `pos = {-5, 0.5, 0.5}`, `dir = {1, 0, 0}` and the box
`{{0,0,0},{1,1,1}}`, `getRayBoxIntersection` reaches its final return with distance 5 and
the reflected ray of origin `{0, 0.5, 0.5}` and direction `{-1, 0, 0}`; the reciprocal of
the zero Y and Z direction components is `+∞`, and their slabs have the near parameter
`-∞` and the far parameter `+∞`. -/
theorem rayAlongX_unitBox (ic : Nat) (rr : Ray XFloat) :
    getRayBoxIntersection rayAlongX (unitBox XFloat) ic rr =
      ⟨XFloat.fin 5, 6,
        ⟨⟨XFloat.fin 0, XFloat.fin (1 / 2), XFloat.fin (1 / 2)⟩,
         ⟨XFloat.fin (-1), XFloat.fin 0, XFloat.fin 0⟩⟩, true⟩ ∧
    (1 : XFloat) / rayAlongX.dir_.y_ = XFloat.pinf ∧
    (1 : XFloat) / rayAlongX.dir_.z_ = XFloat.pinf ∧
    slabPair (unitBox XFloat).min_.y_ (unitBox XFloat).max_.y_ rayAlongX.pos_.y_
      rayAlongX.dir_.y_ = (XFloat.ninf, XFloat.pinf) ∧
    slabPair (unitBox XFloat).min_.z_ (unitBox XFloat).max_.z_ rayAlongX.pos_.z_
      rayAlongX.dir_.z_ = (XFloat.ninf, XFloat.pinf) := by
  refine ⟨rayAlongX_aux ic rr, ?_, ?_, ?_, ?_⟩
  · simp only [rayAlongX, XFloat.one_eq]
    norm_num [XFloat.fin_div_fin, XFloat.infOf]
  · simp only [rayAlongX, XFloat.one_eq]
    norm_num [XFloat.fin_div_fin, XFloat.infOf]
  · simp only [slabPair, rayAlongX, unitBox, XFloat.zero_eq, XFloat.one_eq]
    norm_num [XFloat.fin_sub_fin, XFloat.fin_div_fin, XFloat.fin_mul_pinf, XFloat.infOf,
      XFloat.fin_le_pinf]
  · simp only [slabPair, rayAlongX, unitBox, XFloat.zero_eq, XFloat.one_eq]
    norm_num [XFloat.fin_sub_fin, XFloat.fin_div_fin, XFloat.fin_mul_pinf, XFloat.infOf,
      XFloat.fin_le_pinf]

/-- C6, at the ray `pos = {-5, 0.5, 0.5}`, `dir = {1, 0, 0}` and the unit box: the X
component is negated. -/
theorem reflected_dir_one_axis_negated_witness :
    rayAlongX.dir_.x_ ≠ XFloat.nan ∧ rayAlongX.dir_.y_ ≠ XFloat.nan ∧
    rayAlongX.dir_.z_ ≠ XFloat.nan ∧
    (getRayBoxIntersection rayAlongX (unitBox XFloat) 0 (ray0 XFloat)).final = true ∧
    (getRayBoxIntersection rayAlongX (unitBox XFloat) 0
        (ray0 XFloat)).reflect_ray.dir_.x_ = XFloat.fin (-1) := by
  have h1 : rayAlongX.dir_.x_ ≠ XFloat.nan := by simp [rayAlongX]
  have h2 : rayAlongX.dir_.y_ ≠ XFloat.nan := by simp [rayAlongX]
  have h3 : rayAlongX.dir_.z_ ≠ XFloat.nan := by simp [rayAlongX]
  have h4 : (getRayBoxIntersection rayAlongX (unitBox XFloat) 0 (ray0 XFloat)).final = true := by
    rw [(rayAlongX_aux 0 (ray0 XFloat))]
  refine ⟨h1, h2, h3, h4, ?_⟩
  rcases reflected_dir_one_axis_negated rayAlongX (unitBox XFloat) 0 (ray0 XFloat) h1 h2 h3 h4
    with h | h | h
  · rw [h.1]; simp [rayAlongX, XFloat.neg_fin]
  · exact absurd h.2.1.symm (by rw [rayAlongX_aux]; simp [rayAlongX, XFloat.neg_fin])
  · exact absurd h.2.2.1.symm (by rw [rayAlongX_aux]; simp [rayAlongX, XFloat.neg_fin])

/-- C1, at the box `{{0,0,0},{2,2,2}}` over the rationals. -/
theorem getBoxChild_tiles_witness :
    (box2 ℚ).Valid ∧ (∀ i, i < 8 → (getBoxChild (box2 ℚ) i).inside (box2 ℚ)) ∧
      (∀ p, (box2 ℚ).contains p → ∃ i, i < 8 ∧ (getBoxChild (box2 ℚ) i).contains p) :=
  have h : (box2 ℚ).Valid := by simp [box2, Box.Valid, Vec.le]
  ⟨h, (getBoxChild_tiles (box2 ℚ) h).1, (getBoxChild_tiles (box2 ℚ) h).2.2.1⟩

/-- C2, at index 5 of the box `{{0,0,0},{2,2,2}}` over the rationals. -/
theorem getBoxChild_eq_closed_form_witness :
    5 < 8 ∧ getBoxChild (box2 ℚ) 5 = childByBits (box2 ℚ) 5 :=
  ⟨by decide, getBoxChild_eq_closed_form (box2 ℚ) 5 (by decide)⟩

/-- C3, at the index 255 of the box `{{0,0,0},{2,2,2}}` over the rationals. -/
theorem getBoxChild_out_of_range_witness :
    8 ≤ 255 ∧ getBoxChild (box2 ℚ) 255 = box2 ℚ :=
  ⟨by decide, getBoxChild_out_of_range (box2 ℚ) 255 (by decide)⟩

/-- C8: for the box `{{0,0,0},{2,2,2}}`, child 0 is `{{0,0,0},{1,1,1}}`, child 7 is
`{{1,1,1},{2,2,2}}` and the diagonal is `sqrt 12`, over the reals; the two children are
the same boxes in the arithmetic with IEEE special values. -/
theorem box2_children_and_diag :
    getBoxChild (box2 ℝ) 0 = ⟨⟨0, 0, 0⟩, ⟨1, 1, 1⟩⟩ ∧
    getBoxChild (box2 ℝ) 7 = ⟨⟨1, 1, 1⟩, ⟨2, 2, 2⟩⟩ ∧
    getBoxDiag Real.sqrt (box2 ℝ) = Real.sqrt 12 ∧
    getBoxChild (box2 XFloat) 0 = ⟨⟨0, 0, 0⟩, ⟨1, 1, 1⟩⟩ ∧
    getBoxChild (box2 XFloat) 7 = ⟨⟨1, 1, 1⟩, ⟨2, 2, 2⟩⟩ := by
  refine ⟨?_, ?_, ?_, ?_, ?_⟩
  · simp only [getBoxChild, box2]; norm_num
  · simp only [getBoxChild, box2]; norm_num
  · simp only [getBoxDiag, box2]; norm_num
  · simp only [getBoxChild, box2, XFloat.zero_eq, XFloat.one_eq, XFloat.two_eq]
    norm_num [XFloat.fin_sub_fin, XFloat.fin_add_fin, XFloat.fin_div_fin]
  · simp only [getBoxChild, box2, XFloat.zero_eq, XFloat.one_eq, XFloat.two_eq]
    norm_num [XFloat.fin_sub_fin, XFloat.fin_add_fin, XFloat.fin_div_fin]

/-! ## Frame of the output parameters -/

section Frame

variable {α : Type} [Add α] [Sub α] [Mul α] [Div α] [Neg α] [LT α] [LE α]
  [DecidableRel (fun a b : α => a < b)] [DecidableRel (fun a b : α => a ≤ b)]
  [OfNat α 0] [OfNat α 1] [OfNat α 2]

/-- The three directions that `reflect_dir` can hold: `d` with one component negated. -/
theorem negAxis_cases {β : Type} [Neg β] (d : Vec β) (a : Nat) :
    negAxis d a = ⟨-d.x_, d.y_, d.z_⟩ ∨ negAxis d a = ⟨d.x_, -d.y_, d.z_⟩ ∨
      negAxis d a = ⟨d.x_, d.y_, -d.z_⟩ := by
  match a with
  | 0 => exact Or.inl rfl
  | 1 => exact Or.inr (Or.inl rfl)
  | _ + 2 => exact Or.inr (Or.inr rfl)

/-- C20: whatever the scalar arithmetic, `getRayBoxIntersection` writes its two output
parameters only on a hit.  Either it returns through a miss branch, and then it returns
`0` and `intersect_child` and `reflect_ray` keep exactly the values they had on entry; or
it reaches the final return, and then `intersect_child` is `getIntersectChild` of the box
and the entry point, and `reflect_ray` is the entry point with the direction of the ray
in which one component is negated. -/
theorem outputs_written_only_on_hit (R : Ray α) (B : Box α) (ic : Nat) (rr : Ray α) :
    ((getRayBoxIntersection R B ic rr).final = false ∧
      (getRayBoxIntersection R B ic rr).dist = 0 ∧
      (getRayBoxIntersection R B ic rr).intersect_child = ic ∧
      (getRayBoxIntersection R B ic rr).reflect_ray = rr) ∨
    ((getRayBoxIntersection R B ic rr).final = true ∧
      (getRayBoxIntersection R B ic rr).intersect_child =
        getIntersectChild B (getRayPoint R (getRayBoxIntersection R B ic rr).dist) ∧
      (getRayBoxIntersection R B ic rr).reflect_ray.pos_ =
        getRayPoint R (getRayBoxIntersection R B ic rr).dist ∧
      ((getRayBoxIntersection R B ic rr).reflect_ray.dir_ =
          ⟨-R.dir_.x_, R.dir_.y_, R.dir_.z_⟩ ∨
        (getRayBoxIntersection R B ic rr).reflect_ray.dir_ =
          ⟨R.dir_.x_, -R.dir_.y_, R.dir_.z_⟩ ∨
        (getRayBoxIntersection R B ic rr).reflect_ray.dir_ =
          ⟨R.dir_.x_, R.dir_.y_, -R.dir_.z_⟩)) := by
  rw [getRayBoxIntersection_eq_sweep]
  cases sweep (slabPair B.min_.x_ B.max_.x_ R.pos_.x_ R.dir_.x_)
      (slabPair B.min_.y_ B.max_.y_ R.pos_.y_ R.dir_.y_)
      (slabPair B.min_.z_ B.max_.z_ R.pos_.z_ R.dir_.z_) with
  | none => exact Or.inl ⟨rfl, rfl, rfl, rfl⟩
  | some ta =>
    obtain ⟨t, a⟩ := ta
    exact Or.inr ⟨rfl, rfl, rfl, negAxis_cases R.dir_ a⟩

/-- An early return of `getRayBoxIntersection` is a sweep without result. -/
theorem not_final_iff_sweep (R : Ray α) (B : Box α) (ic : Nat) (rr : Ray α) :
    (getRayBoxIntersection R B ic rr).final = false ↔
      sweep (slabPair B.min_.x_ B.max_.x_ R.pos_.x_ R.dir_.x_)
        (slabPair B.min_.y_ B.max_.y_ R.pos_.y_ R.dir_.y_)
        (slabPair B.min_.z_ B.max_.z_ R.pos_.z_ R.dir_.z_) = none := by
  rw [getRayBoxIntersection_eq_sweep]
  cases sweep (slabPair B.min_.x_ B.max_.x_ R.pos_.x_ R.dir_.x_)
      (slabPair B.min_.y_ B.max_.y_ R.pos_.y_ R.dir_.y_)
      (slabPair B.min_.z_ B.max_.z_ R.pos_.z_ R.dir_.z_) with
  | none => simp
  | some ta => simp

/-- The distance returned on an early return is `0`. -/
theorem dist_of_not_final (R : Ray α) (B : Box α) (ic : Nat) (rr : Ray α)
    (h : (getRayBoxIntersection R B ic rr).final = false) :
    (getRayBoxIntersection R B ic rr).dist = 0 := by
  rw [getRayBoxIntersection_eq_sweep] at h ⊢
  cases hs : sweep (slabPair B.min_.x_ B.max_.x_ R.pos_.x_ R.dir_.x_)
      (slabPair B.min_.y_ B.max_.y_ R.pos_.y_ R.dir_.y_)
      (slabPair B.min_.z_ B.max_.z_ R.pos_.z_ R.dir_.z_) with
  | none => rfl
  | some ta => rw [hs] at h; exact absurd h (by simp)

end Frame

/-! ## Hits in exact arithmetic -/

section ExactHits

variable {α : Type} [LinearOrderedField α]

/-- In a linear order, a sweep that reaches the final return yields a value that is at
least every near value and is the near value of the first axis, in the order X, Y, Z,
that attains it. -/
theorem sweep_axis {tx ty tz : α × α} {t : α} {a : Nat}
    (h : sweep tx ty tz = some (t, a)) :
    (tx.1 ≤ t ∧ ty.1 ≤ t ∧ tz.1 ≤ t) ∧
      ((a = 0 ∧ t = tx.1) ∨ (a = 1 ∧ t = ty.1 ∧ tx.1 < t) ∨
        (a = 2 ∧ t = tz.1 ∧ tx.1 < t ∧ ty.1 < t)) := by
  unfold sweep at h
  split_ifs at h <;>
    simp only [Option.some.injEq, Prod.mk.injEq, gt_iff_lt, not_or, not_lt] at * <;>
    obtain ⟨rfl, rfl⟩ := h <;>
    refine ⟨⟨?_, ?_, ?_⟩, ?_⟩ <;>
    first
      | linarith
      | (simp only [true_and, and_true, OfNat.ofNat_ne_zero, OfNat.ofNat_ne_one,
          false_and, or_false, false_or, one_ne_zero, OfNat.zero_ne_ofNat,
          OfNat.one_ne_ofNat, zero_ne_one]
         try constructor
         all_goals linarith)

/-- The value of a sweep that reaches the final return is the largest near value. -/
theorem sweep_eq_max {tx ty tz : α × α} {t : α} {a : Nat}
    (h : sweep tx ty tz = some (t, a)) : t = max (max tx.1 ty.1) tz.1 := by
  obtain ⟨⟨h1, h2, h3⟩, hax⟩ := sweep_axis h
  apply le_antisymm
  · rcases hax with ⟨-, ht⟩ | ⟨-, ht, -⟩ | ⟨-, ht, -⟩
    · rw [ht]; exact le_trans (le_max_left _ _) (le_max_left _ _)
    · rw [ht]; exact le_trans (le_max_right _ _) (le_max_left _ _)
    · rw [ht]; exact le_max_right _ _
  · exact max_le (max_le h1 h2) h3

/-- In a linear order, three slabs in which every near value is at most every far value
of the two other axes are not reported as a miss. -/
theorem sweep_ne_none_of_le {tx ty tz : α × α}
    (hxy : tx.1 ≤ ty.2) (hyx : ty.1 ≤ tx.2) (hxz : tx.1 ≤ tz.2) (hyz : ty.1 ≤ tz.2)
    (hzx : tz.1 ≤ tx.2) (hzy : tz.1 ≤ ty.2) : sweep tx ty tz ≠ none := by
  have c1 : ¬ (tx.1 > ty.2 ∨ ty.1 > tx.2) := by
    rintro (c | c) <;> linarith
  have c2 : ¬ ((if ty.1 > tx.1 then ty.1 else tx.1) > tz.2 ∨
      tz.1 > (if ty.2 < tx.2 then ty.2 else tx.2)) := by
    rintro (c | c) <;> split_ifs at c <;> linarith
  unfold sweep
  rw [if_neg c1, if_neg c2]
  exact Option.some_ne_none _

/-- In a linear order, three slabs with `near ≤ far` are reported as a miss exactly when
the largest near value exceeds the smallest far value. -/
theorem sweep_eq_none_iff {tx ty tz : α × α}
    (hx : tx.1 ≤ tx.2) (hy : ty.1 ≤ ty.2) (hz : tz.1 ≤ tz.2) :
    sweep tx ty tz = none ↔ max (max tx.1 ty.1) tz.1 > min (min tx.2 ty.2) tz.2 := by
  constructor
  · intro h
    by_contra hle
    have hle' : max (max tx.1 ty.1) tz.1 ≤ min (min tx.2 ty.2) tz.2 := not_lt.mp hle
    simp only [max_le_iff, le_min_iff] at hle'
    exact sweep_ne_none_of_le (by tauto) (by tauto) (by tauto) (by tauto) (by tauto)
      (by tauto) h
  · intro h
    by_contra hne
    obtain ⟨⟨t, a⟩, hs⟩ := Option.ne_none_iff_exists'.mp hne
    obtain ⟨-, ⟨f1, f2, f3⟩, -⟩ := sweep_some hs hx hy hz
    have ht := sweep_eq_max hs
    have : t ≤ min (min tx.2 ty.2) tz.2 := le_min (le_min f1 f2) f3
    rw [ht] at this
    exact absurd h (not_lt.mpr this)

/-- In exact arithmetic with non-zero direction components, the point of the ray at the
parameter `t` lies in the box exactly when `t` lies between the near and the far value of
every slab. -/
theorem contains_point_iff (R : Ray α) (B : Box α) (t : α)
    (hdx : R.dir_.x_ ≠ 0) (hdy : R.dir_.y_ ≠ 0) (hdz : R.dir_.z_ ≠ 0) :
    B.contains (getRayPoint R t) ↔
      ((slabPair B.min_.x_ B.max_.x_ R.pos_.x_ R.dir_.x_).1 ≤ t ∧
        t ≤ (slabPair B.min_.x_ B.max_.x_ R.pos_.x_ R.dir_.x_).2) ∧
      ((slabPair B.min_.y_ B.max_.y_ R.pos_.y_ R.dir_.y_).1 ≤ t ∧
        t ≤ (slabPair B.min_.y_ B.max_.y_ R.pos_.y_ R.dir_.y_).2) ∧
      ((slabPair B.min_.z_ B.max_.z_ R.pos_.z_ R.dir_.z_).1 ≤ t ∧
        t ≤ (slabPair B.min_.z_ B.max_.z_ R.pos_.z_ R.dir_.z_).2) := by
  rw [slabPair_mem _ _ _ _ t hdx, slabPair_mem _ _ _ _ t hdy, slabPair_mem _ _ _ _ t hdz]
  simp only [Box.contains, Vec.le, getRayPoint]
  tauto

/-- The point of a ray at the parameter `0` is its origin. -/
theorem getRayPoint_zero (R : Ray α) : getRayPoint R 0 = R.pos_ := by
  obtain ⟨⟨px, py, pz⟩, d⟩ := R
  simp [getRayPoint]

/-- C15: in exact arithmetic, for every box with `min ≤ max` on every axis and every ray
whose direction components are all non-zero, the sequential slab test of
`getRayBoxIntersection` equals the reference slab computation: it returns through a miss
branch, with the value `0`, exactly when the largest near value exceeds the smallest far
value, that is when the three intervals `[near, far]` have no common point, and otherwise
it reaches the final return with the largest near value as distance. -/
theorem slab_test_eq_reference (R : Ray α) (B : Box α) (ic : Nat) (rr : Ray α)
    (hB : B.Valid) (hdx : R.dir_.x_ ≠ 0) (hdy : R.dir_.y_ ≠ 0) (hdz : R.dir_.z_ ≠ 0) :
    (if (getRayBoxIntersection R B ic rr).final = true
      then some (getRayBoxIntersection R B ic rr).dist else none) = slabReference R B ∧
    ((getRayBoxIntersection R B ic rr).final = false ↔
      max (max (slabPair B.min_.x_ B.max_.x_ R.pos_.x_ R.dir_.x_).1
        (slabPair B.min_.y_ B.max_.y_ R.pos_.y_ R.dir_.y_).1)
        (slabPair B.min_.z_ B.max_.z_ R.pos_.z_ R.dir_.z_).1 >
      min (min (slabPair B.min_.x_ B.max_.x_ R.pos_.x_ R.dir_.x_).2
        (slabPair B.min_.y_ B.max_.y_ R.pos_.y_ R.dir_.y_).2)
        (slabPair B.min_.z_ B.max_.z_ R.pos_.z_ R.dir_.z_).2) ∧
    ((getRayBoxIntersection R B ic rr).final = false ↔
      ¬ ∃ t, B.contains (getRayPoint R t)) ∧
    ((getRayBoxIntersection R B ic rr).final = false →
      (getRayBoxIntersection R B ic rr).dist = 0) ∧
    ((getRayBoxIntersection R B ic rr).final = true →
      (getRayBoxIntersection R B ic rr).dist =
        max (max (slabPair B.min_.x_ B.max_.x_ R.pos_.x_ R.dir_.x_).1
          (slabPair B.min_.y_ B.max_.y_ R.pos_.y_ R.dir_.y_).1)
          (slabPair B.min_.z_ B.max_.z_ R.pos_.z_ R.dir_.z_).1) := by
  obtain ⟨hvx, hvy, hvz⟩ := hB
  have lx := slabPair_le _ _ R.pos_.x_ _ hdx hvx
  have ly := slabPair_le _ _ R.pos_.y_ _ hdy hvy
  have lz := slabPair_le _ _ R.pos_.z_ _ hdz hvz
  have hnone := sweep_eq_none_iff lx ly lz
  have hmiss := not_final_iff_sweep R B ic rr
  have hmax : (getRayBoxIntersection R B ic rr).final = true →
      (getRayBoxIntersection R B ic rr).dist =
        max (max (slabPair B.min_.x_ B.max_.x_ R.pos_.x_ R.dir_.x_).1
          (slabPair B.min_.y_ B.max_.y_ R.pos_.y_ R.dir_.y_).1)
          (slabPair B.min_.z_ B.max_.z_ R.pos_.z_ R.dir_.z_).1 := by
    intro hfin
    obtain ⟨a, hs, -, -⟩ := final_iff_sweep R B ic rr hfin
    exact sweep_eq_max hs
  refine ⟨?_, hmiss.trans hnone, ?_, dist_of_not_final R B ic rr, hmax⟩
  · unfold slabReference
    by_cases hfin : (getRayBoxIntersection R B ic rr).final = true
    · have hn : ¬ (getRayBoxIntersection R B ic rr).final = false := by simp [hfin]
      rw [if_pos hfin, if_neg (fun h => hn ((hmiss.trans hnone).mpr h)), hmax hfin]
    · have hf : (getRayBoxIntersection R B ic rr).final = false := by simpa using hfin
      rw [if_neg hfin, if_pos ((hmiss.trans hnone).mp hf)]
  · rw [hmiss.trans hnone]
    constructor
    · rintro hgt ⟨t, ht⟩
      obtain ⟨⟨a1, a2⟩, ⟨b1, b2⟩, ⟨c1, c2⟩⟩ := (contains_point_iff R B t hdx hdy hdz).mp ht
      have h1 : max (max (slabPair B.min_.x_ B.max_.x_ R.pos_.x_ R.dir_.x_).1
          (slabPair B.min_.y_ B.max_.y_ R.pos_.y_ R.dir_.y_).1)
          (slabPair B.min_.z_ B.max_.z_ R.pos_.z_ R.dir_.z_).1 ≤ t :=
        max_le (max_le a1 b1) c1
      have h2 : t ≤ min (min (slabPair B.min_.x_ B.max_.x_ R.pos_.x_ R.dir_.x_).2
          (slabPair B.min_.y_ B.max_.y_ R.pos_.y_ R.dir_.y_).2)
          (slabPair B.min_.z_ B.max_.z_ R.pos_.z_ R.dir_.z_).2 :=
        le_min (le_min a2 b2) c2
      exact absurd hgt (not_lt.mpr (le_trans h1 h2))
    · intro hno
      by_contra hle
      have hle' := not_lt.mp hle
      apply hno
      refine ⟨max (max (slabPair B.min_.x_ B.max_.x_ R.pos_.x_ R.dir_.x_).1
          (slabPair B.min_.y_ B.max_.y_ R.pos_.y_ R.dir_.y_).1)
          (slabPair B.min_.z_ B.max_.z_ R.pos_.z_ R.dir_.z_).1, ?_⟩
      rw [contains_point_iff R B _ hdx hdy hdz]
      simp only [le_min_iff] at hle'
      refine ⟨⟨le_trans (le_max_left _ _) (le_max_left _ _), hle'.1.1⟩,
        ⟨le_trans (le_max_right _ _) (le_max_left _ _), hle'.1.2⟩,
        ⟨le_max_right _ _, hle'.2⟩⟩

/-- C19: in exact arithmetic, for every box with `min ≤ max` on every axis and every ray
whose direction components are all non-zero, `getRayBoxIntersection` returns a distance
`> 0` if and only if the origin of the ray lies outside the closed box and some point
`R.pos + t * R.dir` with `t > 0` lies in the box; in particular a ray whose origin is
inside the box, or that has no point with `t > 0` in the box, yields a distance `≤ 0`. -/
theorem positive_dist_iff (R : Ray α) (B : Box α) (ic : Nat) (rr : Ray α)
    (hB : B.Valid) (hdx : R.dir_.x_ ≠ 0) (hdy : R.dir_.y_ ≠ 0) (hdz : R.dir_.z_ ≠ 0) :
    ((getRayBoxIntersection R B ic rr).dist > 0 ↔
      (¬ B.contains R.pos_ ∧ ∃ t, t > 0 ∧ B.contains (getRayPoint R t))) ∧
    (B.contains R.pos_ → (getRayBoxIntersection R B ic rr).dist ≤ 0) ∧
    ((∀ t, t > 0 → ¬ B.contains (getRayPoint R t)) →
      (getRayBoxIntersection R B ic rr).dist ≤ 0) := by
  obtain ⟨hvx, hvy, hvz⟩ := hB
  have lx := slabPair_le _ _ R.pos_.x_ _ hdx hvx
  have ly := slabPair_le _ _ R.pos_.y_ _ hdy hvy
  have lz := slabPair_le _ _ R.pos_.z_ _ hdz hvz
  have key : (getRayBoxIntersection R B ic rr).dist > 0 ↔
      (¬ B.contains R.pos_ ∧ ∃ t, t > 0 ∧ B.contains (getRayPoint R t)) := by
    constructor
    · intro hpos
      have hfin : (getRayBoxIntersection R B ic rr).final = true := by
        by_contra hnf
        have hf : (getRayBoxIntersection R B ic rr).final = false := by simpa using hnf
        rw [dist_of_not_final R B ic rr hf] at hpos
        exact lt_irrefl _ hpos
      obtain ⟨a, hs, -, -⟩ := final_iff_sweep R B ic rr hfin
      obtain ⟨⟨n1, n2, n3⟩, ⟨f1, f2, f3⟩, hax⟩ := sweep_some hs lx ly lz
      constructor
      · intro hin
        rw [← getRayPoint_zero R, contains_point_iff R B 0 hdx hdy hdz] at hin
        obtain ⟨⟨a1, -⟩, ⟨b1, -⟩, ⟨c1, -⟩⟩ := hin
        rcases hax with ⟨-, ht⟩ | ⟨-, ht, -⟩ | ⟨-, ht, -⟩ <;> linarith
      · exact ⟨_, hpos, (contains_point_iff R B _ hdx hdy hdz).mpr
          ⟨⟨n1, f1⟩, ⟨n2, f2⟩, ⟨n3, f3⟩⟩⟩
    · rintro ⟨hout, t, ht, hin⟩
      obtain ⟨⟨a1, a2⟩, ⟨b1, b2⟩, ⟨c1, c2⟩⟩ := (contains_point_iff R B t hdx hdy hdz).mp hin
      have hne := sweep_ne_none_of_le (le_trans a1 b2) (le_trans b1 a2) (le_trans a1 c2)
        (le_trans b1 c2) (le_trans c1 a2) (le_trans c1 b2)
      have hfin : (getRayBoxIntersection R B ic rr).final = true := by
        by_contra hnf
        have hf : (getRayBoxIntersection R B ic rr).final = false := by simpa using hnf
        exact hne ((not_final_iff_sweep R B ic rr).mp hf)
      obtain ⟨a, hs, -, -⟩ := final_iff_sweep R B ic rr hfin
      obtain ⟨⟨n1, n2, n3⟩, -, -⟩ := sweep_some hs lx ly lz
      by_contra hle
      have hle' := not_lt.mp hle
      apply hout
      rw [← getRayPoint_zero R, contains_point_iff R B 0 hdx hdy hdz]
      exact ⟨⟨le_trans n1 hle', by linarith⟩, ⟨le_trans n2 hle', by linarith⟩,
        ⟨le_trans n3 hle', by linarith⟩⟩
  refine ⟨key, ?_, ?_⟩
  · intro hin
    by_contra hgt
    exact (key.mp (not_le.mp hgt)).1 hin
  · intro hno
    by_contra hgt
    obtain ⟨-, t, ht, hin⟩ := key.mp (not_le.mp hgt)
    exact hno t ht hin

end ExactHits

/-! ## The octant of a point -/

section Octant

variable {α : Type} [LinearOrderedField α]

/-- The value of `getIntersectChild` is an octant index. -/
theorem getIntersectChild_lt (B : Box α) (P : Vec α) : getIntersectChild B P < 8 := by
  unfold getIntersectChild
  simp only
  split_ifs <;> decide

/-- The three low bits of `getIntersectChild` record the three comparisons with the
half-extent. -/
theorem getIntersectChild_testBit (B : Box α) (P : Vec α) :
    ((getIntersectChild B P).testBit 0 = true ↔ ¬ P.x_ < (B.max_.x_ - B.min_.x_) / 2) ∧
    ((getIntersectChild B P).testBit 1 = true ↔ ¬ P.y_ < (B.max_.y_ - B.min_.y_) / 2) ∧
    ((getIntersectChild B P).testBit 2 = true ↔ ¬ P.z_ < (B.max_.z_ - B.min_.z_) / 2) := by
  unfold getIntersectChild
  by_cases cx : P.x_ < (B.max_.x_ - B.min_.x_) / 2 <;>
  by_cases cy : P.y_ < (B.max_.y_ - B.min_.y_) / 2 <;>
  by_cases cz : P.z_ < (B.max_.z_ - B.min_.z_) / 2 <;>
  simp only [cx, cy, cz, if_true, if_false, not_true_eq_false, not_false_eq_true,
    iff_true, iff_false] <;> decide

/-- The spans of the child that `getBoxChild` returns for the index of a point, axis by
axis: the lower half of the box when the coordinate is below the half-extent, the upper
half otherwise. -/
theorem child_of_point (B : Box α) (P : Vec α) :
    getBoxChild B (getIntersectChild B P) =
      ⟨⟨if P.x_ < (B.max_.x_ - B.min_.x_) / 2 then B.min_.x_
          else B.min_.x_ + (B.max_.x_ - B.min_.x_) / 2,
        if P.y_ < (B.max_.y_ - B.min_.y_) / 2 then B.min_.y_
          else B.min_.y_ + (B.max_.y_ - B.min_.y_) / 2,
        if P.z_ < (B.max_.z_ - B.min_.z_) / 2 then B.min_.z_
          else B.min_.z_ + (B.max_.z_ - B.min_.z_) / 2⟩,
       ⟨if P.x_ < (B.max_.x_ - B.min_.x_) / 2 then B.max_.x_ - (B.max_.x_ - B.min_.x_) / 2
          else B.max_.x_,
        if P.y_ < (B.max_.y_ - B.min_.y_) / 2 then B.max_.y_ - (B.max_.y_ - B.min_.y_) / 2
          else B.max_.y_,
        if P.z_ < (B.max_.z_ - B.min_.z_) / 2 then B.max_.z_ - (B.max_.z_ - B.min_.z_) / 2
          else B.max_.z_⟩⟩ := by
  unfold getIntersectChild
  by_cases cx : P.x_ < (B.max_.x_ - B.min_.x_) / 2 <;>
  by_cases cy : P.y_ < (B.max_.y_ - B.min_.y_) / 2 <;>
  by_cases cz : P.z_ < (B.max_.z_ - B.min_.z_) / 2 <;>
  simp only [cx, cy, cz, if_true, if_false] <;> rfl

/-- C16: in exact arithmetic, when `box.min` is the origin the half-extent comparison is
correct: for every box with `min = (0,0,0)` and every point `P` inside the box (so that
`max ≥ 0` on every axis), `P` lies in the child box
`getBoxChild B (getIntersectChild B P)`. -/
theorem origin_box_child_contains (B : Box α) (P : Vec α) (hmin : B.min_ = ⟨0, 0, 0⟩)
    (hP : B.contains P) : (getBoxChild B (getIntersectChild B P)).contains P := by
  rw [child_of_point]
  obtain ⟨mn, ⟨bx, by_, bz⟩⟩ := B
  simp only at hmin
  subst hmin
  obtain ⟨⟨h1, h2, h3⟩, ⟨h4, h5, h6⟩⟩ := hP
  simp only at h1 h2 h3 h4 h5 h6
  simp only [Box.contains, Vec.le, sub_zero, zero_add]
  refine ⟨⟨?_, ?_, ?_⟩, ⟨?_, ?_, ?_⟩⟩ <;> split_ifs <;> linarith

/-- On one axis with `lo < hi` and `lo ≠ 0` some coordinate of the box is put by the
comparison with the half-extent into the half that does not contain it. -/
theorem axis_misclassified (lo hi : α) (h : lo < hi) (hne : lo ≠ 0) :
    ∃ v, lo ≤ v ∧ v ≤ hi ∧
      ¬ ((if v < (hi - lo) / 2 then lo else lo + (hi - lo) / 2) ≤ v ∧
          v ≤ (if v < (hi - lo) / 2 then hi - (hi - lo) / 2 else hi)) := by
  rcases lt_or_gt_of_ne hne with hneg | hpos
  · rcases le_total ((hi - lo) / 2) hi with hm | hm
    · refine ⟨(lo + (hi - lo) / 2 + (hi - lo) / 2) / 2, by linarith, by linarith, ?_⟩
      have hv : (lo + (hi - lo) / 2 + (hi - lo) / 2) / 2 < (hi - lo) / 2 := by linarith
      rw [if_pos hv, if_pos hv]
      rintro ⟨-, h2⟩
      linarith
    · refine ⟨(lo + (hi - lo) / 2 + hi) / 2, by linarith, by linarith, ?_⟩
      have hv : (lo + (hi - lo) / 2 + hi) / 2 < (hi - lo) / 2 := by linarith
      rw [if_pos hv, if_pos hv]
      rintro ⟨-, h2⟩
      linarith
  · refine ⟨max lo ((hi - lo) / 2), le_max_left _ _, max_le (le_of_lt h) (by linarith), ?_⟩
    have hv : ¬ max lo ((hi - lo) / 2) < (hi - lo) / 2 := not_lt.mpr (le_max_right _ _)
    rw [if_neg hv, if_neg hv]
    rintro ⟨h1, -⟩
    have : max lo ((hi - lo) / 2) < lo + (hi - lo) / 2 := max_lt (by linarith) (by linarith)
    linarith

/-- C17: in exact arithmetic, the half-extent comparison is correct only when `box.min`
is the origin: for every box with `min < max` on every axis whose `min` corner has a
non-zero coordinate on some axis, there is a point `P` inside the box that does not lie in
the child box `getBoxChild B (getIntersectChild B P)`. -/
theorem nonorigin_box_child_misses (B : Box α) (hlt : Vec.lt B.min_ B.max_)
    (hnz : B.min_.x_ ≠ 0 ∨ B.min_.y_ ≠ 0 ∨ B.min_.z_ ≠ 0) :
    ∃ P, B.contains P ∧ ¬ (getBoxChild B (getIntersectChild B P)).contains P := by
  obtain ⟨lx, ly, lz⟩ := hlt
  rcases hnz with hx | hy | hz
  · obtain ⟨v, v1, v2, v3⟩ := axis_misclassified _ _ lx hx
    refine ⟨⟨v, B.min_.y_, B.min_.z_⟩,
      ⟨⟨v1, le_refl _, le_refl _⟩, ⟨v2, le_of_lt ly, le_of_lt lz⟩⟩, ?_⟩
    rw [child_of_point]
    rintro ⟨⟨c1, -, -⟩, ⟨c2, -, -⟩⟩
    exact v3 ⟨c1, c2⟩
  · obtain ⟨v, v1, v2, v3⟩ := axis_misclassified _ _ ly hy
    refine ⟨⟨B.min_.x_, v, B.min_.z_⟩,
      ⟨⟨le_refl _, v1, le_refl _⟩, ⟨le_of_lt lx, v2, le_of_lt lz⟩⟩, ?_⟩
    rw [child_of_point]
    rintro ⟨⟨-, c1, -⟩, ⟨-, c2, -⟩⟩
    exact v3 ⟨c1, c2⟩
  · obtain ⟨v, v1, v2, v3⟩ := axis_misclassified _ _ lz hz
    refine ⟨⟨B.min_.x_, B.min_.y_, v⟩,
      ⟨⟨le_refl _, le_refl _, v1⟩, ⟨le_of_lt lx, le_of_lt ly, v2⟩⟩, ?_⟩
    rw [child_of_point]
    rintro ⟨⟨-, -, c1⟩, ⟨-, -, c2⟩⟩
    exact v3 ⟨c1, c2⟩

end Octant

/-! ## The octant index on floats -/

section OctantOps

variable {α : Type} [Sub α] [Div α] [LT α] [DecidableRel (fun a b : α => a < b)] [OfNat α 2]

/-- Whatever the scalar arithmetic, the value of `getIntersectChild` is an octant index
whose three low bits record the three comparisons `point.k < box_half.k`: a bit is set
exactly when its comparison is false. -/
theorem getIntersectChild_not_lt (B : Box α) (P : Vec α) :
    getIntersectChild B P < 8 ∧
    ((getIntersectChild B P).testBit 0 = true ↔ ¬ P.x_ < (B.max_.x_ - B.min_.x_) / 2) ∧
    ((getIntersectChild B P).testBit 1 = true ↔ ¬ P.y_ < (B.max_.y_ - B.min_.y_) / 2) ∧
    ((getIntersectChild B P).testBit 2 = true ↔ ¬ P.z_ < (B.max_.z_ - B.min_.z_) / 2) := by
  unfold getIntersectChild
  by_cases cx : P.x_ < (B.max_.x_ - B.min_.x_) / 2 <;>
  by_cases cy : P.y_ < (B.max_.y_ - B.min_.y_) / 2 <;>
  by_cases cz : P.z_ < (B.max_.z_ - B.min_.z_) / 2 <;>
  simp only [cx, cy, cz, if_true, if_false, not_true_eq_false, not_false_eq_true,
    iff_true, iff_false] <;> decide

end OctantOps

/-- On `XFloat`, the comparison `a < b` is false exactly when `a ≥ b` holds or an operand
is NaN. -/
theorem XFloat.not_lt_iff_ge_or_nan (a b : XFloat) :
    ¬ a < b ↔ (a ≥ b ∨ a = XFloat.nan ∨ b = XFloat.nan) := by
  show ¬ (XFloat.lt a b = true) ↔ (XFloat.le b a = true ∨ a = XFloat.nan ∨ b = XFloat.nan)
  cases a <;> cases b <;> simp [XFloat.lt, XFloat.le, XFloat.val]

/-- C10, counterexample: on the unit box, whose half-extent is `0.5` on every axis, the
point `{NaN, 0.25, NaN}` gets the index `5`: bits 0 and 2 are set although neither
`NaN ≥ 0.5` holds, because the code tests `point.k < box_half.k` and every comparison with
NaN is false. -/
theorem nan_coordinate_sets_bit :
    getIntersectChild (unitBox XFloat) ⟨XFloat.nan, XFloat.fin (1 / 4), XFloat.nan⟩ = 5 ∧
    ((unitBox XFloat).max_.x_ - (unitBox XFloat).min_.x_) / 2 = XFloat.fin (1 / 2) ∧
    ¬ ((getIntersectChild (unitBox XFloat)
          ⟨XFloat.nan, XFloat.fin (1 / 4), XFloat.nan⟩).testBit 0 = true ↔
        (XFloat.nan : XFloat) ≥
          ((unitBox XFloat).max_.x_ - (unitBox XFloat).min_.x_) / 2) := by
  have h5 : getIntersectChild (unitBox XFloat)
      ⟨XFloat.nan, XFloat.fin (1 / 4), XFloat.nan⟩ = 5 := by
    simp only [getIntersectChild, unitBox, XFloat.zero_eq, XFloat.one_eq, XFloat.two_eq]
    norm_num [XFloat.fin_sub_fin, XFloat.fin_div_fin, XFloat.fin_lt_fin, XFloat.not_nan_lt]
  have hh : ((unitBox XFloat).max_.x_ - (unitBox XFloat).min_.x_) / 2 =
      XFloat.fin (1 / 2) := by
    simp only [unitBox, XFloat.zero_eq, XFloat.one_eq, XFloat.two_eq]
    norm_num [XFloat.fin_sub_fin, XFloat.fin_div_fin]
  refine ⟨h5, hh, ?_⟩
  rw [h5, hh]
  intro h
  have hge : (XFloat.nan : XFloat) ≥ XFloat.fin (1 / 2) := h.mp (by decide)
  exact absurd hge (by
    show ¬ (XFloat.le (XFloat.fin (1 / 2)) XFloat.nan = true)
    simp [XFloat.le])

/-- C10, as amended: for every box `B` and point `P`, whatever the scalar arithmetic,
`getIntersectChild B P` is an index in `[0,7]`, a function of `B` and `P` alone, whose
bits follow the encoding of `getBoxChild` against the half-extent
`h = (B.max - B.min) / 2` as the code computes it: bit 0 is set iff the comparison
`P.x < h.x` is false, bit 1 iff `P.y < h.y` is false, bit 2 iff `P.z < h.z` is false.  In
exact arithmetic that is `P.k ≥ h.k`; in the arithmetic with IEEE special values it is
`P.k ≥ h.k` or one of `P.k`, `h.k` is NaN. -/
theorem getIntersectChild_bits_comparison :
    (∀ {α : Type} [Sub α] [Div α] [LT α] [DecidableRel (fun a b : α => a < b)] [OfNat α 2]
        (B : Box α) (P : Vec α),
      getIntersectChild B P < 8 ∧
      ((getIntersectChild B P).testBit 0 = true ↔ ¬ P.x_ < (B.max_.x_ - B.min_.x_) / 2) ∧
      ((getIntersectChild B P).testBit 1 = true ↔ ¬ P.y_ < (B.max_.y_ - B.min_.y_) / 2) ∧
      ((getIntersectChild B P).testBit 2 = true ↔ ¬ P.z_ < (B.max_.z_ - B.min_.z_) / 2)) ∧
    (∀ {α : Type} [LinearOrderedField α] (B : Box α) (P : Vec α),
      ((getIntersectChild B P).testBit 0 = true ↔ P.x_ ≥ (B.max_.x_ - B.min_.x_) / 2) ∧
      ((getIntersectChild B P).testBit 1 = true ↔ P.y_ ≥ (B.max_.y_ - B.min_.y_) / 2) ∧
      ((getIntersectChild B P).testBit 2 = true ↔ P.z_ ≥ (B.max_.z_ - B.min_.z_) / 2)) ∧
    (∀ (B : Box XFloat) (P : Vec XFloat),
      ((getIntersectChild B P).testBit 0 = true ↔
        (P.x_ ≥ (B.max_.x_ - B.min_.x_) / 2 ∨ P.x_ = XFloat.nan ∨
          (B.max_.x_ - B.min_.x_) / 2 = XFloat.nan)) ∧
      ((getIntersectChild B P).testBit 1 = true ↔
        (P.y_ ≥ (B.max_.y_ - B.min_.y_) / 2 ∨ P.y_ = XFloat.nan ∨
          (B.max_.y_ - B.min_.y_) / 2 = XFloat.nan)) ∧
      ((getIntersectChild B P).testBit 2 = true ↔
        (P.z_ ≥ (B.max_.z_ - B.min_.z_) / 2 ∨ P.z_ = XFloat.nan ∨
          (B.max_.z_ - B.min_.z_) / 2 = XFloat.nan))) := by
  refine ⟨fun B P => getIntersectChild_not_lt B P, ?_, ?_⟩
  · intro α _ B P
    obtain ⟨-, h0, h1, h2⟩ := getIntersectChild_not_lt B P
    exact ⟨h0.trans not_lt, h1.trans not_lt, h2.trans not_lt⟩
  · intro B P
    obtain ⟨-, h0, h1, h2⟩ := getIntersectChild_not_lt B P
    exact ⟨h0.trans (XFloat.not_lt_iff_ge_or_nan _ _),
      h1.trans (XFloat.not_lt_iff_ge_or_nan _ _),
      h2.trans (XFloat.not_lt_iff_ge_or_nan _ _)⟩

/-! ## The sampler in exact arithmetic -/

section SamplerExact

variable {α : Type} [LinearOrderedField α]

/-- In exact arithmetic, for `min < max` and a draw in `[0, RAND_MAX]`, the generated
value is `min` plus the fraction `r / RAND_MAX` of `max - min`. -/
theorem generateValue_eq (RAND_MAX : Nat) (rand : Nat → Nat) (k : Nat) (min max : α)
    (hRM : 0 < RAND_MAX) (hlt : min < max) :
    (generateValue RAND_MAX rand k min max).1 =
      min + (rand k : α) * (max - min) / (RAND_MAX : α) := by
  have h1 : (RAND_MAX : α) ≠ 0 := by exact_mod_cast (Nat.pos_iff_ne_zero.mp hRM)
  have h2 : max - min ≠ 0 := by
    have : 0 < max - min := sub_pos.mpr hlt
    exact ne_of_gt this
  simp only [generateValue]
  rw [div_div_eq_mul_div]

/-- In exact arithmetic, for `min < max` and a draw in `[0, RAND_MAX]`, the generated
value lies in `[min, max]`. -/
theorem generateValue_mem (RAND_MAX : Nat) (rand : Nat → Nat) (k : Nat) (min max : α)
    (hRM : 0 < RAND_MAX) (hr : rand k ≤ RAND_MAX) (hlt : min < max) :
    min ≤ (generateValue RAND_MAX rand k min max).1 ∧
      (generateValue RAND_MAX rand k min max).1 ≤ max := by
  rw [generateValue_eq RAND_MAX rand k min max hRM hlt]
  have h1 : (0 : α) < (RAND_MAX : α) := by exact_mod_cast hRM
  have h2 : (0 : α) ≤ (rand k : α) := Nat.cast_nonneg _
  have h3 : (rand k : α) ≤ (RAND_MAX : α) := by exact_mod_cast hr
  have h4 : 0 < max - min := sub_pos.mpr hlt
  constructor
  · have : 0 ≤ (rand k : α) * (max - min) / (RAND_MAX : α) :=
      div_nonneg (mul_nonneg h2 (le_of_lt h4)) (le_of_lt h1)
    linarith
  · have : (rand k : α) * (max - min) / (RAND_MAX : α) ≤ max - min := by
      rw [div_le_iff₀ h1]
      calc (rand k : α) * (max - min) ≤ (RAND_MAX : α) * (max - min) :=
            mul_le_mul_of_nonneg_right h3 (le_of_lt h4)
        _ = (max - min) * (RAND_MAX : α) := mul_comm _ _
    linarith

/-- In exact arithmetic, for `min < max` on every axis and draws in `[0, RAND_MAX]`, every
coordinate of the generated vector lies between the coordinates of `min` and `max`. -/
theorem generateVector_mem (RAND_MAX : Nat) (rand : Nat → Nat) (k : Nat) (min max : Vec α)
    (hRM : 0 < RAND_MAX) (hr : ∀ j, rand j ≤ RAND_MAX) (hlt : Vec.lt min max) :
    Vec.le min (generateVector RAND_MAX rand k min max).1 ∧
      Vec.le (generateVector RAND_MAX rand k min max).1 max := by
  obtain ⟨hx, hy, hz⟩ := hlt
  have mx := generateValue_mem RAND_MAX rand k min.x_ max.x_ hRM (hr _) hx
  have my := generateValue_mem RAND_MAX rand (k + 1) min.y_ max.y_ hRM (hr _) hy
  have mz := generateValue_mem RAND_MAX rand (k + 1 + 1) min.z_ max.z_ hRM (hr _) hz
  exact ⟨⟨mx.1, my.1, mz.1⟩, ⟨mx.2, my.2, mz.2⟩⟩

/-- C12: in exact arithmetic, with the pseudo-random draws treated as inputs in
`[0, RAND_MAX]` and `RAND_MAX > 0`: for every `min < max` the value of `generateValue` is
`min + r / (RAND_MAX / (max - min))`, it lies in `[min, max]`, it equals `min` when
`r = 0` and `max` when `r = RAND_MAX`; hence, for `min < max` on every axis, every
coordinate of `generateVector` lies in `[min.axis, max.axis]`. -/
theorem generateValue_in_range (RAND_MAX : Nat) (rand : Nat → Nat)
    (hRM : 0 < RAND_MAX) (hr : ∀ j, rand j ≤ RAND_MAX) :
    (∀ (k : Nat) (min max : α), min < max →
      (generateValue RAND_MAX rand k min max).1 =
        min + (rand k : α) / ((RAND_MAX : α) / (max - min)) ∧
      min ≤ (generateValue RAND_MAX rand k min max).1 ∧
      (generateValue RAND_MAX rand k min max).1 ≤ max ∧
      (rand k = 0 → (generateValue RAND_MAX rand k min max).1 = min) ∧
      (rand k = RAND_MAX → (generateValue RAND_MAX rand k min max).1 = max)) ∧
    (∀ (k : Nat) (min max : Vec α), Vec.lt min max →
      Vec.le min (generateVector RAND_MAX rand k min max).1 ∧
      Vec.le (generateVector RAND_MAX rand k min max).1 max) := by
  refine ⟨?_, fun k min max hlt => generateVector_mem RAND_MAX rand k min max hRM hr hlt⟩
  intro k min max hlt
  have hm := generateValue_mem RAND_MAX rand k min max hRM (hr k) hlt
  have h1 : (RAND_MAX : α) ≠ 0 := by exact_mod_cast (Nat.pos_iff_ne_zero.mp hRM)
  refine ⟨rfl, hm.1, hm.2, ?_, ?_⟩
  · intro h0
    rw [generateValue_eq RAND_MAX rand k min max hRM hlt, h0]
    simp
  · intro hmax
    rw [generateValue_eq RAND_MAX rand k min max hRM hlt, hmax]
    field_simp

/-- In exact arithmetic, the two corners of the generated box lie between the
corresponding corners of the two range boxes. -/
theorem generateBox_mem (RAND_MAX : Nat) (rand : Nat → Nat) (k : Nat) (min max : Box α)
    (hRM : 0 < RAND_MAX) (hr : ∀ j, rand j ≤ RAND_MAX)
    (hlo : Vec.lt min.min_ max.min_) (hhi : Vec.lt min.max_ max.max_) :
    (Vec.le min.min_ (generateBox RAND_MAX rand k min max).1.min_ ∧
      Vec.le (generateBox RAND_MAX rand k min max).1.min_ max.min_) ∧
    (Vec.le min.max_ (generateBox RAND_MAX rand k min max).1.max_ ∧
      Vec.le (generateBox RAND_MAX rand k min max).1.max_ max.max_) :=
  ⟨generateVector_mem RAND_MAX rand k _ _ hRM hr hlo,
    generateVector_mem RAND_MAX rand _ _ _ hRM hr hhi⟩

/-- In exact arithmetic, with draws in `[0, RAND_MAX]` and `RAND_MAX > 0`: for every
iteration index `i` of the loop of `main` and every outcome of the draws, the box returned
by `generateBox box_min box_max` has every `min` coordinate in `[-10(i+1), -5(i+1)]` and
every `max` coordinate in `[5(i+1), 10(i+1)]`, so that `min.axis < max.axis`, and in
particular `min.axis ≤ max.axis`, holds on every axis. -/
theorem generateBox_valid (RAND_MAX : Nat) (rand : Nat → Nat)
    (hRM : 0 < RAND_MAX) (hr : ∀ j, rand j ≤ RAND_MAX) (i k : Nat) :
    Vec.le ⟨-10 * ((i + 1 : Nat) : α), -10 * ((i + 1 : Nat) : α), -10 * ((i + 1 : Nat) : α)⟩
      (generateBox RAND_MAX rand k (mainBoxMin i) (mainBoxMax i)).1.min_ ∧
    Vec.le (generateBox RAND_MAX rand k (mainBoxMin i) (mainBoxMax i)).1.min_
      ⟨-5 * ((i + 1 : Nat) : α), -5 * ((i + 1 : Nat) : α), -5 * ((i + 1 : Nat) : α)⟩ ∧
    Vec.le ⟨5 * ((i + 1 : Nat) : α), 5 * ((i + 1 : Nat) : α), 5 * ((i + 1 : Nat) : α)⟩
      (generateBox RAND_MAX rand k (mainBoxMin i) (mainBoxMax i)).1.max_ ∧
    Vec.le (generateBox RAND_MAX rand k (mainBoxMin i) (mainBoxMax i)).1.max_
      ⟨10 * ((i + 1 : Nat) : α), 10 * ((i + 1 : Nat) : α), 10 * ((i + 1 : Nat) : α)⟩ ∧
    Vec.lt (generateBox RAND_MAX rand k (mainBoxMin i : Box α) (mainBoxMax i)).1.min_
      (generateBox RAND_MAX rand k (mainBoxMin i : Box α) (mainBoxMax i)).1.max_ ∧
    (generateBox RAND_MAX rand k (mainBoxMin i : Box α) (mainBoxMax i)).1.Valid := by
  have hn : (0 : α) < ((i + 1 : Nat) : α) := by exact_mod_cast Nat.succ_pos i
  have hlo : Vec.lt (mainBoxMin i : Box α).min_ (mainBoxMax i : Box α).min_ := by
    simp only [mainBoxMin, mainBoxMax, Vec.lt]
    refine ⟨?_, ?_, ?_⟩ <;> linarith
  have hhi : Vec.lt (mainBoxMin i : Box α).max_ (mainBoxMax i : Box α).max_ := by
    simp only [mainBoxMin, mainBoxMax, Vec.lt]
    refine ⟨?_, ?_, ?_⟩ <;> linarith
  have hmid : Vec.lt (mainBoxMax i : Box α).min_ (mainBoxMin i : Box α).max_ := by
    simp only [mainBoxMin, mainBoxMax, Vec.lt]
    refine ⟨?_, ?_, ?_⟩ <;> linarith
  obtain ⟨⟨ha, hb⟩, ⟨hc, hd⟩⟩ :=
    generateBox_mem RAND_MAX rand k (mainBoxMin i : Box α) (mainBoxMax i) hRM hr hlo hhi
  obtain ⟨b1, b2, b3⟩ := hb
  obtain ⟨c1, c2, c3⟩ := hc
  obtain ⟨m1, m2, m3⟩ := hmid
  have hlt : Vec.lt (generateBox RAND_MAX rand k (mainBoxMin i : Box α) (mainBoxMax i)).1.min_
      (generateBox RAND_MAX rand k (mainBoxMin i : Box α) (mainBoxMax i)).1.max_ :=
    ⟨lt_of_le_of_lt b1 (lt_of_lt_of_le m1 c1), lt_of_le_of_lt b2 (lt_of_lt_of_le m2 c2),
      lt_of_le_of_lt b3 (lt_of_lt_of_le m3 c3)⟩
  exact ⟨ha, ⟨b1, b2, b3⟩, ⟨c1, c2, c3⟩, hd, hlt,
    ⟨le_of_lt hlt.1, le_of_lt hlt.2.1, le_of_lt hlt.2.2⟩⟩

end SamplerExact

/-! ## The sampler in binary32 -/

section SamplerBinary32

/-- A rational number at a distance below `1/2` from the integer `n` rounds to `n`. -/
theorem roundHalfEven_eq_of_abs_lt {m : ℚ} {n : ℤ} (h : |m - n| < 1 / 2) :
    roundHalfEven m = n := by
  rw [abs_lt] at h
  obtain ⟨h1, h2⟩ := h
  unfold roundHalfEven
  by_cases c : (n : ℚ) ≤ m
  · have hf : ⌊m⌋ = n := Int.floor_eq_iff.mpr ⟨c, by linarith⟩
    rw [hf, if_pos (by linarith)]
  · have hf : ⌊m⌋ = n - 1 :=
      Int.floor_eq_iff.mpr ⟨by push_cast; linarith, by push_cast; linarith⟩
    rw [hf]
    push_cast
    rw [if_neg (by linarith), if_pos (by linarith)]
    ring

/-- The exponent of a rational number with `2 ^ e ≤ |q| < 2 ^ (e + 1)` is `e`. -/
theorem int_log_abs_eq {q : ℚ} {e : ℤ} (h1 : (2 : ℚ) ^ e ≤ |q|) (h2 : |q| < 2 ^ (e + 1)) :
    Int.log 2 |q| = e := by
  have hpos : 0 < |q| := lt_of_lt_of_le (by positivity) h1
  have a1 : e ≤ Int.log 2 |q| :=
    (Int.zpow_le_iff_le_log (by norm_num) hpos).mp (by simpa using h1)
  have a2 : Int.log 2 |q| < e + 1 :=
    (Int.lt_zpow_iff_log_lt (by norm_num) hpos).mp (by simpa using h2)
  omega

/-- Evaluation of `roundToFloat`: a number with `2 ^ e ≤ |q| < 2 ^ (e + 1)` whose quotient
by `2 ^ (e - 23)` is at a distance below `1/2` from the integer `n` rounds to
`n * 2 ^ (e - 23)`. -/
theorem roundToFloat_eq_of_abs_lt {q : ℚ} (e n : ℤ) (h1 : (2 : ℚ) ^ e ≤ |q|)
    (h2 : |q| < 2 ^ (e + 1)) (h3 : |q / 2 ^ (e - 23) - n| < 1 / 2) :
    roundToFloat q = n * 2 ^ (e - 23) := by
  have hpos : 0 < |q| := lt_of_lt_of_le (by positivity) h1
  have hq : q ≠ 0 := abs_pos.mp hpos
  unfold roundToFloat
  rw [if_neg hq, int_log_abs_eq h1 h2, roundHalfEven_eq_of_abs_lt h3]

theorem roundToFloat_five : roundToFloat 5 = 5 := by
  rw [roundToFloat_eq_of_abs_lt 2 (5 * 2 ^ 21) (by norm_num) (by norm_num) (by norm_num)]
  norm_num

theorem roundToFloat_ten : roundToFloat 10 = 10 := by
  rw [roundToFloat_eq_of_abs_lt 3 (10 * 2 ^ 20) (by norm_num) (by norm_num) (by norm_num)]
  norm_num

/-- Rounding to an integer moves a number by at most `1/2`. -/
theorem roundHalfEven_abs_sub_le (m : ℚ) : |(roundHalfEven m : ℚ) - m| ≤ 1 / 2 := by
  have h1 : (⌊m⌋ : ℚ) ≤ m := Int.floor_le m
  have h2 : m < ⌊m⌋ + 1 := Int.lt_floor_add_one m
  unfold roundHalfEven
  rw [abs_le]
  split_ifs with c1 c2 c3
  · constructor <;> linarith
  · push_cast
    constructor <;> linarith
  · constructor <;> linarith
  · push_cast
    constructor <;> linarith

/-- The relative error of `roundToFloat` is at most `2 ^ (-24)`. -/
theorem roundToFloat_abs_sub_le (q : ℚ) : |roundToFloat q - q| ≤ |q| / 16777216 := by
  by_cases hq : q = 0
  · subst hq
    simp [roundToFloat]
  have hpos : 0 < |q| := abs_pos.mpr hq
  have hu : (0 : ℚ) < 2 ^ (Int.log 2 |q| - 23) := by positivity
  have hlog : (2 : ℚ) ^ Int.log 2 |q| ≤ |q| := by
    simpa using Int.zpow_log_le_self (b := 2) (by norm_num) hpos
  have hsplit : (2 : ℚ) ^ Int.log 2 |q| = 2 ^ (Int.log 2 |q| - 23) * 8388608 := by
    rw [zpow_sub₀ (by norm_num : (2 : ℚ) ≠ 0)]
    norm_num
  have hr := roundHalfEven_abs_sub_le (q / 2 ^ (Int.log 2 |q| - 23))
  have heq : roundToFloat q - q =
      ((roundHalfEven (q / 2 ^ (Int.log 2 |q| - 23)) : ℚ) - q / 2 ^ (Int.log 2 |q| - 23)) *
        2 ^ (Int.log 2 |q| - 23) := by
    unfold roundToFloat
    rw [if_neg hq]
    field_simp
  rw [heq, abs_mul, abs_of_pos hu]
  calc |(roundHalfEven (q / 2 ^ (Int.log 2 |q| - 23)) : ℚ) - q / 2 ^ (Int.log 2 |q| - 23)| *
        2 ^ (Int.log 2 |q| - 23)
      ≤ 1 / 2 * 2 ^ (Int.log 2 |q| - 23) := mul_le_mul_of_nonneg_right hr (le_of_lt hu)
    _ = 2 ^ Int.log 2 |q| / 16777216 := by rw [hsplit]; ring
    _ ≤ |q| / 16777216 := by
        apply div_le_div_of_nonneg_right hlog (by norm_num)

theorem roundToFloat_le_of_nonneg {q : ℚ} (hq : 0 ≤ q) :
    roundToFloat q ≤ (1 + 1 / 16777216) * q := by
  have h := roundToFloat_abs_sub_le q
  rw [abs_of_nonneg hq, abs_le] at h
  linarith [h.2]

theorem roundToFloat_ge_of_nonneg {q : ℚ} (hq : 0 ≤ q) :
    (1 - 1 / 16777216) * q ≤ roundToFloat q := by
  have h := roundToFloat_abs_sub_le q
  rw [abs_of_nonneg hq, abs_le] at h
  linarith [h.1]

theorem roundToFloat_le_of_nonpos {q : ℚ} (hq : q ≤ 0) :
    roundToFloat q ≤ (1 - 1 / 16777216) * q := by
  have h := roundToFloat_abs_sub_le q
  rw [abs_of_nonpos hq, abs_le] at h
  linarith [h.2]

theorem roundToFloat_ge_of_nonpos {q : ℚ} (hq : q ≤ 0) :
    (1 + 1 / 16777216) * q ≤ roundToFloat q := by
  have h := roundToFloat_abs_sub_le q
  rw [abs_of_nonpos hq, abs_le] at h
  linarith [h.1]

/-- Rounding keeps the sign: there is no underflow to zero. -/
theorem roundToFloat_pos {q : ℚ} (hq : 0 < q) : 0 < roundToFloat q := by
  have h := roundToFloat_ge_of_nonneg (le_of_lt hq)
  have : 0 < (1 - 1 / 16777216) * q := mul_pos (by norm_num) hq
  linarith

theorem roundToFloat_neg {q : ℚ} (hq : q < 0) : roundToFloat q < 0 := by
  have h := roundToFloat_le_of_nonpos (le_of_lt hq)
  have : (1 - 1 / 16777216) * q < 0 := mul_neg_of_pos_of_neg (by norm_num) hq
  linarith

theorem roundToFloat_nonneg {q : ℚ} (hq : 0 ≤ q) : 0 ≤ roundToFloat q := by
  have h := roundToFloat_ge_of_nonneg hq
  have : 0 ≤ (1 - 1 / 16777216) * q := mul_nonneg (by norm_num) hq
  linarith

namespace F32

theorem natCast_def (n : ℕ) : ((n : ℕ) : F32) = ⟨roundToFloat (n : ℚ)⟩ := rfl
theorem ofNat_def (n : ℕ) : (OfNat.ofNat n : F32) = ⟨roundToFloat (n : ℚ)⟩ := rfl
theorem neg_def (a : F32) : -a = ⟨-a.val⟩ := rfl
theorem add_def (a b : F32) : a + b = ⟨roundToFloat (a.val + b.val)⟩ := rfl
theorem sub_def (a b : F32) : a - b = ⟨roundToFloat (a.val - b.val)⟩ := rfl
theorem mul_def (a b : F32) : a * b = ⟨roundToFloat (a.val * b.val)⟩ := rfl
theorem div_def (a b : F32) : a / b = ⟨roundToFloat (a.val / b.val)⟩ := rfl
theorem le_def (a b : F32) : a ≤ b ↔ a.val ≤ b.val := Iff.rfl
theorem lt_def (a b : F32) : a < b ↔ a.val < b.val := Iff.rfl

theorem five_val : (5 : F32).val = 5 := by
  show roundToFloat ((5 : ℕ) : ℚ) = 5
  rw [Nat.cast_ofNat, roundToFloat_five]

theorem ten_val : (10 : F32).val = 10 := by
  show roundToFloat ((10 : ℕ) : ℚ) = 10
  rw [Nat.cast_ofNat, roundToFloat_ten]

theorem neg_val (a : F32) : (-a).val = -a.val := rfl
theorem mul_val (a b : F32) : (a * b).val = roundToFloat (a.val * b.val) := rfl
theorem natCast_val (n : ℕ) : ((n : ℕ) : F32).val = roundToFloat (n : ℚ) := rfl

/-- The conversion of `i + 1` to `float` is positive. -/
theorem natCast_succ_pos (i : ℕ) : 0 < (((i + 1 : ℕ) : ℕ) : F32).val := by
  rw [natCast_val]
  exact roundToFloat_pos (by exact_mod_cast Nat.succ_pos i)

/-- The conversion of `i + 1` to `float` has a relative error of at most `2 ^ (-24)`. -/
theorem natCast_succ_bounds (i : ℕ) :
    (1 - 1 / 16777216) * ((i + 1 : ℕ) : ℚ) ≤ (((i + 1 : ℕ) : ℕ) : F32).val ∧
      (((i + 1 : ℕ) : ℕ) : F32).val ≤ (1 + 1 / 16777216) * ((i + 1 : ℕ) : ℚ) := by
  rw [natCast_val]
  have h : (0 : ℚ) ≤ ((i + 1 : ℕ) : ℚ) := Nat.cast_nonneg _
  exact ⟨roundToFloat_ge_of_nonneg h, roundToFloat_le_of_nonneg h⟩

end F32

/-- In binary32 arithmetic, for `min < max` and a draw in `[0, RAND_MAX]`, the generated
value is the rounded sum of `min` and an offset between `0` and
`(1 + 10⁻⁶) * (max - min)`; none of the two divisors is zero. -/
theorem generateValue_binary32 (RAND_MAX : Nat) (rand : Nat → Nat) (k : Nat) (a b : F32)
    (hRM : 0 < RAND_MAX) (hr : rand k ≤ RAND_MAX) (hab : a.val < b.val) :
    ∃ q : ℚ, 0 ≤ q ∧ q ≤ (1 + 1 / 1000000) * (b.val - a.val) ∧
      (generateValue RAND_MAX rand k a b).1.val = roundToFloat (a.val + q) := by
  have hD : 0 < b.val - a.val := sub_pos.mpr hab
  have hd0 : 0 < roundToFloat (b.val - a.val) := roundToFloat_pos hD
  have hd1 := roundToFloat_le_of_nonneg (le_of_lt hD)
  have hRMq : (0 : ℚ) < (RAND_MAX : ℚ) := by exact_mod_cast hRM
  have hM0 : 0 < roundToFloat (RAND_MAX : ℚ) := roundToFloat_pos hRMq
  have hM1 := roundToFloat_ge_of_nonneg (le_of_lt hRMq)
  have hx0 : 0 < roundToFloat (RAND_MAX : ℚ) / roundToFloat (b.val - a.val) :=
    div_pos hM0 hd0
  have hc0 := roundToFloat_pos hx0
  have hc1 := roundToFloat_ge_of_nonneg (le_of_lt hx0)
  have hr0 : (0 : ℚ) ≤ (rand k : ℚ) := Nat.cast_nonneg _
  have hrRM : (rand k : ℚ) ≤ (RAND_MAX : ℚ) := by exact_mod_cast hr
  have hρ0 := roundToFloat_nonneg hr0
  have hρ1 := roundToFloat_le_of_nonneg hr0
  have hy0 : 0 ≤ roundToFloat (rand k : ℚ) /
      roundToFloat (roundToFloat (RAND_MAX : ℚ) / roundToFloat (b.val - a.val)) :=
    div_nonneg hρ0 (le_of_lt hc0)
  refine ⟨roundToFloat (roundToFloat (rand k : ℚ) /
      roundToFloat (roundToFloat (RAND_MAX : ℚ) / roundToFloat (b.val - a.val))),
    roundToFloat_nonneg hy0, ?_, rfl⟩
  have hq1 := roundToFloat_le_of_nonneg hy0
  generalize hDdef : b.val - a.val = D at *
  generalize hddef : roundToFloat D = d at *
  generalize hMdef : roundToFloat (RAND_MAX : ℚ) = M at *
  generalize hcdef : roundToFloat (M / d) = c at *
  generalize hρdef : roundToFloat (rand k : ℚ) = ρ at *
  generalize hqdef : roundToFloat (ρ / c) = q at *
  have hcd : (1 - 1 / 16777216) * M ≤ c * d := by
    have : (1 - 1 / 16777216) * (M / d) * d ≤ c * d :=
      mul_le_mul_of_nonneg_right hc1 (le_of_lt hd0)
    have e : (1 - 1 / 16777216) * (M / d) * d = (1 - 1 / 16777216) * M := by
      rw [mul_assoc, div_mul_cancel₀ M (ne_of_gt hd0)]
    linarith
  have hcD : c * d ≤ (1 + 1 / 16777216) * (c * D) := by
    have : c * d ≤ c * ((1 + 1 / 16777216) * D) :=
      mul_le_mul_of_nonneg_left hd1 (le_of_lt hc0)
    linarith
  have hcDpos : 0 < c * D := mul_pos hc0 hD
  have hρ : ρ ≤ (1 + 1 / 2000000) * (c * D) := by
    linarith
  have hy : ρ / c ≤ (1 + 1 / 2000000) * D := by
    rw [div_le_iff₀ hc0]
    linarith
  have hDpos : 0 < D := hD
  linarith

/-- In binary32 arithmetic, a coordinate drawn between `-10 * N` and `-5 * N`, for a
positive `float` `N`, lies in `[-10 * N, -5 * N]` up to a relative error of `10⁻⁵`. -/
theorem generateValue_binary32_min (RAND_MAX : Nat) (rand : Nat → Nat) (k : Nat)
    (hRM : 0 < RAND_MAX) (hr : rand k ≤ RAND_MAX) (N : F32) (hN : 0 < N.val) :
    -(10 + 1 / 20000) * N.val ≤ (generateValue RAND_MAX rand k (-10 * N) (-5 * N)).1.val ∧
      (generateValue RAND_MAX rand k (-10 * N) (-5 * N)).1.val ≤
        -(5 - 1 / 20000) * N.val := by
  have ha : (-10 * N : F32).val = roundToFloat (-10 * N.val) := by
    rw [F32.mul_val, F32.neg_val, F32.ten_val]
  have hb : (-5 * N : F32).val = roundToFloat (-5 * N.val) := by
    rw [F32.mul_val, F32.neg_val, F32.five_val]
  have a1 := roundToFloat_le_of_nonpos (q := -10 * N.val) (by linarith)
  have a2 := roundToFloat_ge_of_nonpos (q := -10 * N.val) (by linarith)
  have b1 := roundToFloat_le_of_nonpos (q := -5 * N.val) (by linarith)
  have b2 := roundToFloat_ge_of_nonpos (q := -5 * N.val) (by linarith)
  rw [← ha] at a1 a2
  rw [← hb] at b1 b2
  have hab : (-10 * N : F32).val < (-5 * N : F32).val := by linarith
  obtain ⟨q, hq0, hq1, hv⟩ := generateValue_binary32 RAND_MAX rand k _ _ hRM hr hab
  rw [hv]
  have hs : (-10 * N : F32).val + q ≤ 0 := by linarith
  have v1 := roundToFloat_le_of_nonpos hs
  have v2 := roundToFloat_ge_of_nonpos hs
  constructor <;> linarith

/-- In binary32 arithmetic, a coordinate drawn between `5 * N` and `10 * N`, for a positive
`float` `N`, lies in `[5 * N, 10 * N]` up to a relative error of `10⁻⁵`. -/
theorem generateValue_binary32_max (RAND_MAX : Nat) (rand : Nat → Nat) (k : Nat)
    (hRM : 0 < RAND_MAX) (hr : rand k ≤ RAND_MAX) (N : F32) (hN : 0 < N.val) :
    (5 - 1 / 20000) * N.val ≤ (generateValue RAND_MAX rand k (5 * N) (10 * N)).1.val ∧
      (generateValue RAND_MAX rand k (5 * N) (10 * N)).1.val ≤ (10 + 1 / 20000) * N.val := by
  have ha : (5 * N : F32).val = roundToFloat (5 * N.val) := by
    rw [F32.mul_val, F32.five_val]
  have hb : (10 * N : F32).val = roundToFloat (10 * N.val) := by
    rw [F32.mul_val, F32.ten_val]
  have a1 := roundToFloat_le_of_nonneg (q := 5 * N.val) (by linarith)
  have a2 := roundToFloat_ge_of_nonneg (q := 5 * N.val) (by linarith)
  have b1 := roundToFloat_le_of_nonneg (q := 10 * N.val) (by linarith)
  have b2 := roundToFloat_ge_of_nonneg (q := 10 * N.val) (by linarith)
  rw [← ha] at a1 a2
  rw [← hb] at b1 b2
  have hab : (5 * N : F32).val < (10 * N : F32).val := by linarith
  obtain ⟨q, hq0, hq1, hv⟩ := generateValue_binary32 RAND_MAX rand k _ _ hRM hr hab
  rw [hv]
  have hs : 0 ≤ (5 * N : F32).val + q := by linarith
  have v1 := roundToFloat_le_of_nonneg hs
  have v2 := roundToFloat_ge_of_nonneg hs
  constructor <;> linarith

/-- In binary32 arithmetic, with draws in `[0, RAND_MAX]` and `RAND_MAX > 0`: for every
iteration index `i` of the loop of `main`, every `min` coordinate of the sampled box lies
in `[-10.0001(i+1), -4.9999(i+1)]` and every `max` coordinate in
`[4.9999(i+1), 10.0001(i+1)]`, so that `min.axis < 0 < max.axis` on every axis and the box
is valid. -/
theorem generateBox_binary32 (RAND_MAX : Nat) (rand : Nat → Nat)
    (hRM : 0 < RAND_MAX) (hr : ∀ j, rand j ≤ RAND_MAX) (i k : Nat) :
    Vec.valBetween (-(10 + 1 / 10000) * ((i + 1 : ℕ) : ℚ))
      (-(5 - 1 / 10000) * ((i + 1 : ℕ) : ℚ))
      (generateBox RAND_MAX rand k (mainBoxMin i : Box F32) (mainBoxMax i)).1.min_ ∧
    Vec.valBetween ((5 - 1 / 10000) * ((i + 1 : ℕ) : ℚ))
      ((10 + 1 / 10000) * ((i + 1 : ℕ) : ℚ))
      (generateBox RAND_MAX rand k (mainBoxMin i : Box F32) (mainBoxMax i)).1.max_ ∧
    Vec.lt (generateBox RAND_MAX rand k (mainBoxMin i : Box F32) (mainBoxMax i)).1.min_
      (generateBox RAND_MAX rand k (mainBoxMin i : Box F32) (mainBoxMax i)).1.max_ ∧
    (generateBox RAND_MAX rand k (mainBoxMin i : Box F32) (mainBoxMax i)).1.Valid := by
  have hN := F32.natCast_succ_pos i
  obtain ⟨n1, n2⟩ := F32.natCast_succ_bounds i
  have hn : (0 : ℚ) < ((i + 1 : ℕ) : ℚ) := by exact_mod_cast Nat.succ_pos i
  have key1 : ∀ j, -(10 + 1 / 10000) * ((i + 1 : ℕ) : ℚ) ≤
        (generateValue RAND_MAX rand j (-10 * (((i + 1 : ℕ) : ℕ) : F32))
          (-5 * (((i + 1 : ℕ) : ℕ) : F32))).1.val ∧
      (generateValue RAND_MAX rand j (-10 * (((i + 1 : ℕ) : ℕ) : F32))
          (-5 * (((i + 1 : ℕ) : ℕ) : F32))).1.val ≤
        -(5 - 1 / 10000) * ((i + 1 : ℕ) : ℚ) := by
    intro j
    obtain ⟨h1, h2⟩ := generateValue_binary32_min RAND_MAX rand j hRM (hr j) _ hN
    constructor <;> linarith
  have key2 : ∀ j, (5 - 1 / 10000) * ((i + 1 : ℕ) : ℚ) ≤
        (generateValue RAND_MAX rand j (5 * (((i + 1 : ℕ) : ℕ) : F32))
          (10 * (((i + 1 : ℕ) : ℕ) : F32))).1.val ∧
      (generateValue RAND_MAX rand j (5 * (((i + 1 : ℕ) : ℕ) : F32))
          (10 * (((i + 1 : ℕ) : ℕ) : F32))).1.val ≤
        (10 + 1 / 10000) * ((i + 1 : ℕ) : ℚ) := by
    intro j
    obtain ⟨h1, h2⟩ := generateValue_binary32_max RAND_MAX rand j hRM (hr j) _ hN
    constructor <;> linarith
  have hmin : Vec.valBetween (-(10 + 1 / 10000) * ((i + 1 : ℕ) : ℚ))
      (-(5 - 1 / 10000) * ((i + 1 : ℕ) : ℚ))
      (generateBox RAND_MAX rand k (mainBoxMin i : Box F32) (mainBoxMax i)).1.min_ :=
    ⟨key1 _, key1 _, key1 _⟩
  have hmax : Vec.valBetween ((5 - 1 / 10000) * ((i + 1 : ℕ) : ℚ))
      ((10 + 1 / 10000) * ((i + 1 : ℕ) : ℚ))
      (generateBox RAND_MAX rand k (mainBoxMin i : Box F32) (mainBoxMax i)).1.max_ :=
    ⟨key2 _, key2 _, key2 _⟩
  have hlt : Vec.lt
      (generateBox RAND_MAX rand k (mainBoxMin i : Box F32) (mainBoxMax i)).1.min_
      (generateBox RAND_MAX rand k (mainBoxMin i : Box F32) (mainBoxMax i)).1.max_ := by
    obtain ⟨⟨-, a1⟩, ⟨-, a2⟩, ⟨-, a3⟩⟩ := hmin
    obtain ⟨⟨b1, -⟩, ⟨b2, -⟩, ⟨b3, -⟩⟩ := hmax
    refine ⟨(F32.lt_def _ _).mpr ?_, (F32.lt_def _ _).mpr ?_, (F32.lt_def _ _).mpr ?_⟩ <;>
      linarith
  exact ⟨hmin, hmax, hlt, ⟨le_of_lt ((F32.lt_def _ _).mp hlt.1),
    le_of_lt ((F32.lt_def _ _).mp hlt.2.1), le_of_lt ((F32.lt_def _ _).mp hlt.2.2)⟩⟩

/-- The range box `box_min` of iteration `i = 22` in binary32 arithmetic. -/
theorem mainBoxMin_binary32 : (mainBoxMin 22 : Box F32) =
    ⟨⟨⟨-230⟩, ⟨-230⟩, ⟨-230⟩⟩, ⟨⟨115⟩, ⟨115⟩, ⟨115⟩⟩⟩ := by
  have r0 : roundToFloat (((22 + 1 : ℕ) : ℕ) : ℚ) = 23 := by
    rw [roundToFloat_eq_of_abs_lt 4 (23 * 2 ^ 19) (by norm_num) (by norm_num) (by norm_num)]
    norm_num
  have r1 : roundToFloat (-10 * 23) = -230 := by
    rw [roundToFloat_eq_of_abs_lt 7 (-230 * 2 ^ 16) (by norm_num [abs_of_neg])
      (by norm_num [abs_of_neg]) (by norm_num [abs_lt])]
    norm_num
  have r2 : roundToFloat (5 * 23) = 115 := by
    rw [roundToFloat_eq_of_abs_lt 6 (115 * 2 ^ 17) (by norm_num [abs_of_pos])
      (by norm_num [abs_of_pos]) (by norm_num [abs_lt])]
    norm_num
  simp only [mainBoxMin, F32.natCast_def, F32.ofNat_def, F32.neg_def, F32.mul_def, r0,
    Nat.cast_ofNat, roundToFloat_five, roundToFloat_ten, r1, r2]

/-- The range box `box_max` of iteration `i = 22` in binary32 arithmetic. -/
theorem mainBoxMax_binary32 : (mainBoxMax 22 : Box F32) =
    ⟨⟨⟨-115⟩, ⟨-115⟩, ⟨-115⟩⟩, ⟨⟨230⟩, ⟨230⟩, ⟨230⟩⟩⟩ := by
  have r0 : roundToFloat (((22 + 1 : ℕ) : ℕ) : ℚ) = 23 := by
    rw [roundToFloat_eq_of_abs_lt 4 (23 * 2 ^ 19) (by norm_num) (by norm_num) (by norm_num)]
    norm_num
  have r1 : roundToFloat (-5 * 23) = -115 := by
    rw [roundToFloat_eq_of_abs_lt 6 (-115 * 2 ^ 17) (by norm_num [abs_of_neg])
      (by norm_num [abs_of_neg]) (by norm_num [abs_lt])]
    norm_num
  have r2 : roundToFloat (10 * 23) = 230 := by
    rw [roundToFloat_eq_of_abs_lt 7 (230 * 2 ^ 16) (by norm_num [abs_of_pos])
      (by norm_num [abs_of_pos]) (by norm_num [abs_lt])]
    norm_num
  simp only [mainBoxMax, F32.natCast_def, F32.ofNat_def, F32.neg_def, F32.mul_def, r0,
    Nat.cast_ofNat, roundToFloat_five, roundToFloat_ten, r1, r2]

/-- In binary32 arithmetic with `RAND_MAX = 2147483647`, the draw `RAND_MAX` between
`-230` and `-115` yields `-15073279 / 131072 = -114.99999237…`: the difference is `115`,
`float(RAND_MAX)` is `2 ^ 31`, the quotient `2 ^ 31 / 115` rounds to `18673770`, the
quotient `2 ^ 31 / 18673770` rounds to `115 + 2 ^ (-17)`, and the sum with `-230` is
exact. -/
theorem generateValue_binary32_draw_max (k : Nat) :
    (generateValue 2147483647 maxRand k (⟨-230⟩ : F32) ⟨-115⟩).1 =
      ⟨-15073279 / 131072⟩ := by
  have r1 : roundToFloat ((-115 : ℚ) - -230) = 115 := by
    rw [roundToFloat_eq_of_abs_lt 6 (115 * 2 ^ 17) (by norm_num [abs_of_pos])
      (by norm_num [abs_of_pos]) (by norm_num [abs_lt])]
    norm_num
  have r2 : roundToFloat ((2147483647 : ℕ) : ℚ) = 2147483648 := by
    rw [roundToFloat_eq_of_abs_lt 30 (2 ^ 24) (by norm_num [abs_of_pos])
      (by norm_num [abs_of_pos]) (by norm_num [abs_lt])]
    norm_num
  have r3 : roundToFloat ((2147483648 : ℚ) / 115) = 18673770 := by
    rw [roundToFloat_eq_of_abs_lt 24 9336885 (by norm_num [abs_of_pos])
      (by norm_num [abs_of_pos]) (by norm_num [abs_lt])]
    norm_num
  have r4 : roundToFloat ((2147483648 : ℚ) / 18673770) = 15073281 / 131072 := by
    rw [roundToFloat_eq_of_abs_lt 6 15073281 (by norm_num [abs_of_pos])
      (by norm_num [abs_of_pos]) (by norm_num [abs_lt])]
    norm_num
  have r5 : roundToFloat ((-230 : ℚ) + 15073281 / 131072) = -15073279 / 131072 := by
    rw [roundToFloat_eq_of_abs_lt 6 (-15073279) (by norm_num [abs_of_neg])
      (by norm_num [abs_of_neg]) (by norm_num [abs_lt])]
    norm_num
  simp only [generateValue, maxRand, F32.natCast_def, F32.sub_def, F32.div_def, F32.add_def]
  rw [r1, r2, r3, r4, r5]

end SamplerBinary32

/-- C13, as amended: with draws in `[0, RAND_MAX]` and `RAND_MAX > 0`, for every iteration
index `i` of the loop of `main` and every outcome of the draws, the box returned by
`generateBox box_min box_max` is valid.  In exact arithmetic every `min` coordinate lies in
`[-10(i+1), -5(i+1)]` and every `max` coordinate in `[5(i+1), 10(i+1)]`, so that
`min.axis < max.axis` on every axis.  In binary32 arithmetic (every operation rounded to a
significand of 24 bits, exponent range not limited) rounding can move a coordinate past
the end of its range: every `min` coordinate lies in `[-10.0001(i+1), -4.9999(i+1)]` and
every `max` coordinate in `[4.9999(i+1), 10.0001(i+1)]`, and `min.axis < max.axis`, in
particular `min.axis ≤ max.axis`, still holds on every axis. -/
theorem sampled_box_valid (RAND_MAX : Nat) (rand : Nat → Nat)
    (hRM : 0 < RAND_MAX) (hr : ∀ j, rand j ≤ RAND_MAX) (i k : Nat) :
    (∀ {α : Type} [LinearOrderedField α],
      Vec.le
        ⟨-10 * ((i + 1 : Nat) : α), -10 * ((i + 1 : Nat) : α), -10 * ((i + 1 : Nat) : α)⟩
        (generateBox RAND_MAX rand k (mainBoxMin i : Box α) (mainBoxMax i)).1.min_ ∧
      Vec.le (generateBox RAND_MAX rand k (mainBoxMin i : Box α) (mainBoxMax i)).1.min_
        ⟨-5 * ((i + 1 : Nat) : α), -5 * ((i + 1 : Nat) : α), -5 * ((i + 1 : Nat) : α)⟩ ∧
      Vec.le ⟨5 * ((i + 1 : Nat) : α), 5 * ((i + 1 : Nat) : α), 5 * ((i + 1 : Nat) : α)⟩
        (generateBox RAND_MAX rand k (mainBoxMin i : Box α) (mainBoxMax i)).1.max_ ∧
      Vec.le (generateBox RAND_MAX rand k (mainBoxMin i : Box α) (mainBoxMax i)).1.max_
        ⟨10 * ((i + 1 : Nat) : α), 10 * ((i + 1 : Nat) : α), 10 * ((i + 1 : Nat) : α)⟩ ∧
      Vec.lt (generateBox RAND_MAX rand k (mainBoxMin i : Box α) (mainBoxMax i)).1.min_
        (generateBox RAND_MAX rand k (mainBoxMin i : Box α) (mainBoxMax i)).1.max_ ∧
      (generateBox RAND_MAX rand k (mainBoxMin i : Box α) (mainBoxMax i)).1.Valid) ∧
    (Vec.valBetween (-(10 + 1 / 10000) * ((i + 1 : ℕ) : ℚ))
        (-(5 - 1 / 10000) * ((i + 1 : ℕ) : ℚ))
        (generateBox RAND_MAX rand k (mainBoxMin i : Box F32) (mainBoxMax i)).1.min_ ∧
      Vec.valBetween ((5 - 1 / 10000) * ((i + 1 : ℕ) : ℚ))
        ((10 + 1 / 10000) * ((i + 1 : ℕ) : ℚ))
        (generateBox RAND_MAX rand k (mainBoxMin i : Box F32) (mainBoxMax i)).1.max_ ∧
      Vec.lt (generateBox RAND_MAX rand k (mainBoxMin i : Box F32) (mainBoxMax i)).1.min_
        (generateBox RAND_MAX rand k (mainBoxMin i : Box F32) (mainBoxMax i)).1.max_ ∧
      (generateBox RAND_MAX rand k (mainBoxMin i : Box F32) (mainBoxMax i)).1.Valid) :=
  ⟨fun {_} _ => generateBox_valid RAND_MAX rand hRM hr i k,
    generateBox_binary32 RAND_MAX rand hRM hr i k⟩

/-! ## Normalization and the direction of sampled rays -/

section Normalize

/-- Over the reals, the normalization of a vector of non-zero length has length `1`. -/
theorem vectorLength_normalize (v : Vec ℝ) (hv : vectorLength Real.sqrt v ≠ 0) :
    vectorLength Real.sqrt (normalizeVector Real.sqrt v) = 1 := by
  obtain ⟨x, y, z⟩ := v
  simp only [vectorLength, normalizeVector] at hv ⊢
  have hS0 : 0 ≤ x * x + y * y + z * z := by
    nlinarith [mul_self_nonneg x, mul_self_nonneg y, mul_self_nonneg z]
  have hL := Real.mul_self_sqrt hS0
  have hSne : x * x + y * y + z * z ≠ 0 := by
    intro h0
    rw [h0, Real.sqrt_zero] at hv
    exact hv rfl
  have he : x / Real.sqrt (x * x + y * y + z * z) * (x / Real.sqrt (x * x + y * y + z * z)) +
      y / Real.sqrt (x * x + y * y + z * z) * (y / Real.sqrt (x * x + y * y + z * z)) +
      z / Real.sqrt (x * x + y * y + z * z) * (z / Real.sqrt (x * x + y * y + z * z)) =
      (x * x + y * y + z * z) /
        (Real.sqrt (x * x + y * y + z * z) * Real.sqrt (x * x + y * y + z * z)) := by
    field_simp
  rw [he, hL, div_self hSne, Real.sqrt_one]

/-- The number of calls of `std::rand()` after `generateVector` is three more. -/
theorem generateVector_snd {β : Type} [Add β] [Sub β] [Div β] [NatCast β]
    (RAND_MAX : Nat) (rand : Nat → Nat) (k : Nat) (min max : Vec β) :
    (generateVector RAND_MAX rand k min max).2 = k + 3 := rfl

/-- A direction accepted by the rejection loop of `generateRay` has non-zero length. -/
theorem generateRayDir_ne_zero (RAND_MAX : Nat) (rand : Nat → Nat) (min max : Ray ℝ)
    (fuel : Nat) : ∀ (k : Nat) (d : Vec ℝ × Nat),
      generateRayDir Real.sqrt RAND_MAX rand min max fuel k = some d →
        vectorLength Real.sqrt d.1 ≠ 0 := by
  induction fuel with
  | zero => intro k d h; simp [generateRayDir] at h
  | succ n ih =>
    intro k d h
    simp only [generateRayDir] at h
    split_ifs at h with hz
    · exact ih _ d h
    · simp only [Option.some.injEq] at h
      rw [← h]
      exact hz

/-- The rejection loop of `generateRay` returns as soon as the fuel exceeds the number of
an attempt whose drawn vector has non-zero length. -/
theorem generateRayDir_isSome (RAND_MAX : Nat) (rand : Nat → Nat) (min max : Ray ℝ)
    (n : Nat) : ∀ (k fuel : Nat), n < fuel →
      vectorLength Real.sqrt (generateVector RAND_MAX rand (k + 3 * n) min.dir_ max.dir_).1 ≠ 0 →
        (generateRayDir Real.sqrt RAND_MAX rand min max fuel k).isSome = true := by
  induction n with
  | zero =>
    intro k fuel hf hne
    obtain ⟨m, rfl⟩ : ∃ m, fuel = m + 1 := ⟨fuel - 1, by omega⟩
    simp only [Nat.mul_zero, Nat.add_zero] at hne
    simp only [generateRayDir]
    split_ifs with hz
    · exact absurd hz hne
    · rfl
  | succ n ih =>
    intro k fuel hf hne
    obtain ⟨m, rfl⟩ : ∃ m, fuel = m + 1 := ⟨fuel - 1, by omega⟩
    simp only [generateRayDir]
    split_ifs with hz
    · rw [generateVector_snd]
      apply ih (k + 3) m (by omega)
      have : k + 3 + 3 * n = k + 3 * (n + 1) := by ring
      rw [this]
      exact hne
    · rfl

/-- C18: over the reals, for every vector `v` whose length is non-zero,
`vectorLength (normalizeVector v) = 1` and `normalizeVector v` is `v / vectorLength v`
component-wise; consequently the direction of every ray returned by `generateRay`, which
normalizes only a drawn vector that passed the non-zero-length test, has unit length; and
`generateRay` does return a ray as soon as the fuel exceeds the number of an attempt whose
drawn vector has non-zero length. -/
theorem normalized_direction_unit :
    (∀ v : Vec ℝ, vectorLength Real.sqrt v ≠ 0 →
      vectorLength Real.sqrt (normalizeVector Real.sqrt v) = 1 ∧
      normalizeVector Real.sqrt v =
        ⟨v.x_ / vectorLength Real.sqrt v, v.y_ / vectorLength Real.sqrt v,
          v.z_ / vectorLength Real.sqrt v⟩) ∧
    (∀ (RAND_MAX : Nat) (rand : Nat → Nat) (fuel k : Nat) (min max : Ray ℝ)
        (r : Ray ℝ) (k2 : Nat),
      generateRay Real.sqrt RAND_MAX rand fuel k min max = some (r, k2) →
        vectorLength Real.sqrt r.dir_ = 1) ∧
    (∀ (RAND_MAX : Nat) (rand : Nat → Nat) (fuel k n : Nat) (min max : Ray ℝ),
      n < fuel →
      vectorLength Real.sqrt
        (generateVector RAND_MAX rand (k + 3 * n) min.dir_ max.dir_).1 ≠ 0 →
      (generateRay Real.sqrt RAND_MAX rand fuel k min max).isSome = true) := by
  refine ⟨fun v hv => ⟨vectorLength_normalize v hv, rfl⟩, ?_, ?_⟩
  · intro RAND_MAX rand fuel k min max r k2 h
    unfold generateRay at h
    cases hd : generateRayDir Real.sqrt RAND_MAX rand min max fuel k with
    | none => rw [hd] at h; exact absurd h (by simp)
    | some d =>
      rw [hd] at h
      simp only [Option.some.injEq, Prod.mk.injEq] at h
      rw [← h.1]
      exact vectorLength_normalize d.1 (generateRayDir_ne_zero RAND_MAX rand min max fuel k d hd)
  · intro RAND_MAX rand fuel k n min max hf hne
    have hs := generateRayDir_isSome RAND_MAX rand min max n k fuel hf hne
    unfold generateRay
    cases hd : generateRayDir Real.sqrt RAND_MAX rand min max fuel k with
    | none => rw [hd] at hs; exact absurd hs (by simp)
    | some d => rfl

end Normalize

/-! ## Zero direction components -/

namespace XFloat

theorem xlt_trans {a b c : XFloat} (h1 : a < b) (h2 : b < c) : a < c := by
  change lt a b = true at h1
  change lt b c = true at h2
  show lt a c = true
  cases a <;> cases b <;> cases c <;> simp [lt, val] at h1 h2 ⊢
  all_goals linarith

/-- For values that are not NaN, `b ≤ a` and `a < c` give `b < c`. -/
theorem xlt_of_not_lt_of_lt {a b c : XFloat} (ha : a ≠ nan) (hb : b ≠ nan)
    (h1 : ¬ a < b) (h2 : a < c) : b < c := by
  change ¬ (lt a b = true) at h1
  change lt a c = true at h2
  show lt b c = true
  cases a <;> cases b <;> cases c <;> simp [lt, val] at ha hb h1 h2 ⊢
  all_goals linarith

/-- For values that are not NaN, `a < b` and `b ≤ c` give `a < c`. -/
theorem xlt_of_lt_of_not_lt {a b c : XFloat} (hb : b ≠ nan) (hc : c ≠ nan)
    (h1 : a < b) (h2 : ¬ c < b) : a < c := by
  change lt a b = true at h1
  change ¬ (lt c b = true) at h2
  show lt a c = true
  cases a <;> cases b <;> cases c <;> simp [lt, val] at hb hc h1 h2 ⊢
  all_goals linarith

theorem finite_lt_pinf {a : XFloat} (ha : a.isFinite = true) : a < pinf := by
  rcases finite_cases ha with rfl | ⟨q, rfl⟩ <;> rfl

theorem ninf_lt_finite {a : XFloat} (ha : a.isFinite = true) : ninf < a := by
  rcases finite_cases ha with rfl | ⟨q, rfl⟩ <;> rfl

theorem ne_nan_of_finite {a : XFloat} (ha : a.isFinite = true) : a ≠ nan := by
  rintro rfl
  simp [isFinite] at ha

/-- A finite zero is `-0` or `+0`. -/
theorem zero_cases {a : XFloat} (ha : a.isZero = true) : a = nzero ∨ a = fin 0 := by
  cases a with
  | nan => simp [isZero] at ha
  | ninf => simp [isZero] at ha
  | pinf => simp [isZero] at ha
  | nzero => exact Or.inl rfl
  | fin q =>
    right
    have : q = 0 := by simpa [isZero] using ha
    rw [this]

/-- A finite value that is not a zero is a non-zero rational. -/
theorem nonzero_cases {a : XFloat} (hf : a.isFinite = true) (ha : a.isZero = false) :
    ∃ q, q ≠ 0 ∧ a = fin q := by
  rcases finite_cases hf with rfl | ⟨q, rfl⟩
  · simp [isZero] at ha
  · exact ⟨q, by simpa [isZero] using ha, rfl⟩

end XFloat

section ZeroAxis

open XFloat

/-- The slab of an axis with a zero direction component whose origin coordinate lies
strictly between the box bounds is `(-∞, +∞)`. -/
theorem slabPair_zero_inside {lo hi p d : XFloat} (hlo : lo.isFinite = true)
    (hhi : hi.isFinite = true) (hp : p.isFinite = true) (hd : d.isZero = true)
    (h1 : lo.val < p.val) (h2 : p.val < hi.val) :
    slabPair lo hi p d = (ninf, pinf) := by
  have e1 : ¬ lo.val - p.val = 0 := by intro h; linarith
  have e2 : lo.val - p.val < 0 := by linarith
  have e3 : ¬ hi.val - p.val = 0 := by intro h; linarith
  have e4 : ¬ hi.val - p.val < 0 := by intro h; linarith
  rcases zero_cases hd with rfl | rfl
  · rw [slabPair_nzero hlo hhi hp]
    simp only [e1, e2, e3, e4, if_true, if_false]
  · rw [slabPair_pzero hlo hhi hp]
    simp only [e1, e2, e3, e4, if_true, if_false]

/-- The slab of an axis with a zero direction component whose origin coordinate lies
strictly outside the box bounds is `(+∞, +∞)` or `(-∞, -∞)`. -/
theorem slabPair_zero_outside {lo hi p d : XFloat} (hlo : lo.isFinite = true)
    (hhi : hi.isFinite = true) (hp : p.isFinite = true) (hd : d.isZero = true)
    (hle : lo.val ≤ hi.val) (hout : p.val < lo.val ∨ hi.val < p.val) :
    slabPair lo hi p d = (pinf, pinf) ∨ slabPair lo hi p d = (ninf, ninf) := by
  rcases hout with h | h
  · have e1 : ¬ lo.val - p.val = 0 := by intro h; linarith
    have e2 : ¬ lo.val - p.val < 0 := by intro h; linarith
    have e3 : ¬ hi.val - p.val = 0 := by intro h; linarith
    have e4 : ¬ hi.val - p.val < 0 := by intro h; linarith
    rcases zero_cases hd with rfl | rfl
    · right
      rw [slabPair_nzero hlo hhi hp]
      simp only [e1, e2, e3, e4, if_true, if_false]
    · left
      rw [slabPair_pzero hlo hhi hp]
      simp only [e1, e2, e3, e4, if_true, if_false]
  · have e1 : ¬ lo.val - p.val = 0 := by intro h; linarith
    have e2 : lo.val - p.val < 0 := by linarith
    have e3 : ¬ hi.val - p.val = 0 := by intro h; linarith
    have e4 : hi.val - p.val < 0 := by linarith
    rcases zero_cases hd with rfl | rfl
    · left
      rw [slabPair_nzero hlo hhi hp]
      simp only [e1, e2, e3, e4, if_true, if_false]
    · right
      rw [slabPair_pzero hlo hhi hp]
      simp only [e1, e2, e3, e4, if_true, if_false]

/-- The slab values of an axis are not NaN unless the direction component is a zero and
the origin lies exactly on a plane of the box. -/
theorem slabPair_ne_nan {lo hi p d : XFloat} (hlo : lo.isFinite = true)
    (hhi : hi.isFinite = true) (hp : p.isFinite = true) (hd : d.isFinite = true)
    (hc : d.isZero = true → p.val ≠ lo.val ∧ p.val ≠ hi.val) :
    (slabPair lo hi p d).1 ≠ nan ∧ (slabPair lo hi p d).2 ≠ nan := by
  by_cases hz : d.isZero = true
  · obtain ⟨c1, c2⟩ := hc hz
    have e1 : ¬ lo.val - p.val = 0 := by
      intro h; exact c1 (by linarith)
    have e3 : ¬ hi.val - p.val = 0 := by
      intro h; exact c2 (by linarith)
    rcases zero_cases hz with rfl | rfl
    · rw [slabPair_nzero hlo hhi hp]
      simp only [e1, e3, if_false]
      constructor <;> split_ifs <;> simp
    · rw [slabPair_pzero hlo hhi hp]
      simp only [e1, e3, if_false]
      constructor <;> split_ifs <;> simp
  · have hz' : d.isZero = false := by simpa using hz
    obtain ⟨q, hq, rfl⟩ := nonzero_cases hd hz'
    obtain ⟨f1, f2, -, -⟩ := slabPair_fin hlo hhi hp q hq
    exact ⟨ne_nan_of_finite f1, ne_nan_of_finite f2⟩

/-- The slab values of an axis with a non-zero direction component are finite. -/
theorem slabPair_finite {lo hi p d : XFloat} (hlo : lo.isFinite = true)
    (hhi : hi.isFinite = true) (hp : p.isFinite = true) (hd : d.isFinite = true)
    (hz : d.isZero = false) :
    (slabPair lo hi p d).1.isFinite = true ∧ (slabPair lo hi p d).2.isFinite = true := by
  obtain ⟨q, hq, rfl⟩ := nonzero_cases hd hz
  obtain ⟨f1, f2, -, -⟩ := slabPair_fin hlo hhi hp q hq
  exact ⟨f1, f2⟩

/-- A slab that is `(+∞, +∞)` or `(-∞, -∞)` and a slab of finite values exclude each
other: the near value of one exceeds the far value of the other. -/
theorem outside_gt {pa pb : XFloat × XFloat}
    (ha : pa = (pinf, pinf) ∨ pa = (ninf, ninf))
    (hb : pb.1.isFinite = true ∧ pb.2.isFinite = true) : pa.1 > pb.2 ∨ pb.1 > pa.2 := by
  rcases ha with rfl | rfl
  · exact Or.inl (finite_lt_pinf hb.2)
  · exact Or.inr (ninf_lt_finite hb.1)

/-- Without NaN among the six slab values, a near value that exceeds the far value of
another axis makes the sweep return early. -/
theorem sweep_none_of_gt {tx ty tz : XFloat × XFloat}
    (nx : tx.1 ≠ nan ∧ tx.2 ≠ nan) (ny : ty.1 ≠ nan ∧ ty.2 ≠ nan)
    (_nz : tz.1 ≠ nan ∧ tz.2 ≠ nan)
    (h : (tx.1 > ty.2 ∨ ty.1 > tx.2) ∨ (tx.1 > tz.2 ∨ tz.1 > tx.2) ∨
      (ty.1 > tz.2 ∨ tz.1 > ty.2)) : sweep tx ty tz = none := by
  unfold sweep
  by_cases c1 : tx.1 > ty.2 ∨ ty.1 > tx.2
  · rw [if_pos c1]
  · rw [if_neg c1]
    have c2 : (if ty.1 > tx.1 then ty.1 else tx.1) > tz.2 ∨
        tz.1 > (if ty.2 < tx.2 then ty.2 else tx.2) := by
      rcases h with h | h | h
      · exact absurd h c1
      · rcases h with h | h
        · left
          split_ifs with c
          · exact xlt_trans h c
          · exact h
        · right
          split_ifs with c
          · exact xlt_trans c h
          · exact h
      · rcases h with h | h
        · left
          split_ifs with c
          · exact h
          · exact xlt_of_lt_of_not_lt ny.1 nx.1 h c
        · right
          split_ifs with c
          · exact h
          · exact xlt_of_not_lt_of_lt ny.2 nx.2 c h
    rw [if_pos c2]

/-- Without a product `0 * ∞`, an axis with a zero direction component whose origin
coordinate lies strictly outside the box bounds makes `getRayBoxIntersection` return
through a miss branch with the value `0`: for every box and ray with finite coordinates,
a direction that is not the zero vector, and no zero-direction axis whose origin lies
exactly on a plane of the box. -/
theorem zero_axis_outside_misses (R : Ray XFloat) (B : Box XFloat) (ic : Nat)
    (rr : Ray XFloat) (hR : R.IsFinite) (hB : B.IsFinite) (hc : NoPlaneContact R B)
    (hnz : R.dir_.x_.isZero = false ∨ R.dir_.y_.isZero = false ∨ R.dir_.z_.isZero = false)
    (hout :
      (R.dir_.x_.isZero = true ∧ B.min_.x_.val ≤ B.max_.x_.val ∧
        (R.pos_.x_.val < B.min_.x_.val ∨ B.max_.x_.val < R.pos_.x_.val)) ∨
      (R.dir_.y_.isZero = true ∧ B.min_.y_.val ≤ B.max_.y_.val ∧
        (R.pos_.y_.val < B.min_.y_.val ∨ B.max_.y_.val < R.pos_.y_.val)) ∨
      (R.dir_.z_.isZero = true ∧ B.min_.z_.val ≤ B.max_.z_.val ∧
        (R.pos_.z_.val < B.min_.z_.val ∨ B.max_.z_.val < R.pos_.z_.val))) :
    (getRayBoxIntersection R B ic rr).final = false ∧
      (getRayBoxIntersection R B ic rr).dist = 0 := by
  obtain ⟨⟨l1, l2, l3⟩, ⟨u1, u2, u3⟩⟩ := hB
  obtain ⟨⟨p1, p2, p3⟩, ⟨d1, d2, d3⟩⟩ := hR
  obtain ⟨c1, c2, c3⟩ := hc
  have nx := slabPair_ne_nan l1 u1 p1 d1 c1
  have ny := slabPair_ne_nan l2 u2 p2 d2 c2
  have nz := slabPair_ne_nan l3 u3 p3 d3 c3
  have hs : sweep (slabPair B.min_.x_ B.max_.x_ R.pos_.x_ R.dir_.x_)
      (slabPair B.min_.y_ B.max_.y_ R.pos_.y_ R.dir_.y_)
      (slabPair B.min_.z_ B.max_.z_ R.pos_.z_ R.dir_.z_) = none := by
    apply sweep_none_of_gt nx ny nz
    rcases hout with ⟨hz, hle, ho⟩ | ⟨hz, hle, ho⟩ | ⟨hz, hle, ho⟩
    · have ha := slabPair_zero_outside l1 u1 p1 hz hle ho
      rcases hnz with hn | hn | hn
      · rw [hz] at hn; exact absurd hn (by simp)
      · exact Or.inl (outside_gt ha (slabPair_finite l2 u2 p2 d2 hn))
      · exact Or.inr (Or.inl (outside_gt ha (slabPair_finite l3 u3 p3 d3 hn)))
    · have ha := slabPair_zero_outside l2 u2 p2 hz hle ho
      rcases hnz with hn | hn | hn
      · exact Or.inl (outside_gt ha (slabPair_finite l1 u1 p1 d1 hn)).symm
      · rw [hz] at hn; exact absurd hn (by simp)
      · exact Or.inr (Or.inr (outside_gt ha (slabPair_finite l3 u3 p3 d3 hn)))
    · have ha := slabPair_zero_outside l3 u3 p3 hz hle ho
      rcases hnz with hn | hn | hn
      · exact Or.inr (Or.inl (outside_gt ha (slabPair_finite l1 u1 p1 d1 hn)).symm)
      · exact Or.inr (Or.inr (outside_gt ha (slabPair_finite l2 u2 p2 d2 hn)).symm)
      · rw [hz] at hn; exact absurd hn (by simp)
  have hf := (not_final_iff_sweep R B ic rr).mpr hs
  exact ⟨hf, dist_of_not_final R B ic rr hf⟩

/-- An axis with a zero direction component whose origin coordinate lies strictly between
the box bounds does not constrain the result: for every box and ray with finite
coordinates, the outcome of `getRayBoxIntersection` (hit or miss, distance, reflected
axis) is that of the sweep in which the slab of this axis is `(-∞, +∞)`, which does not
depend on the box bounds and the origin coordinate of this axis. -/
theorem zero_axis_inside_unconstrained (R : Ray XFloat) (B : Box XFloat) (hR : R.IsFinite)
    (hB : B.IsFinite) :
    (R.dir_.x_.isZero = true → B.min_.x_.val < R.pos_.x_.val →
      R.pos_.x_.val < B.max_.x_.val →
      sweep (slabPair B.min_.x_ B.max_.x_ R.pos_.x_ R.dir_.x_)
          (slabPair B.min_.y_ B.max_.y_ R.pos_.y_ R.dir_.y_)
          (slabPair B.min_.z_ B.max_.z_ R.pos_.z_ R.dir_.z_) =
        sweep (XFloat.ninf, XFloat.pinf)
          (slabPair B.min_.y_ B.max_.y_ R.pos_.y_ R.dir_.y_)
          (slabPair B.min_.z_ B.max_.z_ R.pos_.z_ R.dir_.z_)) ∧
    (R.dir_.y_.isZero = true → B.min_.y_.val < R.pos_.y_.val →
      R.pos_.y_.val < B.max_.y_.val →
      sweep (slabPair B.min_.x_ B.max_.x_ R.pos_.x_ R.dir_.x_)
          (slabPair B.min_.y_ B.max_.y_ R.pos_.y_ R.dir_.y_)
          (slabPair B.min_.z_ B.max_.z_ R.pos_.z_ R.dir_.z_) =
        sweep (slabPair B.min_.x_ B.max_.x_ R.pos_.x_ R.dir_.x_)
          (XFloat.ninf, XFloat.pinf)
          (slabPair B.min_.z_ B.max_.z_ R.pos_.z_ R.dir_.z_)) ∧
    (R.dir_.z_.isZero = true → B.min_.z_.val < R.pos_.z_.val →
      R.pos_.z_.val < B.max_.z_.val →
      sweep (slabPair B.min_.x_ B.max_.x_ R.pos_.x_ R.dir_.x_)
          (slabPair B.min_.y_ B.max_.y_ R.pos_.y_ R.dir_.y_)
          (slabPair B.min_.z_ B.max_.z_ R.pos_.z_ R.dir_.z_) =
        sweep (slabPair B.min_.x_ B.max_.x_ R.pos_.x_ R.dir_.x_)
          (slabPair B.min_.y_ B.max_.y_ R.pos_.y_ R.dir_.y_)
          (XFloat.ninf, XFloat.pinf)) := by
  obtain ⟨⟨l1, l2, l3⟩, ⟨u1, u2, u3⟩⟩ := hB
  obtain ⟨⟨p1, p2, p3⟩, -⟩ := hR
  refine ⟨fun hz h1 h2 => ?_, fun hz h1 h2 => ?_, fun hz h1 h2 => ?_⟩
  · rw [slabPair_zero_inside l1 u1 p1 hz h1 h2]
  · rw [slabPair_zero_inside l2 u2 p2 hz h1 h2]
  · rw [slabPair_zero_inside l3 u3 p3 hz h1 h2]

/-- Evaluation of the ray `pos = {1, 2, -1}`, `dir = {0, 0, 1}` on the unit box. -/
theorem rayInFacePlane_aux (ic : Nat) (rr : Ray XFloat) :
    getRayBoxIntersection rayInFacePlane (unitBox XFloat) ic rr =
      ⟨XFloat.fin 1, 3,
        ⟨⟨XFloat.fin 1, XFloat.fin 2, XFloat.fin 0⟩,
         ⟨XFloat.fin 0, XFloat.fin 0, XFloat.fin (-1)⟩⟩, true⟩ := by
  simp only [getRayBoxIntersection, getRayPoint, getIntersectChild, rayInFacePlane, unitBox,
    XFloat.zero_eq, XFloat.one_eq, XFloat.two_eq]
  norm_num [XFloat.fin_sub_fin, XFloat.fin_add_fin, XFloat.fin_add_nzero,
    XFloat.nzero_add_fin, XFloat.fin_div_fin, XFloat.fin_mul_fin,
    XFloat.fin_mul_pinf, XFloat.fin_mul_ninf, XFloat.fin_lt_fin, XFloat.fin_le_fin,
    XFloat.neg_fin, XFloat.infOf, XFloat.zeroOf, XFloat.fin_le_pinf, XFloat.not_pinf_lt,
    XFloat.not_lt_ninf, XFloat.ninf_lt_fin, XFloat.fin_lt_pinf, XFloat.ninf_lt_pinf,
    XFloat.not_nan_lt, XFloat.not_lt_nan]

end ZeroAxis

/-! ## The reflected axis -/

namespace XFloat

theorem mul_nan (a : XFloat) : a * nan = nan := by
  show mul a nan = nan
  cases a <;> rfl

theorem add_nan (a : XFloat) : a + nan = nan := by
  show add a nan = nan
  cases a <;> rfl

theorem not_le_nan (a : XFloat) : ¬ a ≤ nan := by
  show ¬ (le a nan = true)
  cases a <;> simp [le]

theorem not_nan_le (a : XFloat) : ¬ nan ≤ a := by
  show ¬ (le nan a = true)
  simp [le]

/-- For values that are not NaN, a comparison `a < b` that is false gives `b ≤ a`. -/
theorem xle_of_not_lt {a b : XFloat} (ha : a ≠ nan) (hb : b ≠ nan) (h : ¬ a < b) :
    b ≤ a := by
  change ¬ (lt a b = true) at h
  show le b a = true
  cases a <;> cases b <;> simp [lt, le, val] at ha hb h ⊢
  all_goals linarith

theorem xle_of_lt {a b : XFloat} (h : a < b) : a ≤ b := by
  change lt a b = true at h
  show le a b = true
  cases a <;> cases b <;> simp [lt, le, val] at h ⊢
  all_goals linarith

theorem xle_refl {a : XFloat} (ha : a ≠ nan) : a ≤ a := by
  show le a a = true
  cases a <;> simp [le] at ha ⊢

end XFloat

section ReflectedAxis

open XFloat

/-- On `XFloat`, when none of the three near values is NaN, a sweep that reaches the final
return yields a value that is at least every near value and is the near value of the first
axis, in the order X, Y, Z, that attains it. -/
theorem sweep_axis_of_ne_nan {tx ty tz : XFloat × XFloat} {t : XFloat} {a : Nat}
    (hx : tx.1 ≠ nan) (hy : ty.1 ≠ nan) (hz : tz.1 ≠ nan)
    (h : sweep tx ty tz = some (t, a)) :
    (tx.1 ≤ t ∧ ty.1 ≤ t ∧ tz.1 ≤ t) ∧
      ((a = 0 ∧ t = tx.1) ∨ (a = 1 ∧ t = ty.1 ∧ tx.1 < t) ∨
        (a = 2 ∧ t = tz.1 ∧ tx.1 < t ∧ ty.1 < t)) := by
  unfold sweep at h
  by_cases c1 : tx.1 > ty.2 ∨ ty.1 > tx.2
  · rw [if_pos c1] at h; exact absurd h (by simp)
  rw [if_neg c1] at h
  by_cases c2 : (if ty.1 > tx.1 then ty.1 else tx.1) > tz.2 ∨
      tz.1 > (if ty.2 < tx.2 then ty.2 else tx.2)
  · rw [if_pos c2] at h; exact absurd h (by simp)
  rw [if_neg c2] at h
  simp only [Option.some.injEq] at h
  by_cases c4 : ty.1 > tx.1
  · simp only [if_pos c4] at h
    by_cases c3 : tz.1 > ty.1
    · rw [if_pos c3] at h
      obtain ⟨rfl, rfl⟩ := Prod.mk.inj h
      exact ⟨⟨xle_of_lt (xlt_trans c4 c3), xle_of_lt c3, xle_refl hz⟩,
        Or.inr (Or.inr ⟨rfl, rfl, xlt_trans c4 c3, c3⟩)⟩
    · rw [if_neg c3] at h
      obtain ⟨rfl, rfl⟩ := Prod.mk.inj h
      exact ⟨⟨xle_of_lt c4, xle_refl hy, xle_of_not_lt hy hz c3⟩,
        Or.inr (Or.inl ⟨rfl, rfl, c4⟩)⟩
  · simp only [if_neg c4] at h
    by_cases c3 : tz.1 > tx.1
    · rw [if_pos c3] at h
      obtain ⟨rfl, rfl⟩ := Prod.mk.inj h
      have hyz : ty.1 < tz.1 := xlt_of_not_lt_of_lt hx hy c4 c3
      exact ⟨⟨xle_of_lt c3, xle_of_lt hyz, xle_refl hz⟩,
        Or.inr (Or.inr ⟨rfl, rfl, c3, hyz⟩)⟩
    · rw [if_neg c3] at h
      obtain ⟨rfl, rfl⟩ := Prod.mk.inj h
      exact ⟨⟨xle_refl hx, xle_of_not_lt hx hy c4, xle_of_not_lt hx hz c3⟩,
        Or.inl ⟨rfl, rfl⟩⟩

/-- In the arithmetic with IEEE special values, zero direction components included:
whenever `getRayBoxIntersection` reaches its final return with distance `d` and none of
the three near-plane parameters it computed is NaN, the reflected ray has the origin
`R.pos + d * R.dir`, no near-plane parameter exceeds `d`, and the direction of the
reflected ray is `R.dir` with one component negated: that of the first axis, in the order
X, Y, Z, whose near-plane parameter is `d`. -/
theorem reflected_axis_of_ne_nan (R : Ray XFloat) (B : Box XFloat) (ic : Nat)
    (rr : Ray XFloat)
    (hx : (slabPair B.min_.x_ B.max_.x_ R.pos_.x_ R.dir_.x_).1 ≠ nan)
    (hy : (slabPair B.min_.y_ B.max_.y_ R.pos_.y_ R.dir_.y_).1 ≠ nan)
    (hz : (slabPair B.min_.z_ B.max_.z_ R.pos_.z_ R.dir_.z_).1 ≠ nan)
    (hfin : (getRayBoxIntersection R B ic rr).final = true) :
    (getRayBoxIntersection R B ic rr).reflect_ray.pos_ =
      getRayPoint R (getRayBoxIntersection R B ic rr).dist ∧
    ((slabPair B.min_.x_ B.max_.x_ R.pos_.x_ R.dir_.x_).1 ≤
        (getRayBoxIntersection R B ic rr).dist ∧
      (slabPair B.min_.y_ B.max_.y_ R.pos_.y_ R.dir_.y_).1 ≤
        (getRayBoxIntersection R B ic rr).dist ∧
      (slabPair B.min_.z_ B.max_.z_ R.pos_.z_ R.dir_.z_).1 ≤
        (getRayBoxIntersection R B ic rr).dist) ∧
    (((getRayBoxIntersection R B ic rr).dist =
          (slabPair B.min_.x_ B.max_.x_ R.pos_.x_ R.dir_.x_).1 ∧
        (getRayBoxIntersection R B ic rr).reflect_ray.dir_ =
          ⟨-R.dir_.x_, R.dir_.y_, R.dir_.z_⟩) ∨
      ((slabPair B.min_.x_ B.max_.x_ R.pos_.x_ R.dir_.x_).1 <
          (getRayBoxIntersection R B ic rr).dist ∧
        (getRayBoxIntersection R B ic rr).dist =
          (slabPair B.min_.y_ B.max_.y_ R.pos_.y_ R.dir_.y_).1 ∧
        (getRayBoxIntersection R B ic rr).reflect_ray.dir_ =
          ⟨R.dir_.x_, -R.dir_.y_, R.dir_.z_⟩) ∨
      ((slabPair B.min_.x_ B.max_.x_ R.pos_.x_ R.dir_.x_).1 <
          (getRayBoxIntersection R B ic rr).dist ∧
        (slabPair B.min_.y_ B.max_.y_ R.pos_.y_ R.dir_.y_).1 <
          (getRayBoxIntersection R B ic rr).dist ∧
        (getRayBoxIntersection R B ic rr).dist =
          (slabPair B.min_.z_ B.max_.z_ R.pos_.z_ R.dir_.z_).1 ∧
        (getRayBoxIntersection R B ic rr).reflect_ray.dir_ =
          ⟨R.dir_.x_, R.dir_.y_, -R.dir_.z_⟩)) := by
  obtain ⟨a, hs, hr, -⟩ := final_iff_sweep R B ic rr hfin
  obtain ⟨hle, hax⟩ := sweep_axis_of_ne_nan hx hy hz hs
  refine ⟨by rw [hr], hle, ?_⟩
  rw [hr]
  rcases hax with ⟨ha, ht⟩ | ⟨ha, ht, h1⟩ | ⟨ha, ht, h1, h2⟩
  · subst ha
    exact Or.inl ⟨ht, rfl⟩
  · subst ha
    exact Or.inr (Or.inl ⟨h1, ht, rfl⟩)
  · subst ha
    exact Or.inr (Or.inr ⟨h1, h2, ht, rfl⟩)

/-- The same for every box and ray of finite coordinates such that on no axis with a zero
direction component the origin of the ray lies exactly on a plane of the box: then no
near-plane parameter is NaN. -/
theorem reflected_axis_of_no_plane_contact (R : Ray XFloat) (B : Box XFloat) (ic : Nat)
    (rr : Ray XFloat) (hR : R.IsFinite) (hB : B.IsFinite) (hc : NoPlaneContact R B)
    (hfin : (getRayBoxIntersection R B ic rr).final = true) :
    ((slabPair B.min_.x_ B.max_.x_ R.pos_.x_ R.dir_.x_).1 ≤
        (getRayBoxIntersection R B ic rr).dist ∧
      (slabPair B.min_.y_ B.max_.y_ R.pos_.y_ R.dir_.y_).1 ≤
        (getRayBoxIntersection R B ic rr).dist ∧
      (slabPair B.min_.z_ B.max_.z_ R.pos_.z_ R.dir_.z_).1 ≤
        (getRayBoxIntersection R B ic rr).dist) ∧
    (((getRayBoxIntersection R B ic rr).dist =
          (slabPair B.min_.x_ B.max_.x_ R.pos_.x_ R.dir_.x_).1 ∧
        (getRayBoxIntersection R B ic rr).reflect_ray.dir_ =
          ⟨-R.dir_.x_, R.dir_.y_, R.dir_.z_⟩) ∨
      ((slabPair B.min_.x_ B.max_.x_ R.pos_.x_ R.dir_.x_).1 <
          (getRayBoxIntersection R B ic rr).dist ∧
        (getRayBoxIntersection R B ic rr).dist =
          (slabPair B.min_.y_ B.max_.y_ R.pos_.y_ R.dir_.y_).1 ∧
        (getRayBoxIntersection R B ic rr).reflect_ray.dir_ =
          ⟨R.dir_.x_, -R.dir_.y_, R.dir_.z_⟩) ∨
      ((slabPair B.min_.x_ B.max_.x_ R.pos_.x_ R.dir_.x_).1 <
          (getRayBoxIntersection R B ic rr).dist ∧
        (slabPair B.min_.y_ B.max_.y_ R.pos_.y_ R.dir_.y_).1 <
          (getRayBoxIntersection R B ic rr).dist ∧
        (getRayBoxIntersection R B ic rr).dist =
          (slabPair B.min_.z_ B.max_.z_ R.pos_.z_ R.dir_.z_).1 ∧
        (getRayBoxIntersection R B ic rr).reflect_ray.dir_ =
          ⟨R.dir_.x_, R.dir_.y_, -R.dir_.z_⟩)) := by
  obtain ⟨⟨hpx, hpy, hpz⟩, ⟨hdx, hdy, hdz⟩⟩ := hR
  obtain ⟨⟨hlx, hly, hlz⟩, ⟨hhx, hhy, hhz⟩⟩ := hB
  obtain ⟨cx, cy, cz⟩ := hc
  exact (reflected_axis_of_ne_nan R B ic rr
    (slabPair_ne_nan hlx hhx hpx hdx cx).1 (slabPair_ne_nan hly hhy hpy hdy cy).1
    (slabPair_ne_nan hlz hhz hpz hdz cz).1 hfin).2

/-- Evaluation of the ray `pos = {0, 0.5, -5}`, `dir = {0, 0, 1}` on the unit box. -/
theorem rayGrazingFace_aux (ic : Nat) (rr : Ray XFloat) :
    getRayBoxIntersection rayGrazingFace (unitBox XFloat) ic rr =
      ⟨XFloat.nan, 7,
        ⟨⟨XFloat.nan, XFloat.nan, XFloat.nan⟩,
         ⟨XFloat.nzero, XFloat.fin 0, XFloat.fin 1⟩⟩, true⟩ := by
  simp only [getRayBoxIntersection, getRayPoint, getIntersectChild, rayGrazingFace, unitBox,
    XFloat.zero_eq, XFloat.one_eq, XFloat.two_eq]
  norm_num [XFloat.fin_sub_fin, XFloat.fin_add_fin, XFloat.fin_add_nzero,
    XFloat.nzero_add_fin, XFloat.fin_div_fin, XFloat.fin_mul_fin,
    XFloat.fin_mul_pinf, XFloat.fin_mul_ninf, XFloat.fin_lt_fin, XFloat.fin_le_fin,
    XFloat.neg_fin, XFloat.infOf, XFloat.zeroOf, XFloat.fin_le_pinf, XFloat.not_pinf_lt,
    XFloat.not_lt_ninf, XFloat.ninf_lt_fin, XFloat.fin_lt_pinf, XFloat.ninf_lt_pinf,
    XFloat.not_nan_lt, XFloat.not_lt_nan, XFloat.mul_nan, XFloat.add_nan]

end ReflectedAxis

/-- In a linear order, a sweep that reaches the final return yields a value that is at
least every near value and is the near value of the first axis, in the order X, Y, Z,
that attains it. -/
theorem sweep_axis_of_linear_order {β : Type} [LinearOrder β] {tx ty tz : β × β} {t : β}
    {a : Nat}
    (h : sweep tx ty tz = some (t, a)) :
    (tx.1 ≤ t ∧ ty.1 ≤ t ∧ tz.1 ≤ t) ∧
      ((a = 0 ∧ t = tx.1) ∨ (a = 1 ∧ t = ty.1 ∧ tx.1 < t) ∨
        (a = 2 ∧ t = tz.1 ∧ tx.1 < t ∧ ty.1 < t)) := by
  unfold sweep at h
  by_cases c1 : tx.1 > ty.2 ∨ ty.1 > tx.2
  · rw [if_pos c1] at h; exact absurd h (by simp)
  rw [if_neg c1] at h
  by_cases c2 : (if ty.1 > tx.1 then ty.1 else tx.1) > tz.2 ∨
      tz.1 > (if ty.2 < tx.2 then ty.2 else tx.2)
  · rw [if_pos c2] at h; exact absurd h (by simp)
  rw [if_neg c2] at h
  simp only [Option.some.injEq] at h
  by_cases c4 : ty.1 > tx.1
  · simp only [if_pos c4] at h
    by_cases c3 : tz.1 > ty.1
    · rw [if_pos c3] at h
      obtain ⟨rfl, rfl⟩ := Prod.mk.inj h
      exact ⟨⟨le_of_lt (lt_trans c4 c3), le_of_lt c3, le_refl _⟩,
        Or.inr (Or.inr ⟨rfl, rfl, lt_trans c4 c3, c3⟩)⟩
    · rw [if_neg c3] at h
      obtain ⟨rfl, rfl⟩ := Prod.mk.inj h
      exact ⟨⟨le_of_lt c4, le_refl _, not_lt.mp c3⟩, Or.inr (Or.inl ⟨rfl, rfl, c4⟩)⟩
  · simp only [if_neg c4] at h
    by_cases c3 : tz.1 > tx.1
    · rw [if_pos c3] at h
      obtain ⟨rfl, rfl⟩ := Prod.mk.inj h
      have hyz : ty.1 < tz.1 := lt_of_le_of_lt (not_lt.mp c4) c3
      exact ⟨⟨le_of_lt c3, le_of_lt hyz, le_refl _⟩, Or.inr (Or.inr ⟨rfl, rfl, c3, hyz⟩)⟩
    · rw [if_neg c3] at h
      obtain ⟨rfl, rfl⟩ := Prod.mk.inj h
      exact ⟨⟨le_refl _, not_lt.mp c4, not_lt.mp c3⟩, Or.inl ⟨rfl, rfl⟩⟩

section OrderedScalars

variable {α : Type} [LinearOrder α] [Add α] [Sub α] [Mul α] [Div α] [Neg α]
  [OfNat α 0] [OfNat α 1] [OfNat α 2]

/-- In every arithmetic whose values are linearly ordered, whatever its operations
compute (exact or rounded results): whenever `getRayBoxIntersection` reaches its final
return with distance `d`, the reflected ray has the origin `R.pos + d * R.dir`, the
distance `d` is the largest of the three near-plane parameters that the code computed, and
the direction of the reflected ray is `R.dir` with one component negated: that of the
first axis, in the order X, Y, Z, whose near-plane parameter equals `d`.  Such an
arithmetic has no NaN and no infinite reciprocal; it is the arithmetic of the C++ code for
rays without zero direction component (in a field `1 / 0` is `0`).  Zero direction
components are the subject of `reflected_axis_of_ne_nan`. -/
theorem reflected_axis_of_linear_order (R : Ray α) (B : Box α) (ic : Nat) (rr : Ray α)
    (hfin : (getRayBoxIntersection R B ic rr).final = true) :
    (getRayBoxIntersection R B ic rr).reflect_ray.pos_ =
      getRayPoint R (getRayBoxIntersection R B ic rr).dist ∧
    (getRayBoxIntersection R B ic rr).dist =
      max (max (slabPair B.min_.x_ B.max_.x_ R.pos_.x_ R.dir_.x_).1
        (slabPair B.min_.y_ B.max_.y_ R.pos_.y_ R.dir_.y_).1)
        (slabPair B.min_.z_ B.max_.z_ R.pos_.z_ R.dir_.z_).1 ∧
    (((slabPair B.min_.x_ B.max_.x_ R.pos_.x_ R.dir_.x_).1 =
          (getRayBoxIntersection R B ic rr).dist ∧
        (getRayBoxIntersection R B ic rr).reflect_ray.dir_ =
          ⟨-R.dir_.x_, R.dir_.y_, R.dir_.z_⟩) ∨
      ((slabPair B.min_.x_ B.max_.x_ R.pos_.x_ R.dir_.x_).1 ≠
          (getRayBoxIntersection R B ic rr).dist ∧
        (slabPair B.min_.y_ B.max_.y_ R.pos_.y_ R.dir_.y_).1 =
          (getRayBoxIntersection R B ic rr).dist ∧
        (getRayBoxIntersection R B ic rr).reflect_ray.dir_ =
          ⟨R.dir_.x_, -R.dir_.y_, R.dir_.z_⟩) ∨
      ((slabPair B.min_.x_ B.max_.x_ R.pos_.x_ R.dir_.x_).1 ≠
          (getRayBoxIntersection R B ic rr).dist ∧
        (slabPair B.min_.y_ B.max_.y_ R.pos_.y_ R.dir_.y_).1 ≠
          (getRayBoxIntersection R B ic rr).dist ∧
        (slabPair B.min_.z_ B.max_.z_ R.pos_.z_ R.dir_.z_).1 =
          (getRayBoxIntersection R B ic rr).dist ∧
        (getRayBoxIntersection R B ic rr).reflect_ray.dir_ =
          ⟨R.dir_.x_, R.dir_.y_, -R.dir_.z_⟩)) := by
  obtain ⟨a, hs, hr, -⟩ := final_iff_sweep R B ic rr hfin
  obtain ⟨⟨h1, h2, h3⟩, hax⟩ := sweep_axis_of_linear_order hs
  refine ⟨by rw [hr], ?_, ?_⟩
  · apply le_antisymm
    · rcases hax with ⟨-, ht⟩ | ⟨-, ht, -⟩ | ⟨-, ht, -⟩
      · rw [ht]; exact le_trans (le_max_left _ _) (le_max_left _ _)
      · rw [ht]; exact le_trans (le_max_right _ _) (le_max_left _ _)
      · rw [ht]; exact le_max_right _ _
    · exact max_le (max_le h1 h2) h3
  · rw [hr]
    rcases hax with ⟨ha, ht⟩ | ⟨ha, ht, h1⟩ | ⟨ha, ht, h1, h2⟩
    · subst ha
      exact Or.inl ⟨ht.symm, rfl⟩
    · subst ha
      exact Or.inr (Or.inl ⟨ne_of_lt h1, ht.symm, rfl⟩)
    · subst ha
      exact Or.inr (Or.inr ⟨ne_of_lt h1, ne_of_lt h2, ht.symm, rfl⟩)

end OrderedScalars

/-! ## Instances on concrete inputs -/

section Instances

/-- C11, failing input: the unit box has `min < max`, the ray `pos = {1, 2, -1}`,
`dir = {0, 0, 1}` has finite coordinates and a non-zero direction, its Y direction
component is `+0` and its origin lies strictly outside `[0, 1]` on the Y axis; yet
`getRayBoxIntersection` reaches its final return with the distance `1` and the entry point
`{1, 2, 0}`, which is not in the box.  The far value of the X slab is `(1 - 1) * ∞`, a
NaN, and every comparison with it is false. -/
theorem zero_axis_outside_reported_as_hit (ic : Nat) (rr : Ray XFloat) :
    (unitBox XFloat).IsFinite ∧ rayInFacePlane.IsFinite ∧
    Vec.lt (unitBox XFloat).min_ (unitBox XFloat).max_ ∧
    rayInFacePlane.dir_.z_ = XFloat.fin 1 ∧ rayInFacePlane.dir_.y_ = XFloat.fin 0 ∧
    (unitBox XFloat).max_.y_ < rayInFacePlane.pos_.y_ ∧
    slabPair (unitBox XFloat).min_.x_ (unitBox XFloat).max_.x_ rayInFacePlane.pos_.x_
      rayInFacePlane.dir_.x_ = (XFloat.ninf, XFloat.nan) ∧
    getRayBoxIntersection rayInFacePlane (unitBox XFloat) ic rr =
      ⟨XFloat.fin 1, 3,
        ⟨⟨XFloat.fin 1, XFloat.fin 2, XFloat.fin 0⟩,
         ⟨XFloat.fin 0, XFloat.fin 0, XFloat.fin (-1)⟩⟩, true⟩ ∧
    ¬ (unitBox XFloat).contains ⟨XFloat.fin 1, XFloat.fin 2, XFloat.fin 0⟩ := by
  refine ⟨?_, ?_, ?_, rfl, rfl, ?_, ?_, rayInFacePlane_aux ic rr, ?_⟩
  · simp [Box.IsFinite, Vec.IsFinite, unitBox, XFloat.zero_eq, XFloat.one_eq, XFloat.isFinite]
  · simp [Ray.IsFinite, Vec.IsFinite, rayInFacePlane, XFloat.isFinite]
  · simp only [Vec.lt, unitBox, XFloat.zero_eq, XFloat.one_eq]
    norm_num [XFloat.fin_lt_fin]
  · simp only [unitBox, rayInFacePlane, XFloat.one_eq]
    norm_num [XFloat.fin_lt_fin]
  · simp only [slabPair, unitBox, rayInFacePlane, XFloat.zero_eq, XFloat.one_eq]
    norm_num [XFloat.fin_sub_fin, XFloat.fin_div_fin, XFloat.fin_mul_pinf, XFloat.infOf,
      XFloat.fin_le_pinf]
  · simp only [Box.contains, Vec.le, unitBox, XFloat.zero_eq, XFloat.one_eq]
    norm_num [XFloat.fin_le_fin]

/-- C14, failing input: the unit box has `min < max`; the ray `pos = {0, 0.5, -5}`,
`dir = {0, 0, 1}` has finite coordinates and a non-zero direction and meets the box at the
distance `5`, in the point `{0, 0.5, 0}` of the face `z = 0`.  The three near-plane
parameters that the code computes are NaN (the product `(0 - 0) * ∞` on the X axis), `-∞`
and `5`.  Every comparison with the NaN is false, so `getRayBoxIntersection` reaches its
final return with the distance NaN, which the test `dist <= 0` of the hit loop of the
caller does not reject, with the entry point `{NaN, NaN, NaN}` and with the X component
of the direction negated (`+0` becomes `-0`), although the Z slab determines the entry:
the distance is not the largest near-plane parameter and the negated axis is not the
axis of that parameter. -/
theorem nan_near_value_keeps_x_axis (ic : Nat) (rr : Ray XFloat) :
    (unitBox XFloat).IsFinite ∧ rayGrazingFace.IsFinite ∧
    Vec.lt (unitBox XFloat).min_ (unitBox XFloat).max_ ∧
    rayGrazingFace.dir_ = ⟨XFloat.fin 0, XFloat.fin 0, XFloat.fin 1⟩ ∧
    (unitBox XFloat).contains (getRayPoint rayGrazingFace (XFloat.fin 5)) ∧
    slabPair (unitBox XFloat).min_.x_ (unitBox XFloat).max_.x_ rayGrazingFace.pos_.x_
      rayGrazingFace.dir_.x_ = (XFloat.nan, XFloat.pinf) ∧
    slabPair (unitBox XFloat).min_.y_ (unitBox XFloat).max_.y_ rayGrazingFace.pos_.y_
      rayGrazingFace.dir_.y_ = (XFloat.ninf, XFloat.pinf) ∧
    slabPair (unitBox XFloat).min_.z_ (unitBox XFloat).max_.z_ rayGrazingFace.pos_.z_
      rayGrazingFace.dir_.z_ = (XFloat.fin 5, XFloat.fin 6) ∧
    getRayBoxIntersection rayGrazingFace (unitBox XFloat) ic rr =
      ⟨XFloat.nan, 7,
        ⟨⟨XFloat.nan, XFloat.nan, XFloat.nan⟩,
         ⟨XFloat.nzero, XFloat.fin 0, XFloat.fin 1⟩⟩, true⟩ ∧
    ¬ (getRayBoxIntersection rayGrazingFace (unitBox XFloat) ic rr).dist ≤ 0 ∧
    ¬ XFloat.fin 5 ≤ (getRayBoxIntersection rayGrazingFace (unitBox XFloat) ic rr).dist ∧
    (getRayBoxIntersection rayGrazingFace (unitBox XFloat) ic rr).reflect_ray.dir_ ≠
      ⟨rayGrazingFace.dir_.x_, rayGrazingFace.dir_.y_, -rayGrazingFace.dir_.z_⟩ := by
  refine ⟨?_, ?_, ?_, rfl, ?_, ?_, ?_, ?_, rayGrazingFace_aux ic rr, ?_, ?_, ?_⟩
  · simp [Box.IsFinite, Vec.IsFinite, unitBox, XFloat.zero_eq, XFloat.one_eq, XFloat.isFinite]
  · simp [Ray.IsFinite, Vec.IsFinite, rayGrazingFace, XFloat.isFinite]
  · simp only [Vec.lt, unitBox, XFloat.zero_eq, XFloat.one_eq]
    norm_num [XFloat.fin_lt_fin]
  · simp only [Box.contains, Vec.le, getRayPoint, rayGrazingFace, unitBox, XFloat.zero_eq,
      XFloat.one_eq]
    norm_num [XFloat.fin_mul_fin, XFloat.fin_add_fin, XFloat.fin_le_fin, XFloat.zeroOf]
  · simp only [slabPair, unitBox, rayGrazingFace, XFloat.zero_eq, XFloat.one_eq]
    norm_num [XFloat.fin_sub_fin, XFloat.fin_div_fin, XFloat.fin_mul_pinf, XFloat.infOf,
      XFloat.fin_le_pinf]
  · simp only [slabPair, unitBox, rayGrazingFace, XFloat.zero_eq, XFloat.one_eq]
    norm_num [XFloat.fin_sub_fin, XFloat.fin_div_fin, XFloat.fin_mul_pinf, XFloat.infOf,
      XFloat.fin_le_pinf]
  · simp only [slabPair, unitBox, rayGrazingFace, XFloat.zero_eq, XFloat.one_eq]
    norm_num [XFloat.fin_sub_fin, XFloat.fin_div_fin, XFloat.fin_mul_fin, XFloat.fin_le_fin]
  · rw [rayGrazingFace_aux]
    exact XFloat.not_nan_le _
  · rw [rayGrazingFace_aux]
    exact XFloat.not_le_nan _
  · rw [rayGrazingFace_aux]
    simp [rayGrazingFace]

/-- The reflected axis over the rationals, at the ray `pos = {-1, 0, 0}`,
`dir = {1, 1, 1}` and the box `{{0,0,0},{2,2,2}}`: the X slab determines the entry. -/
theorem reflected_axis_of_linear_order_witness :
    (getRayBoxIntersection rayDiagonal (box2 ℚ) 0 (ray0 ℚ)).final = true ∧
    (getRayBoxIntersection rayDiagonal (box2 ℚ) 0 (ray0 ℚ)).reflect_ray.pos_ =
      getRayPoint rayDiagonal (getRayBoxIntersection rayDiagonal (box2 ℚ) 0 (ray0 ℚ)).dist :=
  have h : (getRayBoxIntersection rayDiagonal (box2 ℚ) 0 (ray0 ℚ)).final = true := by
    rw [rayDiagonal_aux]
  ⟨h, (reflected_axis_of_linear_order rayDiagonal (box2 ℚ) 0 (ray0 ℚ) h).1⟩

/-- The reflected axis with zero direction components, at the ray `pos = {-5, 0.5, 0.5}`,
`dir = {1, 0, 0}` and the unit box: the near-plane parameters are `5`, `-∞` and `-∞`,
none of them exceeds the distance. -/
theorem reflected_axis_of_no_plane_contact_witness :
    rayAlongX.IsFinite ∧ (unitBox XFloat).IsFinite ∧
    NoPlaneContact rayAlongX (unitBox XFloat) ∧
    (getRayBoxIntersection rayAlongX (unitBox XFloat) 0 (ray0 XFloat)).final = true ∧
    ((slabPair (unitBox XFloat).min_.x_ (unitBox XFloat).max_.x_ rayAlongX.pos_.x_
          rayAlongX.dir_.x_).1 ≤
        (getRayBoxIntersection rayAlongX (unitBox XFloat) 0 (ray0 XFloat)).dist ∧
      (slabPair (unitBox XFloat).min_.y_ (unitBox XFloat).max_.y_ rayAlongX.pos_.y_
          rayAlongX.dir_.y_).1 ≤
        (getRayBoxIntersection rayAlongX (unitBox XFloat) 0 (ray0 XFloat)).dist ∧
      (slabPair (unitBox XFloat).min_.z_ (unitBox XFloat).max_.z_ rayAlongX.pos_.z_
          rayAlongX.dir_.z_).1 ≤
        (getRayBoxIntersection rayAlongX (unitBox XFloat) 0 (ray0 XFloat)).dist) :=
  have hR : rayAlongX.IsFinite := by
    simp [Ray.IsFinite, Vec.IsFinite, rayAlongX, XFloat.isFinite]
  have hB : (unitBox XFloat).IsFinite := by
    simp [Box.IsFinite, Vec.IsFinite, unitBox, XFloat.zero_eq, XFloat.one_eq, XFloat.isFinite]
  have hc : NoPlaneContact rayAlongX (unitBox XFloat) := by
    simp only [NoPlaneContact, rayAlongX, unitBox, XFloat.zero_eq, XFloat.one_eq,
      XFloat.val_fin, XFloat.isZero]
    norm_num
  have h : (getRayBoxIntersection rayAlongX (unitBox XFloat) 0 (ray0 XFloat)).final = true := by
    rw [rayAlongX_aux]
  ⟨hR, hB, hc, h,
    (reflected_axis_of_no_plane_contact rayAlongX (unitBox XFloat) 0 (ray0 XFloat) hR hB hc
      h).1⟩

/-- C12, with `RAND_MAX = 4` and every draw equal to `2`, between `1` and `3`. -/
theorem generateValue_in_range_witness :
    0 < 4 ∧ (∀ j, constRand j ≤ 4) ∧
    ((1 : ℚ) ≤ (generateValue 4 constRand 0 (1 : ℚ) 3).1 ∧
      (generateValue 4 constRand 0 (1 : ℚ) 3).1 ≤ 3) :=
  have h1 : 0 < 4 := by decide
  have h2 : ∀ j, constRand j ≤ 4 := fun _ => by simp [constRand]
  have h := (generateValue_in_range (α := ℚ) 4 constRand h1 h2).1 0 1 3 (by norm_num)
  ⟨h1, h2, h.2.1, h.2.2.1⟩

/-- C13, counterexample: in binary32 arithmetic with `RAND_MAX = 2147483647`, at the
iteration `i = 22` (`box_min.min = -230`, `box_max.min = -115`) and with every draw equal
to `RAND_MAX`, every `min` coordinate of the box returned by `generateBox` is
`-15073279 / 131072 = -114.99999237…`, which exceeds the upper end `-5(i+1) = -115` of its
range. -/
theorem sampled_box_min_exceeds_range :
    0 < 2147483647 ∧ (∀ j, maxRand j ≤ 2147483647) ∧
    (-5 * ((22 + 1 : Nat) : F32)) = ⟨-115⟩ ∧
    (generateBox 2147483647 maxRand 0 (mainBoxMin 22 : Box F32) (mainBoxMax 22)).1.min_ =
      ⟨⟨-15073279 / 131072⟩, ⟨-15073279 / 131072⟩, ⟨-15073279 / 131072⟩⟩ ∧
    ¬ Vec.le
      (generateBox 2147483647 maxRand 0 (mainBoxMin 22 : Box F32) (mainBoxMax 22)).1.min_
      ⟨-5 * ((22 + 1 : Nat) : F32), -5 * ((22 + 1 : Nat) : F32),
        -5 * ((22 + 1 : Nat) : F32)⟩ := by
  have h5 : (-5 * ((22 + 1 : Nat) : F32)) = ⟨-115⟩ :=
    congrArg (fun b : Box F32 => b.min_.x_) mainBoxMax_binary32
  have hb : (generateBox 2147483647 maxRand 0 (mainBoxMin 22 : Box F32)
      (mainBoxMax 22)).1.min_ =
      ⟨⟨-15073279 / 131072⟩, ⟨-15073279 / 131072⟩, ⟨-15073279 / 131072⟩⟩ := by
    rw [mainBoxMin_binary32, mainBoxMax_binary32]
    simp only [generateBox, generateVector, generateValue_binary32_draw_max]
  refine ⟨by decide, fun _ => le_refl _, h5, hb, ?_⟩
  rw [hb, h5]
  rintro ⟨h, -, -⟩
  rw [F32.le_def] at h
  norm_num at h

/-- C13, as amended, at the input of the counterexample: in binary32 arithmetic with
`RAND_MAX = 2147483647`, at the iteration `i = 22` and with every draw equal to
`RAND_MAX`, the box returned by `generateBox` has `min.axis < max.axis` on every axis. -/
theorem sampled_box_valid_witness :
    0 < 2147483647 ∧ (∀ j, maxRand j ≤ 2147483647) ∧
    Vec.lt
      (generateBox 2147483647 maxRand 0 (mainBoxMin 22 : Box F32) (mainBoxMax 22)).1.min_
      (generateBox 2147483647 maxRand 0 (mainBoxMin 22 : Box F32) (mainBoxMax 22)).1.max_ :=
  have h1 : 0 < 2147483647 := by decide
  have h2 : ∀ j, maxRand j ≤ 2147483647 := fun _ => le_refl _
  ⟨h1, h2, (sampled_box_valid 2147483647 maxRand h1 h2 22 0).2.2.2.1⟩

/-- The sampled box in exact arithmetic, with `RAND_MAX = 4` and every draw equal to `2`,
at the first iteration. -/
theorem generateBox_valid_witness :
    0 < 4 ∧ (∀ j, constRand j ≤ 4) ∧
    (generateBox 4 constRand 0 (mainBoxMin 0 : Box ℚ) (mainBoxMax 0)).1.Valid :=
  have h1 : 0 < 4 := by decide
  have h2 : ∀ j, constRand j ≤ 4 := fun _ => by simp [constRand]
  ⟨h1, h2, (generateBox_valid (α := ℚ) 4 constRand h1 h2 0 0).2.2.2.2.2⟩

/-- C15, at the ray `pos = {-1, 0, 0}`, `dir = {1, 1, 1}` and the box
`{{0,0,0},{2,2,2}}`. -/
theorem slab_test_eq_reference_witness :
    (box2 ℚ).Valid ∧ rayDiagonal.dir_.x_ ≠ 0 ∧ rayDiagonal.dir_.y_ ≠ 0 ∧
    rayDiagonal.dir_.z_ ≠ 0 ∧
    (if (getRayBoxIntersection rayDiagonal (box2 ℚ) 0 (ray0 ℚ)).final = true
      then some (getRayBoxIntersection rayDiagonal (box2 ℚ) 0 (ray0 ℚ)).dist else none) =
      slabReference rayDiagonal (box2 ℚ) :=
  have hB : (box2 ℚ).Valid := by simp [box2, Box.Valid, Vec.le]
  have h1 : rayDiagonal.dir_.x_ ≠ 0 := by simp [rayDiagonal]
  have h2 : rayDiagonal.dir_.y_ ≠ 0 := by simp [rayDiagonal]
  have h3 : rayDiagonal.dir_.z_ ≠ 0 := by simp [rayDiagonal]
  ⟨hB, h1, h2, h3, (slab_test_eq_reference rayDiagonal (box2 ℚ) 0 (ray0 ℚ) hB h1 h2 h3).1⟩

/-- C16, at the box `{{0,0,0},{2,2,2}}` and the point `{1, 1/2, 2}`. -/
theorem origin_box_child_contains_witness :
    (box2 ℚ).min_ = ⟨0, 0, 0⟩ ∧ (box2 ℚ).contains ⟨1, 1 / 2, 2⟩ ∧
    (getBoxChild (box2 ℚ) (getIntersectChild (box2 ℚ) ⟨1, 1 / 2, 2⟩)).contains
      ⟨1, 1 / 2, 2⟩ :=
  have hP : (box2 ℚ).contains ⟨1, 1 / 2, 2⟩ := by
    simp only [Box.contains, Vec.le, box2]
    norm_num
  ⟨rfl, hP, origin_box_child_contains (box2 ℚ) ⟨1, 1 / 2, 2⟩ rfl hP⟩

/-- C17, at the box `{{-10,-10,-10},{10,10,10}}`. -/
theorem nonorigin_box_child_misses_witness :
    Vec.lt boxCentred.min_ boxCentred.max_ ∧
    (boxCentred.min_.x_ ≠ 0 ∨ boxCentred.min_.y_ ≠ 0 ∨ boxCentred.min_.z_ ≠ 0) ∧
    ∃ P, boxCentred.contains P ∧
      ¬ (getBoxChild boxCentred (getIntersectChild boxCentred P)).contains P :=
  have h1 : Vec.lt boxCentred.min_ boxCentred.max_ := by
    simp only [Vec.lt, boxCentred]
    norm_num
  have h2 : boxCentred.min_.x_ ≠ 0 ∨ boxCentred.min_.y_ ≠ 0 ∨ boxCentred.min_.z_ ≠ 0 :=
    Or.inl (by simp [boxCentred])
  ⟨h1, h2, nonorigin_box_child_misses boxCentred h1 h2⟩

/-- C18, at the vector `{2, 3, 6}` of length `7`. -/
theorem normalized_direction_unit_witness :
    vectorLength Real.sqrt (⟨2, 3, 6⟩ : Vec ℝ) ≠ 0 ∧
    vectorLength Real.sqrt (normalizeVector Real.sqrt (⟨2, 3, 6⟩ : Vec ℝ)) = 1 :=
  have h : vectorLength Real.sqrt (⟨2, 3, 6⟩ : Vec ℝ) ≠ 0 := by
    simp only [vectorLength]
    exact Real.sqrt_ne_zero'.mpr (by norm_num)
  ⟨h, (normalized_direction_unit.1 ⟨2, 3, 6⟩ h).1⟩

/-- C19, at the ray `pos = {-1, 0, 0}`, `dir = {1, 1, 1}` and the box
`{{0,0,0},{2,2,2}}`: the distance is `1 > 0`, the origin is outside the box and the point
at `t = 1` is in the box. -/
theorem positive_dist_iff_witness :
    (box2 ℚ).Valid ∧ rayDiagonal.dir_.x_ ≠ 0 ∧ rayDiagonal.dir_.y_ ≠ 0 ∧
    rayDiagonal.dir_.z_ ≠ 0 ∧
    (getRayBoxIntersection rayDiagonal (box2 ℚ) 0 (ray0 ℚ)).dist > 0 ∧
    (¬ (box2 ℚ).contains rayDiagonal.pos_ ∧
      ∃ t, t > 0 ∧ (box2 ℚ).contains (getRayPoint rayDiagonal t)) :=
  have hB : (box2 ℚ).Valid := by simp [box2, Box.Valid, Vec.le]
  have h1 : rayDiagonal.dir_.x_ ≠ 0 := by simp [rayDiagonal]
  have h2 : rayDiagonal.dir_.y_ ≠ 0 := by simp [rayDiagonal]
  have h3 : rayDiagonal.dir_.z_ ≠ 0 := by simp [rayDiagonal]
  have hd : (getRayBoxIntersection rayDiagonal (box2 ℚ) 0 (ray0 ℚ)).dist > 0 := by
    rw [rayDiagonal_aux]
    norm_num
  ⟨hB, h1, h2, h3, hd,
    (positive_dist_iff rayDiagonal (box2 ℚ) 0 (ray0 ℚ) hB h1 h2 h3).1.mp hd⟩

end Instances

end GeometryGenerator
